import Mathlib

/-!
# rate-limiter-go: a shallow embedding of the limiter and its in-process store

Sources embedded here:

* `internal/domain/entities.go`, `internal/domain/storage.go`
* `internal/infra/storage/memory.go`
* `internal/usecase/rate_limiter.go`

Modelling conventions.

* `time.Time` is an integer number of nanoseconds counted from Go's zero
  `Time`; `IsZero` is therefore `t = 0`.  `time.Duration` is an integer number
  of nanoseconds.  Additions are taken on `Int` (no saturation, no wrap-around:
  a counter would need `2^63` increments inside one window to overflow).
* `time.Now()` is an explicit argument `now` of every operation.  One call of
  `CheckLimit` is one instant: every clock reading made while it runs gets the
  same `now`.  `CheckLimitAt` is the same method with each of its clock
  readings given separately (`Readings`); it is `CheckLimit` when they are all
  equal, and differs from it in the value of `BlockedUntil` only.
* The mutex of `MemoryStorage` is not modelled; operations are executed one
  after the other, each a function from the table to a result and a new table.
* `map[string]*entry` is a function `String → Option entry`; `delete` and
  assignment are `Function.update`.
* A Go result `(v, err)` is an `Except GoError v`: the callers in this
  repository never look at `v` when `err != nil`.
-/

namespace time

/-- Nanoseconds since Go's zero `Time`. -/
abbrev Time := Int

/-- Nanoseconds. -/
abbrev Duration := Int

/-- The constant `time.Second`. -/
def Second : Duration := 1000000000

/-- The method `Time.IsZero`. -/
def IsZero (t : Time) : Bool := decide (t = 0)

/-- The method `Time.After`: `After t u` is `t.After(u)`. -/
def After (t u : Time) : Bool := decide (u < t)

/-- The method `Time.Add`. -/
def Add (t : Time) (d : Duration) : Time := t + d

/-- The function `time.Until`, with the clock reading made explicit. -/
def Until (now t : Time) : Duration := t - now

end time

/-- Go `error` values: a plain error, or one made by `fmt.Errorf("<ctx>: %w", err)`. -/
inductive GoError where
  | plain (msg : String) : GoError
  | wrapf (ctx : String) (inner : GoError) : GoError
  deriving DecidableEq, Repr

deriving instance DecidableEq for Except

namespace GoError

/-- The method `Error()`: the message of the error. -/
def Error : GoError → String
  | plain msg => msg
  | wrapf ctx inner => ctx ++ ": " ++ Error inner

/-- The function `errors.Unwrap`. -/
def Unwrap : GoError → Option GoError
  | plain _ => none
  | wrapf _ inner => some inner

end GoError

namespace domain

/-- The string type `RateLimitType`. -/
abbrev RateLimitType := String

/-- The constant `RateLimitTypeIP`. -/
def RateLimitTypeIP : RateLimitType := "ip"

/-- The constant `RateLimitTypeToken`. -/
def RateLimitTypeToken : RateLimitType := "token"

/-- The struct `RateLimitConfig`; its field `Type` is spelled `Typ` here. -/
structure RateLimitConfig where
  Key : String
  Typ : RateLimitType
  MaxRequests : Int
  BlockDuration : time.Duration
  deriving DecidableEq, Repr

/-- The struct `RateLimitStatus`. -/
structure RateLimitStatus where
  Allowed : Bool
  RemainingReqs : Int
  BlockedUntil : time.Time
  deriving DecidableEq, Repr

/-- The interface `Storage`, as a method table over the state `σ` of an
implementation.  Every method gets the state and the clock reading and gives
back its Go result and the state it leaves. -/
structure Storage (σ : Type) where
  Increment : σ → String → time.Duration → time.Time → Except GoError Int × σ
  Get : σ → String → time.Time → Except GoError Int × σ
  SetBlock : σ → String → time.Duration → time.Time → Except GoError Unit × σ
  IsBlocked : σ → String → time.Time → Except GoError Bool × σ
  GetTTL : σ → String → time.Time → Except GoError time.Duration × σ
  Close : σ → Except GoError Unit × σ

end domain

namespace storage

/-- The struct `entry` of `memory.go`. -/
structure entry where
  value : Int
  expiresAt : time.Time
  deriving DecidableEq, Repr

/-- The struct `MemoryStorage`: the table `data` (the lock is not modelled). -/
structure MemoryStorage where
  data : String → Option entry

/-- The test `!entry.expiresAt.IsZero() && now.After(entry.expiresAt)` that
`cleanupExpired`, `Increment`, `Get` and `IsBlocked` all make. -/
def expired (e : entry) (now : time.Time) : Bool :=
  !time.IsZero e.expiresAt && time.After now e.expiresAt

/-- The table of `NewMemoryStorage`. -/
def NewMemoryStorage : MemoryStorage := ⟨fun _ => none⟩

/-- The method `MemoryStorage.Increment`. -/
def MemoryStorage.Increment (m : MemoryStorage) (key : String)
    (expiration : time.Duration) (now : time.Time) : Except GoError Int × MemoryStorage :=
  let m1 : MemoryStorage :=
    match m.data key with
    | some e => if expired e now then ⟨Function.update m.data key none⟩ else m
    | none => m
  match m1.data key with
  | some e =>
    (.ok (e.value + 1), ⟨Function.update m1.data key (some ⟨e.value + 1, e.expiresAt⟩)⟩)
  | none =>
    (.ok 1, ⟨Function.update m1.data key (some ⟨1, time.Add now expiration⟩)⟩)

/-- The method `MemoryStorage.Get`. -/
def MemoryStorage.Get (m : MemoryStorage) (key : String) (now : time.Time) :
    Except GoError Int × MemoryStorage :=
  match m.data key with
  | none => (.ok 0, m)
  | some e => if expired e now then (.ok 0, m) else (.ok e.value, m)

/-- The method `MemoryStorage.SetBlock`. -/
def MemoryStorage.SetBlock (m : MemoryStorage) (key : String)
    (duration : time.Duration) (now : time.Time) : Except GoError Unit × MemoryStorage :=
  (.ok (), ⟨Function.update m.data key (some ⟨1, time.Add now duration⟩)⟩)

/-- The method `MemoryStorage.IsBlocked`. -/
def MemoryStorage.IsBlocked (m : MemoryStorage) (key : String) (now : time.Time) :
    Except GoError Bool × MemoryStorage :=
  match m.data key with
  | none => (.ok false, m)
  | some e => if expired e now then (.ok false, m) else (.ok (decide (e.value = 1)), m)

/-- The method `MemoryStorage.GetTTL`. -/
def MemoryStorage.GetTTL (m : MemoryStorage) (key : String) (now : time.Time) :
    Except GoError time.Duration × MemoryStorage :=
  match m.data key with
  | none => (.ok 0, m)
  | some e =>
    if time.IsZero e.expiresAt then (.ok 0, m)
    else
      let ttl := time.Until now e.expiresAt
      if ttl < 0 then (.ok 0, m) else (.ok ttl, m)

/-- The method `MemoryStorage.Close`. -/
def MemoryStorage.Close (_m : MemoryStorage) : Except GoError Unit × MemoryStorage :=
  (.ok (), ⟨fun _ => none⟩)

/-- The method table of `MemoryStorage` as an implementation of `domain.Storage`. -/
def memoryStorage : domain.Storage MemoryStorage where
  Increment := MemoryStorage.Increment
  Get := MemoryStorage.Get
  SetBlock := MemoryStorage.SetBlock
  IsBlocked := MemoryStorage.IsBlocked
  GetTTL := MemoryStorage.GetTTL
  Close := MemoryStorage.Close

end storage

namespace usecase

/-- The struct `RateLimiter`.  The interface value `storage` is the pair of a
method table `impl` and the state `storage` it points to. -/
structure RateLimiter (σ : Type) where
  impl : domain.Storage σ
  storage : σ
  ipLimit : Int
  tokenLimit : Int
  blockDuration : time.Duration
  tokenLimits : String → Option Int

/-- The constructor `NewRateLimiter`. -/
def NewRateLimiter {σ : Type} (impl : domain.Storage σ) (storage : σ)
    (ipLimit tokenLimit : Int) (blockDuration : time.Duration) : RateLimiter σ :=
  ⟨impl, storage, ipLimit, tokenLimit, blockDuration, fun _ => none⟩

/-- The method `RateLimiter.SetTokenLimit`. -/
def RateLimiter.SetTokenLimit {σ : Type} (rl : RateLimiter σ) (token : String)
    (limit : Int) : RateLimiter σ :=
  { rl with tokenLimits := Function.update rl.tokenLimits token (some limit) }

/-- The key `fmt.Sprintf("block:%s:%s", config.Type, config.Key)`. -/
def blockKey (config : domain.RateLimitConfig) : String :=
  "block:" ++ config.Typ ++ ":" ++ config.Key

/-- The key `fmt.Sprintf("count:%s:%s", config.Type, config.Key)`. -/
def countKey (config : domain.RateLimitConfig) : String :=
  "count:" ++ config.Typ ++ ":" ++ config.Key

/-- The method `RateLimiter.CheckLimit`. -/
def RateLimiter.CheckLimit {σ : Type} (rl : RateLimiter σ)
    (config : domain.RateLimitConfig) (now : time.Time) :
    Except GoError domain.RateLimitStatus × RateLimiter σ :=
  match rl.impl.IsBlocked rl.storage (blockKey config) now with
  | (.error err, s1) =>
    (.error (.wrapf "failed to check block status" err), { rl with storage := s1 })
  | (.ok true, s1) =>
    match rl.impl.GetTTL s1 (blockKey config) now with
    | (.error err, s2) =>
      (.error (.wrapf "failed to get TTL" err), { rl with storage := s2 })
    | (.ok ttl, s2) =>
      (.ok ⟨false, 0, time.Add now ttl⟩, { rl with storage := s2 })
  | (.ok false, s1) =>
    match rl.impl.Increment s1 (countKey config) time.Second now with
    | (.error err, s2) =>
      (.error (.wrapf "failed to increment counter" err), { rl with storage := s2 })
    | (.ok count, s2) =>
      if count > config.MaxRequests then
        match rl.impl.SetBlock s2 (blockKey config) config.BlockDuration now with
        | (.error err, s3) =>
          (.error (.wrapf "failed to set block" err), { rl with storage := s3 })
        | (.ok (), s3) =>
          (.ok ⟨false, 0, time.Add now config.BlockDuration⟩, { rl with storage := s3 })
      else
        let remaining := config.MaxRequests - count
        let remaining := if remaining < 0 then 0 else remaining
        (.ok ⟨true, remaining, 0⟩, { rl with storage := s2 })

/-- The method `RateLimiter.CheckIP`. -/
def RateLimiter.CheckIP {σ : Type} (rl : RateLimiter σ) (ip : String) (now : time.Time) :
    Except GoError domain.RateLimitStatus × RateLimiter σ :=
  rl.CheckLimit ⟨ip, domain.RateLimitTypeIP, rl.ipLimit, rl.blockDuration⟩ now

/-- The method `RateLimiter.CheckToken`. -/
def RateLimiter.CheckToken {σ : Type} (rl : RateLimiter σ) (token : String)
    (now : time.Time) : Except GoError domain.RateLimitStatus × RateLimiter σ :=
  let limit :=
    match rl.tokenLimits token with
    | some customLimit => customLimit
    | none => rl.tokenLimit
  rl.CheckLimit ⟨token, domain.RateLimitTypeToken, limit, rl.blockDuration⟩ now

end usecase

namespace storage

/-- Successive `Increment` calls on one key, one per clock reading of the list;
the results in call order and the table left at the end. -/
def incrementAll (m : MemoryStorage) (key : String) (expiration : time.Duration) :
    List time.Time → List (Except GoError Int) × MemoryStorage
  | [] => ([], m)
  | t :: ts =>
    let r := m.Increment key expiration t
    let rs := incrementAll r.2 key expiration ts
    (r.1 :: rs.1, rs.2)

/-- Whether the key has an entry that has not expired at `now` ("a live entry"). -/
def MemoryStorage.live (m : MemoryStorage) (key : String) (now : time.Time) : Bool :=
  match m.data key with
  | none => false
  | some e => !expired e now

end storage

namespace domain

/-- One call of a `Storage` method, as written in a call log. -/
inductive StoreCall where
  | Increment (key : String) (expiration : time.Duration) : StoreCall
  | Get (key : String) : StoreCall
  | SetBlock (key : String) (duration : time.Duration) : StoreCall
  | IsBlocked (key : String) : StoreCall
  | GetTTL (key : String) : StoreCall
  | Close : StoreCall
  deriving DecidableEq, Repr

/-- The error of a Go result, `none` for `err == nil`. -/
def errOf {α : Type} : Except GoError α → Option GoError
  | .ok _ => none
  | .error err => some err

/-- The context `CheckLimit` puts in front of the error of a failed store call
(the first argument of its `fmt.Errorf`); it makes no other call. -/
def errorContext : StoreCall → String
  | .IsBlocked _ => "failed to check block status"
  | .GetTTL _ => "failed to get TTL"
  | .Increment _ _ => "failed to increment counter"
  | .SetBlock _ _ => "failed to set block"
  | .Get _ => ""
  | .Close => ""

/-- A `Storage` that forwards every call to `S` and appends the call and its
error (if any) to a log kept next to the state of `S`. -/
def traced {σ : Type} (S : Storage σ) : Storage (σ × List (StoreCall × Option GoError)) where
  Increment := fun s key expiration now =>
    let r := S.Increment s.1 key expiration now
    (r.1, (r.2, s.2 ++ [(StoreCall.Increment key expiration, errOf r.1)]))
  Get := fun s key now =>
    let r := S.Get s.1 key now
    (r.1, (r.2, s.2 ++ [(StoreCall.Get key, errOf r.1)]))
  SetBlock := fun s key duration now =>
    let r := S.SetBlock s.1 key duration now
    (r.1, (r.2, s.2 ++ [(StoreCall.SetBlock key duration, errOf r.1)]))
  IsBlocked := fun s key now =>
    let r := S.IsBlocked s.1 key now
    (r.1, (r.2, s.2 ++ [(StoreCall.IsBlocked key, errOf r.1)]))
  GetTTL := fun s key now =>
    let r := S.GetTTL s.1 key now
    (r.1, (r.2, s.2 ++ [(StoreCall.GetTTL key, errOf r.1)]))
  Close := fun s =>
    let r := S.Close s.1
    (r.1, (r.2, s.2 ++ [(StoreCall.Close, errOf r.1)]))

end domain

namespace usecase

/-- A call of one of the three entry points of the limiter. -/
inductive Check where
  | IP (ip : String) : Check
  | Token (token : String) : Check
  | Limit (config : domain.RateLimitConfig) : Check
  deriving DecidableEq, Repr

/-- The entry point a `Check` names, called at `now`. -/
def RateLimiter.check {σ : Type} (rl : RateLimiter σ) (c : Check) (now : time.Time) :
    Except GoError domain.RateLimitStatus × RateLimiter σ :=
  match c with
  | .IP ip => rl.CheckIP ip now
  | .Token token => rl.CheckToken token now
  | .Limit config => rl.CheckLimit config now

/-- The config `CheckIP`, `CheckToken` build for a call (for `CheckLimit`, the
config it is given). -/
def RateLimiter.configOf {σ : Type} (rl : RateLimiter σ) : Check → domain.RateLimitConfig
  | .IP ip => ⟨ip, domain.RateLimitTypeIP, rl.ipLimit, rl.blockDuration⟩
  | .Token token =>
    ⟨token, domain.RateLimitTypeToken,
      (match rl.tokenLimits token with
        | some customLimit => customLimit
        | none => rl.tokenLimit),
      rl.blockDuration⟩
  | .Limit config => config

/-- A run of calls, one after the other on the limiter the previous call left;
the results in call order and the limiter left at the end. -/
def RateLimiter.checkAll {σ : Type} (rl : RateLimiter σ) :
    List (Check × time.Time) → List (Except GoError domain.RateLimitStatus) × RateLimiter σ
  | [] => ([], rl)
  | (c, t) :: rest =>
    let r := rl.check c t
    let rs := RateLimiter.checkAll r.2 rest
    (r.1 :: rs.1, rs.2)

/-- The limiter of `TestRateLimiter_BlockDuration`: limits 2 and 10, blocks of
two seconds, over a new in-process store. -/
def testLimiter : RateLimiter storage.MemoryStorage :=
  NewRateLimiter storage.memoryStorage storage.NewMemoryStorage 2 10 (2 * time.Second)

/-- The limiter `testLimiter` after two calls of `CheckIP` for `192.168.1.2`, at
the clock readings 100 and 101. -/
def testLimiterAtLimit : RateLimiter storage.MemoryStorage :=
  (testLimiter.checkAll [(Check.IP "192.168.1.2", 100), (Check.IP "192.168.1.2", 101)]).2

/-- The limiter `rl` wired to the traced version of its store, with an empty log. -/
def RateLimiter.withTrace {σ : Type} (rl : RateLimiter σ) :
    RateLimiter (σ × List (domain.StoreCall × Option GoError)) :=
  ⟨domain.traced rl.impl, (rl.storage, []), rl.ipLimit, rl.tokenLimit, rl.blockDuration,
    rl.tokenLimits⟩

end usecase

namespace domain

/-- What a `Storage` method gives back, as one type for all six methods. -/
inductive Reply where
  | Count (r : Except GoError Int) : Reply
  | Flag (r : Except GoError Bool) : Reply
  | TTL (r : Except GoError time.Duration) : Reply
  | Done (r : Except GoError Unit) : Reply
  deriving DecidableEq, Repr

/-- The method of `S` that a `StoreCall` names, called on the state `s` at `now`. -/
def Storage.call {σ : Type} (S : Storage σ) (s : σ) (c : StoreCall) (now : time.Time) :
    Reply × σ :=
  match c with
  | .Increment key expiration =>
    let r := S.Increment s key expiration now
    (.Count r.1, r.2)
  | .Get key =>
    let r := S.Get s key now
    (.Count r.1, r.2)
  | .SetBlock key duration =>
    let r := S.SetBlock s key duration now
    (.Done r.1, r.2)
  | .IsBlocked key =>
    let r := S.IsBlocked s key now
    (.Flag r.1, r.2)
  | .GetTTL key =>
    let r := S.GetTTL s key now
    (.TTL r.1, r.2)
  | .Close =>
    let r := S.Close s
    (.Done r.1, r.2)

/-- Whether a call writes under `key`: `Increment` and `SetBlock` of that key
do, and `Close`, which clears every key. -/
def StoreCall.writes (key : String) : StoreCall → Bool
  | .Increment k _ => decide (k = key)
  | .SetBlock k _ => decide (k = key)
  | .Close => true
  | .Get _ => false
  | .IsBlocked _ => false
  | .GetTTL _ => false

end domain

namespace storage

/-- One pass of the loop body of `cleanupExpired`, at the clock reading `now`:
every entry that has expired is deleted. -/
def MemoryStorage.cleanupExpired (m : MemoryStorage) (now : time.Time) : MemoryStorage :=
  ⟨fun key =>
    match m.data key with
    | some e => if expired e now then none else some e
    | none => none⟩

/-- What happens to the table: a call of a method, or a pass of the sweep. -/
inductive Event where
  | Call (c : domain.StoreCall) : Event
  | Sweep : Event
  deriving DecidableEq, Repr

/-- The table after one event at `now`. -/
def MemoryStorage.after (m : MemoryStorage) (ev : Event) (now : time.Time) : MemoryStorage :=
  match ev with
  | .Call c => (memoryStorage.call m c now).2
  | .Sweep => m.cleanupExpired now

/-- The table after a run of events, each with its clock reading. -/
def MemoryStorage.afterAll (m : MemoryStorage) : List (Event × time.Time) → MemoryStorage
  | [] => m
  | (ev, t) :: rest => MemoryStorage.afterAll (m.after ev t) rest

/-- Whether an event writes under `key` (the sweep only deletes what has
expired and is not a write). -/
def Event.writes (key : String) : Event → Bool
  | .Call c => c.writes key
  | .Sweep => false

end storage

namespace storage

/-- The in-process store with a `SetBlock` that fails with `err` and writes
nothing (a store whose block write is lost); the other methods are those of
`MemoryStorage`. -/
def failingSetBlock (err : GoError) : domain.Storage MemoryStorage :=
  { memoryStorage with SetBlock := fun m _ _ _ => (.error err, m) }

end storage

namespace usecase

/-- A limiter with limit 1 over a new in-process store whose `SetBlock` fails
with "connection refused". -/
def faultyLimiter : RateLimiter storage.MemoryStorage :=
  NewRateLimiter (storage.failingSetBlock (.plain "connection refused"))
    storage.NewMemoryStorage 1 10 (2 * time.Second)

end usecase

namespace unicode

/-- The function `unicode.IsSpace`: the white space of Latin-1 and the other
characters with the Unicode property White_Space. -/
def IsSpace (c : Char) : Bool :=
  let n := c.toNat
  (9 ≤ n && n ≤ 13) || n = 32 || n = 133 || n = 160 || n = 5760
    || (8192 ≤ n && n ≤ 8202) || n = 8232 || n = 8233 || n = 8239 || n = 8287
    || n = 12288

end unicode

namespace strings

/-- The pieces of `l` between the occurrences of `sep`. -/
def splitList (sep : Char) : List Char → List (List Char)
  | [] => [[]]
  | c :: cs =>
    if c = sep then [] :: splitList sep cs
    else
      match splitList sep cs with
      | [] => [[c]]
      | piece :: pieces => (c :: piece) :: pieces

/-- The function `strings.Split` for a separator of one character, as in the
call `strings.Split(forwarded, ",")`. -/
def Split (s : String) (sep : Char) : List String :=
  (splitList sep s.data).map String.mk

/-- The function `strings.TrimSpace`: leading and trailing white space removed. -/
def TrimSpace (s : String) : String :=
  ⟨(((s.data.dropWhile unicode.IsSpace).reverse).dropWhile unicode.IsSpace).reverse⟩

end strings

namespace http

/-- The status codes the middleware and the tests use. -/
def StatusOK : Nat := 200

/-- The constant `http.StatusBadRequest`. -/
def StatusBadRequest : Nat := 400

/-- The constant `http.StatusTooManyRequests`. -/
def StatusTooManyRequests : Nat := 429

/-- The constant `http.StatusInternalServerError`. -/
def StatusInternalServerError : Nat := 500

/-- What the middleware reads of a `*http.Request`: `r.URL.Path`, the header
lookup `r.Header.Get` and `r.RemoteAddr`. -/
structure Request where
  Path : String
  Header : String → String
  RemoteAddr : String

/-- An `http.ResponseWriter` that records what is written to it: the header
map, the status code of the first `WriteHeader` (`none` before it), and the
body.  Header names are taken as written. -/
structure ResponseWriter where
  Header : String → Option String
  Code : Option Nat
  Body : String

/-- A recorder nothing has been written to. -/
def NewRecorder : ResponseWriter := ⟨fun _ => none, none, ""⟩

/-- The call `w.Header().Set(name, value)`. -/
def ResponseWriter.Set (w : ResponseWriter) (name value : String) : ResponseWriter :=
  { w with Header := Function.update w.Header name (some value) }

/-- The call `w.Header().Del(name)`. -/
def ResponseWriter.Del (w : ResponseWriter) (name : String) : ResponseWriter :=
  { w with Header := Function.update w.Header name none }

/-- The method `WriteHeader`: the first call fixes the status code. -/
def ResponseWriter.WriteHeader (w : ResponseWriter) (code : Nat) : ResponseWriter :=
  match w.Code with
  | some _ => w
  | none => { w with Code := some code }

/-- The method `Write`: writes the header with status 200 if none was written,
then appends to the body. -/
def ResponseWriter.Write (w : ResponseWriter) (b : String) : ResponseWriter :=
  let w1 := w.WriteHeader StatusOK
  { w1 with Body := w1.Body ++ b }

/-- The function `http.Error`: plain-text headers, the status, and the message
followed by a newline. -/
def Error (w : ResponseWriter) (error : String) (code : Nat) : ResponseWriter :=
  ((((w.Del "Content-Length").Set "Content-Type" "text/plain; charset=utf-8").Set
    "X-Content-Type-Options" "nosniff").WriteHeader code).Write (error ++ "\n")

/-- An `http.Handler`: `ServeHTTP(w, r)`, with the state `ω` of whatever else
the handler touches. -/
abbrev Handler (ω : Type) := ω → ResponseWriter → Request → ω × ResponseWriter

end http

namespace web

/-- The constant `HeaderAPIKey`. -/
def HeaderAPIKey : String := "API_KEY"

/-- The constant `Message429`. -/
def Message429 : String :=
  "you have reached the maximum number of requests or actions allowed within a certain time frame"

/-- The constant `HeaderRateLimitRemain`. -/
def HeaderRateLimitRemain : String := "X-RateLimit-Remaining"

/-- The struct `RateLimiterMiddleware`. -/
structure RateLimiterMiddleware (σ : Type) where
  limiter : usecase.RateLimiter σ

/-- The constructor `NewRateLimiterMiddleware`. -/
def NewRateLimiterMiddleware {σ : Type} (limiter : usecase.RateLimiter σ) :
    RateLimiterMiddleware σ :=
  ⟨limiter⟩

/-- The function `extractIP`.  The library function `net.SplitHostPort` is the
argument `SplitHostPort`. -/
def extractIP (SplitHostPort : String → Except GoError (String × String))
    (r : http.Request) : String :=
  let forwarded := r.Header "X-Forwarded-For"
  let viaForwarded : Option String :=
    if forwarded ≠ "" then
      match strings.Split forwarded ',' with
      | ip0 :: _ => some (strings.TrimSpace ip0)
      | [] => none
    else none
  match viaForwarded with
  | some ip => ip
  | none =>
    let realIP := r.Header "X-Real-IP"
    if realIP ≠ "" then realIP
    else
      match SplitHostPort r.RemoteAddr with
      | .error _ => r.RemoteAddr
      | .ok (ip, _) => ip

/-- The handler `Handle(next)` builds, run on one request at `now`: the state
of `next`, the response, and the middleware with the limiter as the request
left it. -/
def RateLimiterMiddleware.Handle {σ ω : Type} (m : RateLimiterMiddleware σ)
    (SplitHostPort : String → Except GoError (String × String)) (next : http.Handler ω)
    (s : ω) (w : http.ResponseWriter) (r : http.Request) (now : time.Time) :
    (ω × http.ResponseWriter) × RateLimiterMiddleware σ :=
  if r.Path = "/health" then (next s w r, m)
  else
    let token := r.Header HeaderAPIKey
    if token ≠ "" then
      match m.limiter.CheckToken token now with
      | (.error _, limiter) =>
        ((s, http.Error w "Internal Server Error" http.StatusInternalServerError), ⟨limiter⟩)
      | (.ok status, limiter) =>
        if !status.Allowed then
          ((s, http.Error (w.Set HeaderRateLimitRemain "0") Message429
            http.StatusTooManyRequests), ⟨limiter⟩)
        else (next s w r, ⟨limiter⟩)
    else
      let ip := extractIP SplitHostPort r
      if ip = "" then
        ((s, http.Error w "Cannot determine IP address" http.StatusBadRequest), m)
      else
        match m.limiter.CheckIP ip now with
        | (.error _, limiter) =>
          ((s, http.Error w "Internal Server Error" http.StatusInternalServerError),
            ⟨limiter⟩)
        | (.ok status, limiter) =>
          if !status.Allowed then
            ((s, http.Error (w.Set HeaderRateLimitRemain "0") Message429
              http.StatusTooManyRequests), ⟨limiter⟩)
          else (next s w r, ⟨limiter⟩)

/-- The `next` handler of the middleware tests, `WriteHeader(200)` then
`Write("OK")`, with a count of its calls as state. -/
def okHandler : http.Handler Nat :=
  fun calls w _ => (calls + 1, (w.WriteHeader http.StatusOK).Write "OK")

end web

namespace net

/-- The index of the first `c` in `l`. -/
def index (c : Char) : List Char → Option Nat
  | [] => none
  | x :: xs =>
    if x = c then some 0
    else
      match index c xs with
      | some i => some (i + 1)
      | none => none

/-- The index of the last `c` in `l`. -/
def lastIndex (c : Char) : List Char → Option Nat
  | [] => none
  | x :: xs =>
    match lastIndex c xs with
    | some i => some (i + 1)
    | none => if x = c then some 0 else none

/-- The error `&AddrError{Err: why, Addr: addr}`, with its message. -/
def addrErr (addr why : String) : GoError :=
  .plain ("address " ++ addr ++ ": " ++ why)

/-- The function `net.SplitHostPort` of the Go library, on the characters of
the address: `host:port`, `[host]:port`, or an error. -/
def SplitHostPort (hostport : String) : Except GoError (String × String) :=
  let hp := hostport.data
  match lastIndex ':' hp with
  | none => .error (addrErr hostport "missing port in address")
  | some i =>
    let finish (host : List Char) (j k : Nat) : Except GoError (String × String) :=
      if (index '[' (hp.drop j)).isSome then
        .error (addrErr hostport "unexpected '[' in address")
      else if (index ']' (hp.drop k)).isSome then
        .error (addrErr hostport "unexpected ']' in address")
      else .ok (⟨host⟩, ⟨hp.drop (i + 1)⟩)
    if hp.head? = some '[' then
      match index ']' hp with
      | none => .error (addrErr hostport "missing ']' in address")
      | some close =>
        if close + 1 = hp.length then
          .error (addrErr hostport "missing port in address")
        else if close + 1 = i then
          finish ((hp.drop 1).take (close - 1)) 1 (close + 1)
        else if hp.get? (close + 1) = some ':' then
          .error (addrErr hostport "too many colons in address")
        else .error (addrErr hostport "missing port in address")
    else
      let host := hp.take i
      if (index ':' host).isSome then
        .error (addrErr hostport "too many colons in address")
      else finish host 0 0

end net

namespace web

/-- What the middleware does with the result of the limiter check: an error
gives 500, a refusal gives 429 with the header `X-RateLimit-Remaining: 0`, and
an allowed request goes to `next`. -/
def respond {ω : Type} (next : http.Handler ω) (s : ω) (w : http.ResponseWriter)
    (r : http.Request) : Except GoError domain.RateLimitStatus → ω × http.ResponseWriter
  | .error _ => (s, http.Error w "Internal Server Error" http.StatusInternalServerError)
  | .ok status =>
    if !status.Allowed then
      (s, http.Error (w.Set HeaderRateLimitRemain "0") Message429
        http.StatusTooManyRequests)
    else next s w r

end web

namespace web

/-- The middleware of `TestMiddleware_IPLimit`: limits 3 and 10, blocks of five
seconds, over a new in-process store. -/
def testMiddleware : RateLimiterMiddleware storage.MemoryStorage :=
  NewRateLimiterMiddleware
    (usecase.NewRateLimiter storage.memoryStorage storage.NewMemoryStorage 3 10
      (5 * time.Second))

/-- The middleware `testMiddleware` after three checks of the address
`192.168.1.1`, at the clock readings 100, 101 and 102. -/
def testMiddlewareAtLimit : RateLimiterMiddleware storage.MemoryStorage :=
  ⟨(testMiddleware.limiter.checkAll
    [(usecase.Check.IP "192.168.1.1", 100), (usecase.Check.IP "192.168.1.1", 101),
      (usecase.Check.IP "192.168.1.1", 102)]).2⟩

/-- The request of `TestMiddleware_IPLimit`: `GET /test` from
`192.168.1.1:12345`, without headers. -/
def testRequest : http.Request := ⟨"/test", fun _ => "", "192.168.1.1:12345"⟩

/-- The request of `TestMiddleware_TokenOverridesIP`: the same with the header
`API_KEY: premium-token`. -/
def tokenRequest : http.Request :=
  ⟨"/test", fun name => if name = HeaderAPIKey then "premium-token" else "",
    "192.168.1.1:12345"⟩

end web

namespace web

/-- The middleware `testMiddlewareAtLimit` after a fourth check of the address
`192.168.1.1`, at 103, which blocks the address until 103 plus five seconds. -/
def testMiddlewareBlocked : RateLimiterMiddleware storage.MemoryStorage :=
  ⟨(testMiddlewareAtLimit.limiter.CheckIP "192.168.1.1" 103).2⟩

end web

namespace usecase

/-- Where a running `CheckLimit` stands between its store calls: before
`IsBlocked`; after `IsBlocked` returned true, before `GetTTL`; after it
returned false, before `Increment`; after a count over the limit, before
`SetBlock`; or returned, with its result. -/
inductive Pc where
  | start : Pc
  | sawBlock : Pc
  | sawOpen : Pc
  | overLimit : Pc
  | done (r : Except GoError domain.RateLimitStatus) : Pc
  deriving DecidableEq, Repr

/-- One store call of a running `CheckLimit`, with the code up to the next
store call or the return.  Each method of `MemoryStorage` holds the lock of the
table from entry to return, so the store calls of concurrent checks happen one
at a time, in some order. -/
def checkStep {σ : Type} (S : domain.Storage σ) (config : domain.RateLimitConfig)
    (pc : Pc) (s : σ) (now : time.Time) : Pc × σ :=
  match pc with
  | .start =>
    match S.IsBlocked s (blockKey config) now with
    | (.error err, s1) => (.done (.error (.wrapf "failed to check block status" err)), s1)
    | (.ok true, s1) => (.sawBlock, s1)
    | (.ok false, s1) => (.sawOpen, s1)
  | .sawBlock =>
    match S.GetTTL s (blockKey config) now with
    | (.error err, s2) => (.done (.error (.wrapf "failed to get TTL" err)), s2)
    | (.ok ttl, s2) => (.done (.ok ⟨false, 0, time.Add now ttl⟩), s2)
  | .sawOpen =>
    match S.Increment s (countKey config) time.Second now with
    | (.error err, s2) => (.done (.error (.wrapf "failed to increment counter" err)), s2)
    | (.ok count, s2) =>
      if count > config.MaxRequests then (.overLimit, s2)
      else
        let remaining := config.MaxRequests - count
        let remaining := if remaining < 0 then 0 else remaining
        (.done (.ok ⟨true, remaining, 0⟩), s2)
  | .overLimit =>
    match S.SetBlock s (blockKey config) config.BlockDuration now with
    | (.error err, s3) => (.done (.error (.wrapf "failed to set block" err)), s3)
    | (.ok (), s3) => (.done (.ok ⟨false, 0, time.Add now config.BlockDuration⟩), s3)
  | .done r => (.done r, s)

/-- Who moves next in a concurrent run over the in-process store: the check
number `i`, with its next store call, or the sweep of `cleanupExpired`. -/
inductive Move where
  | Thread (i : Nat) : Move
  | Sweep : Move
  deriving DecidableEq, Repr

/-- One move of a concurrent run: the checks (each a config and where it
stands) and the table afterwards. -/
def concurrentStep (threads : List (domain.RateLimitConfig × Pc))
    (m : storage.MemoryStorage) (mv : Move) (now : time.Time) :
    List (domain.RateLimitConfig × Pc) × storage.MemoryStorage :=
  match mv with
  | .Sweep => (threads, m.cleanupExpired now)
  | .Thread i =>
    match threads.get? i with
    | none => (threads, m)
    | some (config, pc) =>
      let r := checkStep storage.memoryStorage config pc m now
      (threads.set i (config, r.1), r.2)

/-- A concurrent run: the moves of a schedule, one after the other. -/
def concurrentRun (threads : List (domain.RateLimitConfig × Pc))
    (m : storage.MemoryStorage) :
    List (Move × time.Time) → List (domain.RateLimitConfig × Pc) × storage.MemoryStorage
  | [] => (threads, m)
  | (mv, t) :: rest =>
    let r := concurrentStep threads m mv t
    concurrentRun r.1 r.2 rest

/-- Whether a check has returned `Allowed = true`. -/
def Pc.allowed : Pc → Bool
  | .done (.ok status) => status.Allowed
  | _ => false

/-- Whether a check has returned `Allowed = false`. -/
def Pc.refused : Pc → Bool
  | .done (.ok status) => !status.Allowed
  | _ => false

/-- Whether a check has returned. -/
def Pc.returned : Pc → Bool
  | .done _ => true
  | _ => false

end usecase

namespace usecase

/-- The counter under `key` stands at `c`, in a window that lasts until `tmax`
at least: for `c = 0` the key has no live entry at `t0`; otherwise its entry
has the value `c` and expires at `tmax` or later. -/
def counterAt (m : storage.MemoryStorage) (key : String) (t0 tmax : time.Time) (c : Nat) :
    Prop :=
  (c = 0 ∧ m.live key t0 = false)
    ∨ (0 < c ∧ ∃ exp, tmax ≤ exp ∧ m.data key = some ⟨(c : Int), exp⟩)

end usecase

namespace usecase

/-- What holds all along a concurrent run of checks of one identity `(T, K)`
with limit `N`, inside the window that starts at `t0`: every check is for that
identity and limit, none has returned an error, and the number of checks that
returned `Allowed = true` is the smaller of the counter and `N`. -/
def concurrentInv (T K : String) (N : Nat) (t0 : time.Time)
    (threads : List (domain.RateLimitConfig × Pc)) (m : storage.MemoryStorage) : Prop :=
  (∀ p ∈ threads, p.1.Typ = T ∧ p.1.Key = K ∧ p.1.MaxRequests = (N : Int))
    ∧ (∀ p ∈ threads, ∀ e, p.2 ≠ .done (.error e))
    ∧ ∃ c : Nat, counterAt m (countKey ⟨K, T, 0, 0⟩) t0 (t0 + time.Second) c
        ∧ threads.countP (fun p => p.2.allowed) = min c N

end usecase

namespace usecase

/-- The fifteen checks of `TestIntegration_ConcurrentRequests`: one address,
limit 10. -/
def concurrentConfigs : List domain.RateLimitConfig :=
  List.replicate 15 ⟨"127.0.0.1", domain.RateLimitTypeIP, 10, 5 * time.Second⟩

/-- A schedule for fifteen checks: all of them call `IsBlocked` at 100 before
any calls `Increment`, a sweep passes, all call `Increment` at 101 in reverse
order, and those over the limit call `SetBlock` at 102. -/
def concurrentSchedule : List (Move × time.Time) :=
  (List.range 15).map (fun i => (Move.Thread i, 100))
    ++ [(Move.Sweep, 100)]
    ++ (List.range 15).reverse.map (fun i => (Move.Thread i, 101))
    ++ (List.range 15).map (fun i => (Move.Thread i, 102))

end usecase

namespace domain

/-- A run of calls of `Storage` methods, each with its clock reading: the
replies in call order and the state left at the end. -/
def Storage.callAll {σ : Type} (S : Storage σ) (s : σ) :
    List (StoreCall × time.Time) → List Reply × σ
  | [] => ([], s)
  | (c, t) :: rest =>
    let r := S.call s c t
    let rs := Storage.callAll S r.2 rest
    (r.1 :: rs.1, rs.2)

end domain

namespace storage

/-- The table `m'` is the table `m` without some of the entries that had
expired at `t`: under every key the two hold the same, or `m'` holds nothing
and `m` an entry that had expired at `t`. -/
def sweptOf (t : time.Time) (m m' : MemoryStorage) : Prop :=
  ∀ key, m'.data key = m.data key
    ∨ (m'.data key = none ∧ ∃ e, m.data key = some e ∧ expired e t = true)

end storage

namespace storage

/-- The in-process store with a `SetBlock` that writes the block entry and then
fails with `err` (a store whose reply is lost after the write has been
applied); the other methods are those of `MemoryStorage`. -/
def lostReplySetBlock (err : GoError) : domain.Storage MemoryStorage :=
  { memoryStorage with
    SetBlock := fun m key duration now => (.error err, (m.SetBlock key duration now).2) }

end storage

namespace usecase

/-- A limiter with limit 1 over a new in-process store whose `SetBlock` writes
the block and then fails with "i/o timeout". -/
def lostReplyLimiter : RateLimiter storage.MemoryStorage :=
  NewRateLimiter (storage.lostReplySetBlock (.plain "i/o timeout"))
    storage.NewMemoryStorage 1 10 (2 * time.Second)

end usecase

namespace usecase

/-- The clock readings of one run of `CheckLimit`, in the order they are made:
the store's reading in `IsBlocked`; the store's reading in the second call
(`time.Until` in `GetTTL`, or `time.Now()` in `Increment`); the store's
`time.Now()` in `SetBlock`; and the `time.Now()` of the `BlockedUntil` that
`CheckLimit` returns. -/
structure Readings where
  isBlocked : time.Time
  second : time.Time
  setBlock : time.Time
  ret : time.Time
  deriving DecidableEq, Repr

/-- The readings of a check that runs in one instant. -/
def Readings.instant (now : time.Time) : Readings := ⟨now, now, now, now⟩

/-- The method `RateLimiter.CheckLimit`, with every clock reading of its own:
the store calls read the clock themselves, and `CheckLimit` reads it once more
for `BlockedUntil`, after the last store call. -/
def RateLimiter.CheckLimitAt {σ : Type} (rl : RateLimiter σ)
    (config : domain.RateLimitConfig) (ck : Readings) :
    Except GoError domain.RateLimitStatus × RateLimiter σ :=
  match rl.impl.IsBlocked rl.storage (blockKey config) ck.isBlocked with
  | (.error err, s1) =>
    (.error (.wrapf "failed to check block status" err), { rl with storage := s1 })
  | (.ok true, s1) =>
    match rl.impl.GetTTL s1 (blockKey config) ck.second with
    | (.error err, s2) =>
      (.error (.wrapf "failed to get TTL" err), { rl with storage := s2 })
    | (.ok ttl, s2) =>
      (.ok ⟨false, 0, time.Add ck.ret ttl⟩, { rl with storage := s2 })
  | (.ok false, s1) =>
    match rl.impl.Increment s1 (countKey config) time.Second ck.second with
    | (.error err, s2) =>
      (.error (.wrapf "failed to increment counter" err), { rl with storage := s2 })
    | (.ok count, s2) =>
      if count > config.MaxRequests then
        match rl.impl.SetBlock s2 (blockKey config) config.BlockDuration ck.setBlock with
        | (.error err, s3) =>
          (.error (.wrapf "failed to set block" err), { rl with storage := s3 })
        | (.ok (), s3) =>
          (.ok ⟨false, 0, time.Add ck.ret config.BlockDuration⟩, { rl with storage := s3 })
      else
        let remaining := config.MaxRequests - count
        let remaining := if remaining < 0 then 0 else remaining
        (.ok ⟨true, remaining, 0⟩, { rl with storage := s2 })

/-- A run of calls with their clock readings, one after the other on the
limiter the previous call left; the results in call order and the limiter left
at the end. -/
def RateLimiter.checkAllAt {σ : Type} (rl : RateLimiter σ) :
    List (Check × Readings) → List (Except GoError domain.RateLimitStatus) × RateLimiter σ
  | [] => ([], rl)
  | (c, ck) :: rest =>
    let r := rl.CheckLimitAt (rl.configOf c) ck
    let rs := RateLimiter.checkAllAt r.2 rest
    (r.1 :: rs.1, rs.2)

end usecase

namespace usecase

/-- The store calls a check has still to make at most, from where it stands. -/
def Pc.rank : Pc → Nat
  | .start => 3
  | .sawBlock => 1
  | .sawOpen => 2
  | .overLimit => 1
  | .done _ => 0

/-- The number of moves of the check number `i` in a schedule. -/
def movesOf (i : Nat) (sched : List (Move × time.Time)) : Nat :=
  sched.countP (fun p => decide (p.1 = Move.Thread i))

/-- Where a check can stand as long as no check has counted over the limit: it
has not called `IsBlocked` yet, or it found no block and has not called
`Increment` yet, or it has returned `Allowed = true`. -/
def Pc.underLimit : Pc → Bool
  | .start => true
  | .sawOpen => true
  | .done (.ok status) => status.Allowed
  | _ => false

/-- What holds along a concurrent run of checks of the identity `(T, K)` with
limit `N` that starts without a live block entry: as long as the counter is at
most `N`, there is no live block entry and every check stands where
`Pc.underLimit` says. -/
def freshInv (T K : String) (N : Nat) (t0 : time.Time)
    (threads : List (domain.RateLimitConfig × Pc)) (m : storage.MemoryStorage) : Prop :=
  ∀ c : Nat, counterAt m (countKey ⟨K, T, 0, 0⟩) t0 (t0 + time.Second) c → c ≤ N →
    m.live (blockKey ⟨K, T, 0, 0⟩) t0 = false ∧ ∀ p ∈ threads, p.2.underLimit = true

end usecase

namespace storage

/-! ## The in-process store: basic facts -/

theorem expired_iff (e : entry) (now : time.Time) :
    expired e now = true ↔ e.expiresAt ≠ 0 ∧ e.expiresAt < now := by
  simp [expired, time.IsZero, time.After]

theorem expired_eq_false_of_le (e : entry) (now : time.Time) (h : now ≤ e.expiresAt) :
    expired e now = false := by
  cases hx : expired e now with
  | false => rfl
  | true => exact absurd ((expired_iff e now).1 hx).2 (not_lt.2 h)

theorem expired_eq_false (e : entry) (now : time.Time)
    (h : e.expiresAt = 0 ∨ now ≤ e.expiresAt) : expired e now = false := by
  cases hx : expired e now with
  | false => rfl
  | true =>
    have := (expired_iff e now).1 hx
    rcases h with h | h
    · exact absurd h this.1
    · exact absurd this.2 (not_lt.2 h)

theorem expired_eq_true (e : entry) (now : time.Time) (h0 : e.expiresAt ≠ 0)
    (h : e.expiresAt < now) : expired e now = true :=
  (expired_iff e now).2 ⟨h0, h⟩

theorem Increment_of_none (m : MemoryStorage) (key : String) (expiration : time.Duration)
    (now : time.Time) (h : m.data key = none) :
    m.Increment key expiration now
      = (.ok 1, ⟨Function.update m.data key (some ⟨1, time.Add now expiration⟩)⟩) := by
  simp [MemoryStorage.Increment, h]

theorem Increment_of_expired (m : MemoryStorage) (key : String)
    (expiration : time.Duration) (now : time.Time) (e : entry) (h : m.data key = some e)
    (hx : expired e now = true) :
    m.Increment key expiration now
      = (.ok 1, ⟨Function.update m.data key (some ⟨1, time.Add now expiration⟩)⟩) := by
  simp [MemoryStorage.Increment, h, hx]

theorem Increment_of_live (m : MemoryStorage) (key : String)
    (expiration : time.Duration) (now : time.Time) (e : entry) (h : m.data key = some e)
    (hx : expired e now = false) :
    m.Increment key expiration now
      = (.ok (e.value + 1),
          ⟨Function.update m.data key (some ⟨e.value + 1, e.expiresAt⟩)⟩) := by
  simp [MemoryStorage.Increment, h, hx]

/-- Increments of a live entry that all come no later than its expiration count
upwards from the stored value and keep the expiration. -/
theorem incrementAll_of_live (key : String) (expiration : time.Duration) (exp : time.Time) :
    ∀ (ts : List time.Time) (m : MemoryStorage) (v : Int),
      m.data key = some ⟨v, exp⟩ → (∀ t ∈ ts, t ≤ exp) →
      (incrementAll m key expiration ts).1
          = (List.range ts.length).map (fun (i : Nat) => Except.ok (v + 1 + (i : Int)))
        ∧ (incrementAll m key expiration ts).2.data key = some ⟨v + ts.length, exp⟩
  | [], m, v, hm, _ => by simp [incrementAll, hm]
  | t :: ts, m, v, hm, hts => by
    have ht : t ≤ exp := hts t (List.mem_cons_self _ _)
    have hstep := Increment_of_live m key expiration t ⟨v, exp⟩ hm
      (expired_eq_false_of_le _ _ ht)
    have ih := incrementAll_of_live key expiration exp ts
      (m.Increment key expiration t).2 (v + 1) (by simp [hstep])
      (fun u hu => hts u (List.mem_cons_of_mem _ hu))
    refine ⟨?_, ?_⟩
    · simp only [incrementAll, List.length_cons, List.range_succ_eq_map, List.map_cons,
        List.map_map, ih.1]
      simp [hstep, Function.comp_def]
      intro a _
      ring
    · simp only [incrementAll, ih.2, List.length_cons]
      push_cast
      congr 2
      ring

theorem Get_state (m : MemoryStorage) (key : String) (now : time.Time) :
    (m.Get key now).2 = m := by
  unfold MemoryStorage.Get
  split
  · rfl
  · split <;> rfl

theorem Get_of_none (m : MemoryStorage) (key : String) (now : time.Time)
    (h : m.data key = none) : (m.Get key now).1 = .ok 0 := by
  simp [MemoryStorage.Get, h]

theorem Get_of_expired (m : MemoryStorage) (key : String) (now : time.Time) (e : entry)
    (h : m.data key = some e) (hx : expired e now = true) : (m.Get key now).1 = .ok 0 := by
  simp [MemoryStorage.Get, h, hx]

theorem Get_of_live (m : MemoryStorage) (key : String) (now : time.Time) (e : entry)
    (h : m.data key = some e) (hx : expired e now = false) :
    (m.Get key now).1 = .ok e.value := by
  simp [MemoryStorage.Get, h, hx]

/-- A first increment at `t0` of a key that is absent, followed by increments
that all come no later than `t0 + expiration`: the results count 1, 2, 3, ...
and the entry keeps the expiration `t0 + expiration` of its creation. -/
theorem incrementAll_of_none (m : MemoryStorage) (key : String)
    (expiration : time.Duration) (t0 : time.Time) (ts : List time.Time)
    (h : m.data key = none) (hts : ∀ t ∈ ts, t ≤ t0 + expiration) :
    (incrementAll m key expiration (t0 :: ts)).1
        = (List.range (ts.length + 1)).map (fun (i : Nat) => Except.ok ((i : Int) + 1))
      ∧ (incrementAll m key expiration (t0 :: ts)).2.data key
        = some ⟨(ts.length : Int) + 1, t0 + expiration⟩ := by
  have hstep := Increment_of_none m key expiration t0 h
  have ih := incrementAll_of_live key expiration (t0 + expiration) ts
    (m.Increment key expiration t0).2 1 (by simp [hstep, time.Add]) hts
  refine ⟨?_, ?_⟩
  · simp only [incrementAll, List.range_succ_eq_map, List.map_cons, List.map_map, ih.1]
    simp [hstep, Function.comp_def]
    intro a _
    ring
  · simp only [incrementAll, ih.2]
    congr 2
    ring

/-- C9. `MemoryStorage.Increment` at time `now` returns 1 when the key is absent
or its entry has expired (a non-zero expiration before `now`), and otherwise
(an entry whose expiration is not before `now`, or is the zero time, which
stands for no expiry) returns the stored value plus 1 and stores it, keeping
the expiration; it never returns an error.  A first increment of an absent key
at `now` followed by increments no later than `now + expiration` returns
1, 2, ..., k. -/
theorem increment_result (m : MemoryStorage) (key : String) (expiration : time.Duration)
    (now : time.Time) :
    (m.data key = none → (m.Increment key expiration now).1 = .ok 1)
    ∧ (∀ e, m.data key = some e → e.expiresAt ≠ 0 → e.expiresAt < now →
        (m.Increment key expiration now).1 = .ok 1)
    ∧ (∀ e, m.data key = some e → (e.expiresAt = 0 ∨ now ≤ e.expiresAt) →
        (m.Increment key expiration now).1 = .ok (e.value + 1)
        ∧ (m.Increment key expiration now).2.data key
            = some ⟨e.value + 1, e.expiresAt⟩)
    ∧ (∀ err, (m.Increment key expiration now).1 ≠ .error err)
    ∧ (∀ ts : List time.Time, m.data key = none → (∀ t ∈ ts, t ≤ now + expiration) →
        (incrementAll m key expiration (now :: ts)).1
          = (List.range (ts.length + 1)).map
              (fun (i : Nat) => Except.ok ((i : Int) + 1))) := by
  refine ⟨?_, ?_, ?_, ?_, ?_⟩
  · intro h
    rw [Increment_of_none m key expiration now h]
  · intro e h h0 hlt
    rw [Increment_of_expired m key expiration now e h (expired_eq_true e now h0 hlt)]
  · intro e h hle
    rw [Increment_of_live m key expiration now e h (expired_eq_false e now hle)]
    simp
  · intro err
    cases h : m.data key with
    | none => rw [Increment_of_none m key expiration now h]; simp
    | some e =>
      cases hx : expired e now with
      | true => rw [Increment_of_expired m key expiration now e h hx]; simp
      | false => rw [Increment_of_live m key expiration now e h hx]; simp
  · intro ts h hts
    exact (incrementAll_of_none m key expiration now ts h hts).1

/-- C9 at a concrete table: an absent key gives 1, a live entry of value 1 gives
2, an entry that expired at 6 gives 1 at 7, and two increments within the
window after the first return 1, 2, 3. -/
theorem increment_result_witness :
    (NewMemoryStorage.Increment "test:key" 5 1).1 = .ok 1
    ∧ ((NewMemoryStorage.Increment "test:key" 5 1).2.Increment "test:key" 5 3).1 = .ok 2
    ∧ ((NewMemoryStorage.Increment "test:key" 5 1).2.Increment "test:key" 5 7).1 = .ok 1
    ∧ (incrementAll NewMemoryStorage "test:key" 5 [1, 2, 6]).1 = [.ok 1, .ok 2, .ok 3] :=
  ⟨(increment_result NewMemoryStorage "test:key" 5 1).1 rfl,
   ((increment_result (NewMemoryStorage.Increment "test:key" 5 1).2 "test:key" 5 3).2.2.1
      ⟨1, 6⟩ (by decide) (by decide)).1,
   (increment_result (NewMemoryStorage.Increment "test:key" 5 1).2 "test:key" 5 7).2.1
      ⟨1, 6⟩ (by decide) (by decide) (by decide),
   (increment_result NewMemoryStorage "test:key" 5 1).2.2.2.2 [2, 6] rfl (by decide)⟩

/-- C10. `MemoryStorage.Get` at time `now` returns the stored count of an entry
whose expiration is not before `now` (or is the zero time, which stands for no
expiry), and 0 when the key is absent or its entry has expired (a non-zero
expiration before `now`); it leaves the table as it was.  After a first increment of an absent key at `t0` and further increments
no later than `t0 + expiration`, `Get` returns the number of increments while
`now` is no later than `t0 + expiration`, and 0 once `now` is past it. -/
theorem get_result (m : MemoryStorage) (key : String) (now : time.Time) :
    (∀ e, m.data key = some e → (e.expiresAt = 0 ∨ now ≤ e.expiresAt) →
        (m.Get key now).1 = .ok e.value)
    ∧ (m.data key = none → (m.Get key now).1 = .ok 0)
    ∧ (∀ e, m.data key = some e → e.expiresAt ≠ 0 → e.expiresAt < now →
        (m.Get key now).1 = .ok 0)
    ∧ (m.Get key now).2 = m
    ∧ (∀ (expiration : time.Duration) (t0 : time.Time) (ts : List time.Time),
        m.data key = none → (∀ t ∈ ts, t ≤ t0 + expiration) →
        (now ≤ t0 + expiration →
          ((incrementAll m key expiration (t0 :: ts)).2.Get key now).1
            = .ok ((ts.length : Int) + 1))
        ∧ (t0 + expiration ≠ 0 → t0 + expiration < now →
          ((incrementAll m key expiration (t0 :: ts)).2.Get key now).1 = .ok 0)) := by
  refine ⟨?_, ?_, ?_, ?_, ?_⟩
  · intro e h hle
    exact Get_of_live m key now e h (expired_eq_false e now hle)
  · exact Get_of_none m key now
  · intro e h h0 hlt
    exact Get_of_expired m key now e h (expired_eq_true e now h0 hlt)
  · exact Get_state m key now
  · intro expiration t0 ts h hts
    have hd := (incrementAll_of_none m key expiration t0 ts h hts).2
    refine ⟨?_, ?_⟩
    · intro hle
      exact Get_of_live _ key now _ hd (expired_eq_false_of_le _ now hle)
    · intro h0 hlt
      exact Get_of_expired _ key now _ hd (expired_eq_true _ now h0 hlt)

/-- C10 at the tables of the tests: two increments then `Get` gives 2; one
increment with a one-second window gives 1 at once and 0 two seconds later. -/
theorem get_result_witness :
    ((incrementAll NewMemoryStorage "test:key" (5 * time.Second) [100, 101]).2.Get
        "test:key" 102).1 = .ok 2
    ∧ ((incrementAll NewMemoryStorage "test:expire" time.Second [100]).2.Get
        "test:expire" 100).1 = .ok 1
    ∧ ((incrementAll NewMemoryStorage "test:expire" time.Second [100]).2.Get
        "test:expire" (100 + 2 * time.Second)).1 = .ok 0 :=
  ⟨((get_result NewMemoryStorage "test:key" 102).2.2.2.2 (5 * time.Second) 100 [101] rfl
      (by decide)).1 (by decide),
   ((get_result NewMemoryStorage "test:expire" 100).2.2.2.2 time.Second 100 [] rfl
      (by simp)).1 (by decide),
   ((get_result NewMemoryStorage "test:expire" (100 + 2 * time.Second)).2.2.2.2
      time.Second 100 [] rfl (by simp)).2 (by decide) (by decide)⟩

end storage

namespace storage

/-! ## The in-process store: shapes of the results -/

theorem IsBlocked_shape (m : MemoryStorage) (key : String) (now : time.Time) :
    ∃ b, m.IsBlocked key now = (.ok b, m) := by
  unfold MemoryStorage.IsBlocked
  cases m.data key with
  | none => exact ⟨false, rfl⟩
  | some e =>
    cases hx : expired e now with
    | true => exact ⟨false, by simp [hx]⟩
    | false => exact ⟨decide (e.value = 1), by simp [hx]⟩

theorem GetTTL_shape (m : MemoryStorage) (key : String) (now : time.Time) :
    ∃ d, m.GetTTL key now = (.ok d, m) := by
  unfold MemoryStorage.GetTTL
  cases m.data key with
  | none => exact ⟨0, rfl⟩
  | some e =>
    by_cases hz : time.IsZero e.expiresAt = true
    · exact ⟨0, by simp [hz]⟩
    · by_cases hneg : time.Until now e.expiresAt < 0
      · exact ⟨0, by simp [hz, hneg]⟩
      · exact ⟨time.Until now e.expiresAt, by simp [hz, hneg]⟩

theorem Increment_shape (m : MemoryStorage) (key : String) (expiration : time.Duration)
    (now : time.Time) :
    ∃ e, m.Increment key expiration now
      = (.ok e.value, ⟨Function.update m.data key (some e)⟩) := by
  cases h : m.data key with
  | none => exact ⟨⟨1, time.Add now expiration⟩, Increment_of_none m key expiration now h⟩
  | some e =>
    cases hx : expired e now with
    | true =>
      exact ⟨⟨1, time.Add now expiration⟩, Increment_of_expired m key expiration now e h hx⟩
    | false =>
      exact ⟨⟨e.value + 1, e.expiresAt⟩, Increment_of_live m key expiration now e h hx⟩

theorem IsBlocked_of_block (m : MemoryStorage) (key : String) (now exp : time.Time)
    (h : m.data key = some ⟨1, exp⟩) (hle : now ≤ exp) :
    m.IsBlocked key now = (.ok true, m) := by
  have hx := expired_eq_false_of_le ⟨1, exp⟩ now hle
  simp [MemoryStorage.IsBlocked, h, hx]

theorem IsBlocked_of_expired (m : MemoryStorage) (key : String) (now : time.Time)
    (e : entry) (h : m.data key = some e) (hx : expired e now = true) :
    m.IsBlocked key now = (.ok false, m) := by
  simp [MemoryStorage.IsBlocked, h, hx]

theorem IsBlocked_of_none (m : MemoryStorage) (key : String) (now : time.Time)
    (h : m.data key = none) : m.IsBlocked key now = (.ok false, m) := by
  simp [MemoryStorage.IsBlocked, h]

theorem IsBlocked_of_not_live (m : MemoryStorage) (key : String) (now : time.Time)
    (h : m.live key now = false) : m.IsBlocked key now = (.ok false, m) := by
  unfold MemoryStorage.live at h
  cases hd : m.data key with
  | none => exact IsBlocked_of_none m key now hd
  | some e =>
    rw [hd] at h
    exact IsBlocked_of_expired m key now e hd (by simpa using h)

theorem GetTTL_of_entry (m : MemoryStorage) (key : String) (now : time.Time) (e : entry)
    (h : m.data key = some e) (h0 : e.expiresAt ≠ 0) (hle : now ≤ e.expiresAt) :
    m.GetTTL key now = (.ok (e.expiresAt - now), m) := by
  have hneg : ¬ (e.expiresAt - now < 0) := not_lt.2 (sub_nonneg.2 hle)
  simp [MemoryStorage.GetTTL, h, time.IsZero, h0, time.Until, hneg]

/-- What `live` says of the entry under a key. -/
theorem live_eq_false_iff (m : MemoryStorage) (key : String) (now : time.Time) :
    m.live key now = false ↔ m.data key = none ∨ ∃ e, m.data key = some e ∧ expired e now = true := by
  unfold MemoryStorage.live
  cases m.data key with
  | none => simp
  | some e => simp

/-- An entry that has expired stays expired. -/
theorem expired_mono (e : entry) (t u : time.Time) (h : expired e t = true) (htu : t ≤ u) :
    expired e u = true := by
  have := (expired_iff e t).1 h
  exact (expired_iff e u).2 ⟨this.1, lt_of_lt_of_le this.2 htu⟩

theorem live_mono (m : MemoryStorage) (key : String) (t u : time.Time)
    (h : m.live key t = false) (htu : t ≤ u) : m.live key u = false := by
  rcases (live_eq_false_iff m key t).1 h with hn | ⟨e, he, hx⟩
  · exact (live_eq_false_iff m key u).2 (Or.inl hn)
  · exact (live_eq_false_iff m key u).2 (Or.inr ⟨e, he, expired_mono e t u hx htu⟩)

end storage

namespace usecase

open storage

/-! ## The keys of `CheckLimit` -/

theorem blockKey_ne_countKey (c c' : domain.RateLimitConfig) : blockKey c ≠ countKey c' := by
  intro h
  have := congrArg String.data h
  simp [blockKey, countKey, String.data_append] at this

theorem blockKey_eq_iff_countKey_eq (c c' : domain.RateLimitConfig) :
    blockKey c = blockKey c' ↔ countKey c = countKey c' := by
  constructor
  · intro h
    have := congrArg String.data h
    simp [blockKey, String.data_append] at this
    apply String.ext
    simp [countKey, String.data_append, this]
  · intro h
    have := congrArg String.data h
    simp [countKey, String.data_append] at this
    apply String.ext
    simp [blockKey, String.data_append, this]

theorem blockKey_eq_of_same (c c' : domain.RateLimitConfig) (hT : c'.Typ = c.Typ)
    (hK : c'.Key = c.Key) : blockKey c' = blockKey c := by
  simp [blockKey, hT, hK]

theorem countKey_eq_of_same (c c' : domain.RateLimitConfig) (hT : c'.Typ = c.Typ)
    (hK : c'.Key = c.Key) : countKey c' = countKey c := by
  simp [countKey, hT, hK]

/-- For the two kinds the limiter uses, the block key determines kind and identity. -/
theorem blockKey_inj (c c' : domain.RateLimitConfig)
    (hc : c.Typ = domain.RateLimitTypeIP ∨ c.Typ = domain.RateLimitTypeToken)
    (hc' : c'.Typ = domain.RateLimitTypeIP ∨ c'.Typ = domain.RateLimitTypeToken)
    (h : blockKey c = blockKey c') : c.Typ = c'.Typ ∧ c.Key = c'.Key := by
  have hd := congrArg String.data h
  rcases hc with hc | hc <;> rcases hc' with hc' | hc' <;>
    simp [blockKey, String.data_append, hc, hc', domain.RateLimitTypeIP,
      domain.RateLimitTypeToken] at hd ⊢
  · exact String.ext hd
  · exact String.ext hd

/-! ## `CheckLimit` over the in-process store -/

theorem CheckLimit_blocked (rl : RateLimiter MemoryStorage) (himpl : rl.impl = memoryStorage)
    (config : domain.RateLimitConfig) (now : time.Time) (d : time.Duration)
    (hb : rl.storage.IsBlocked (blockKey config) now = (.ok true, rl.storage))
    (hd : rl.storage.GetTTL (blockKey config) now = (.ok d, rl.storage)) :
    rl.CheckLimit config now = (.ok ⟨false, 0, now + d⟩, rl) := by
  obtain ⟨impl, st, a, b, c, tl⟩ := rl
  subst himpl
  simp only [RateLimiter.CheckLimit, memoryStorage] at hb hd ⊢
  simp [hb, hd, time.Add]

theorem CheckLimit_open (rl : RateLimiter MemoryStorage) (himpl : rl.impl = memoryStorage)
    (config : domain.RateLimitConfig) (now : time.Time) (e : entry)
    (hb : rl.storage.IsBlocked (blockKey config) now = (.ok false, rl.storage))
    (hi : rl.storage.Increment (countKey config) time.Second now
      = (.ok e.value, ⟨Function.update rl.storage.data (countKey config) (some e)⟩)) :
    rl.CheckLimit config now
      = if e.value > config.MaxRequests then
          (.ok ⟨false, 0, now + config.BlockDuration⟩,
            { rl with storage := ⟨Function.update
                (Function.update rl.storage.data (countKey config) (some e))
                (blockKey config) (some ⟨1, now + config.BlockDuration⟩)⟩ })
        else
          (.ok ⟨true, config.MaxRequests - e.value, 0⟩,
            { rl with storage := ⟨Function.update rl.storage.data (countKey config) (some e)⟩ }) := by
  obtain ⟨impl, st, a, b, c, tl⟩ := rl
  subst himpl
  simp only [RateLimiter.CheckLimit, memoryStorage] at hb hi ⊢
  simp only [hb, hi]
  by_cases hgt : e.value > config.MaxRequests
  · simp [hgt, MemoryStorage.SetBlock, time.Add]
  · have : ¬ (config.MaxRequests - e.value < 0) := not_lt.2 (sub_nonneg.2 (not_lt.1 hgt))
    simp [hgt, this]

/-- Every entry point is `CheckLimit` on the config `configOf` gives. -/
theorem check_eq_CheckLimit {σ : Type} (rl : RateLimiter σ) (c : Check) (now : time.Time) :
    rl.check c now = rl.CheckLimit (rl.configOf c) now := by
  cases c <;> rfl

theorem configOf_storage {σ : Type} (rl : RateLimiter σ) (s : σ) (c : Check) :
    ({ rl with storage := s } : RateLimiter σ).configOf c = rl.configOf c := by
  cases c <;> rfl

/-- A check of a blocked identity: the block entry is `⟨1, exp⟩` and has not expired. -/
theorem CheckLimit_of_block (rl : RateLimiter MemoryStorage) (himpl : rl.impl = memoryStorage)
    (config : domain.RateLimitConfig) (now exp : time.Time)
    (h : rl.storage.data (blockKey config) = some ⟨1, exp⟩) (h0 : exp ≠ 0)
    (hle : now ≤ exp) :
    rl.CheckLimit config now = (.ok ⟨false, 0, exp⟩, rl) := by
  have hb := IsBlocked_of_block rl.storage (blockKey config) now exp h hle
  have hd := GetTTL_of_entry rl.storage (blockKey config) now ⟨1, exp⟩ h h0 hle
  rw [CheckLimit_blocked rl himpl config now _ hb hd]
  simp

/-- A check that finds no live block entry and a live counter entry. -/
theorem CheckLimit_of_counter (rl : RateLimiter MemoryStorage)
    (himpl : rl.impl = memoryStorage) (config : domain.RateLimitConfig) (now : time.Time)
    (e : entry) (hb : rl.storage.IsBlocked (blockKey config) now = (.ok false, rl.storage))
    (hc : rl.storage.data (countKey config) = some e) (hx : expired e now = false) :
    rl.CheckLimit config now
      = if e.value + 1 > config.MaxRequests then
          (.ok ⟨false, 0, now + config.BlockDuration⟩,
            { rl with storage := ⟨Function.update
                (Function.update rl.storage.data (countKey config)
                  (some ⟨e.value + 1, e.expiresAt⟩))
                (blockKey config) (some ⟨1, now + config.BlockDuration⟩)⟩ })
        else
          (.ok ⟨true, config.MaxRequests - (e.value + 1), 0⟩,
            { rl with storage := ⟨Function.update rl.storage.data (countKey config)
                (some ⟨e.value + 1, e.expiresAt⟩)⟩ }) :=
  CheckLimit_open rl himpl config now ⟨e.value + 1, e.expiresAt⟩ hb
    (Increment_of_live rl.storage (countKey config) time.Second now e hc hx)

/-- A check that finds no live block entry and no live counter entry. -/
theorem CheckLimit_of_fresh (rl : RateLimiter MemoryStorage)
    (himpl : rl.impl = memoryStorage) (config : domain.RateLimitConfig) (now : time.Time)
    (hb : rl.storage.IsBlocked (blockKey config) now = (.ok false, rl.storage))
    (hc : rl.storage.live (countKey config) now = false) :
    rl.CheckLimit config now
      = if 1 > config.MaxRequests then
          (.ok ⟨false, 0, now + config.BlockDuration⟩,
            { rl with storage := ⟨Function.update
                (Function.update rl.storage.data (countKey config)
                  (some ⟨1, now + time.Second⟩))
                (blockKey config) (some ⟨1, now + config.BlockDuration⟩)⟩ })
        else
          (.ok ⟨true, config.MaxRequests - 1, 0⟩,
            { rl with storage := ⟨Function.update rl.storage.data (countKey config)
                (some ⟨1, now + time.Second⟩)⟩ }) := by
  have hi : rl.storage.Increment (countKey config) time.Second now
      = (.ok 1, ⟨Function.update rl.storage.data (countKey config)
          (some ⟨1, now + time.Second⟩)⟩) := by
    rcases (live_eq_false_iff _ _ _).1 hc with hn | ⟨e, he, hx⟩
    · exact Increment_of_none _ _ _ _ hn
    · exact Increment_of_expired _ _ _ _ e he hx
  exact CheckLimit_open rl himpl config now ⟨1, now + time.Second⟩ hb hi

theorem IsBlocked_congr (m m' : MemoryStorage) (key : String) (now : time.Time)
    (h : m'.data key = m.data key) (b : Bool) (hb : m.IsBlocked key now = (.ok b, m)) :
    m'.IsBlocked key now = (.ok b, m') := by
  obtain ⟨b', hb'⟩ := IsBlocked_shape m' key now
  have h1 : (m'.IsBlocked key now).1 = (m.IsBlocked key now).1 := by
    simp only [MemoryStorage.IsBlocked, h]
    cases m.data key with
    | none => rfl
    | some e =>
      dsimp only
      cases expired e now <;> rfl
  rw [hb, hb'] at h1
  simp only [Except.ok.injEq] at h1
  rw [hb', h1]

/-- Checks of one identity that find no live block entry and a live counter
entry with room below the limit: each is allowed, the counter goes up by one
per check and keeps its expiration. -/
theorem checkAll_counting (rl : RateLimiter MemoryStorage) (himpl : rl.impl = memoryStorage)
    (c : Check) (exp tmin : time.Time) :
    ∀ (ts : List time.Time) (m : MemoryStorage) (k : Int),
      m.data (countKey (rl.configOf c)) = some ⟨k, exp⟩ →
      m.live (blockKey (rl.configOf c)) tmin = false →
      (∀ t ∈ ts, tmin ≤ t ∧ t ≤ exp) →
      k + ts.length ≤ (rl.configOf c).MaxRequests →
      ({ rl with storage := m } : RateLimiter MemoryStorage).checkAll
          (ts.map fun t => (c, t))
        = ((List.range ts.length).map (fun (i : Nat) =>
              Except.ok ⟨true, (rl.configOf c).MaxRequests - (k + 1 + (i : Int)), 0⟩),
            { rl with storage := ⟨Function.update m.data (countKey (rl.configOf c))
                (some ⟨k + ts.length, exp⟩)⟩ })
  | [], m, k, hc, _, _, _ => by
    have : Function.update m.data (countKey (rl.configOf c)) (some ⟨k, exp⟩) = m.data := by
      rw [← hc]; exact Function.update_eq_self _ _
    simp [RateLimiter.checkAll, this]
  | t :: ts, m, k, hc, hb, hts, hk => by
    have ht := hts t (List.mem_cons_self _ _)
    have hk1 : ¬ (k + 1 > (rl.configOf c).MaxRequests) := by
      have : (0 : Int) ≤ (ts.length : Int) := Int.ofNat_nonneg _
      simp only [List.length_cons, Nat.cast_add, Nat.cast_one] at hk
      intro hgt
      have h3 : k + 1 ≤ k + ((ts.length : Int) + 1) := by linarith
      exact absurd (lt_of_lt_of_le hgt (le_trans h3 hk)) (lt_irrefl _)
    have hbk := IsBlocked_of_not_live m (blockKey (rl.configOf c)) t
      (live_mono m _ tmin t hb ht.1)
    have hstep := CheckLimit_of_counter ({ rl with storage := m }) himpl (rl.configOf c) t
      ⟨k, exp⟩ hbk hc (expired_eq_false_of_le _ _ ht.2)
    simp only [hk1, if_false] at hstep
    have hne : blockKey (rl.configOf c) ≠ countKey (rl.configOf c) :=
      blockKey_ne_countKey _ _
    have ih := checkAll_counting rl himpl c exp tmin ts
      ⟨Function.update m.data (countKey (rl.configOf c)) (some ⟨k + 1, exp⟩)⟩ (k + 1)
      (by simp)
      (by
        have : (⟨Function.update m.data (countKey (rl.configOf c)) (some ⟨k + 1, exp⟩)⟩ :
            MemoryStorage).live (blockKey (rl.configOf c)) tmin
              = m.live (blockKey (rl.configOf c)) tmin := by
          simp [MemoryStorage.live, Function.update_noteq hne]
        rw [this]; exact hb)
      (fun u hu => hts u (List.mem_cons_of_mem _ hu))
      (by
        simp only [List.length_cons, Nat.cast_add, Nat.cast_one] at hk
        linarith)
    simp only [List.map_cons, RateLimiter.checkAll, check_eq_CheckLimit, configOf_storage,
      hstep, ih, List.length_cons, List.range_succ_eq_map, List.map_map, Function.update_idem]
    refine Prod.ext ?_ ?_
    · simp [Function.comp_def]
      intro a _
      ring
    · simp only [Nat.cast_add, Nat.cast_one]
      have harith : k + 1 + (ts.length : Int) = k + ((ts.length : Int) + 1) := by ring
      rw [harith]

theorem checkAll_append {σ : Type} :
    ∀ (l1 l2 : List (Check × time.Time)) (rl : RateLimiter σ),
      rl.checkAll (l1 ++ l2)
        = ((rl.checkAll l1).1 ++ ((rl.checkAll l1).2.checkAll l2).1,
            ((rl.checkAll l1).2.checkAll l2).2)
  | [], l2, rl => by simp [RateLimiter.checkAll]
  | (c, t) :: l1, l2, rl => by
    simp [RateLimiter.checkAll, checkAll_append l1 l2]

theorem live_update_ne (m : MemoryStorage) (key key' : String) (v : Option entry)
    (now : time.Time) (hne : key ≠ key') :
    (⟨Function.update m.data key' v⟩ : MemoryStorage).live key now = m.live key now := by
  simp [MemoryStorage.live, Function.update_noteq hne]

/-- C1. On the in-process store, for a limit `N ≥ 1` and an identity with no
live counter entry and no live block entry at `t0`: of `N + 1` consecutive
calls of one entry point (`CheckIP`, `CheckToken` or `CheckLimit`, whose config
has `MaxRequests = N`), the first at `t0` and the others no later than one
second after it, the `k`-th (`1 ≤ k ≤ N`) returns `Allowed = true` with
`RemainingReqs = N - k`, and the last returns `Allowed = false` with
`RemainingReqs = 0`.  (The list index `i` below is `k - 1`.) -/
theorem check_first_N_then_reject (rl : RateLimiter MemoryStorage)
    (himpl : rl.impl = memoryStorage) (c : Check) (N : Nat) (hN : 1 ≤ N)
    (hmax : (rl.configOf c).MaxRequests = N) (t0 : time.Time) (mid : List time.Time)
    (tl : time.Time) (hlen : mid.length + 1 = N)
    (hcount : rl.storage.live (countKey (rl.configOf c)) t0 = false)
    (hblock : rl.storage.live (blockKey (rl.configOf c)) t0 = false)
    (hmid : ∀ t ∈ mid, t0 ≤ t ∧ t ≤ t0 + time.Second)
    (htl : t0 ≤ tl ∧ tl ≤ t0 + time.Second) :
    (rl.checkAll ((t0 :: (mid ++ [tl])).map fun t => (c, t))).1
      = (List.range N).map
            (fun (i : Nat) => Except.ok ⟨true, (N : Int) - ((i : Int) + 1), 0⟩)
          ++ [Except.ok ⟨false, 0, tl + (rl.configOf c).BlockDuration⟩] := by
  have hne : blockKey (rl.configOf c) ≠ countKey (rl.configOf c) := blockKey_ne_countKey _ _
  have h1N : ¬ ((1 : Int) > (rl.configOf c).MaxRequests) := by
    rw [hmax]; exact not_lt.2 (by exact_mod_cast hN)
  -- the first call opens the window
  have hfirst := CheckLimit_of_fresh rl himpl (rl.configOf c) t0
    (IsBlocked_of_not_live _ _ _ hblock) hcount
  simp only [h1N, if_false] at hfirst
  -- the calls 2 .. N count upwards
  have hrun := checkAll_counting rl himpl c (t0 + time.Second) t0 mid
    ⟨Function.update rl.storage.data (countKey (rl.configOf c))
      (some ⟨1, t0 + time.Second⟩)⟩ 1 (by simp)
    (by rw [live_update_ne _ _ _ _ _ hne]; exact hblock) hmid
    (by rw [hmax, ← hlen]; push_cast; linarith)
  -- the call N + 1 exceeds the limit
  have hlive : (⟨Function.update rl.storage.data (countKey (rl.configOf c))
      (some ⟨1 + (mid.length : Int), t0 + time.Second⟩)⟩ : MemoryStorage).live
        (blockKey (rl.configOf c)) t0 = false := by
    rw [live_update_ne _ _ _ _ _ hne]; exact hblock
  have hlast := CheckLimit_of_counter
    ({ rl with storage := ⟨Function.update rl.storage.data (countKey (rl.configOf c))
        (some ⟨1 + (mid.length : Int), t0 + time.Second⟩)⟩ }) himpl (rl.configOf c) tl
    ⟨1 + (mid.length : Int), t0 + time.Second⟩
    (IsBlocked_of_not_live _ _ _ (live_mono _ _ t0 tl hlive htl.1))
    (by simp) (expired_eq_false_of_le _ _ htl.2)
  have hgt : (1 + (mid.length : Int) + 1 > (rl.configOf c).MaxRequests) := by
    rw [hmax, ← hlen]; push_cast; linarith
  simp only [hgt, if_true] at hlast
  simp only [List.map_cons, List.map_append, List.map_nil, RateLimiter.checkAll,
    check_eq_CheckLimit, hfirst, checkAll_append]
  simp only [Function.update_idem] at hrun
  rw [hrun]
  simp only [RateLimiter.checkAll, check_eq_CheckLimit, configOf_storage, hlast]
  subst hlen
  simp only [List.range_succ_eq_map, List.map_cons, List.map_map, List.cons_append, hmax]
  congr 1
  simp
  intro a _
  ring

/-- C1 on the first test of `rate_limiter_test.go`: limit 5, six calls of
`CheckIP` for a new address within one second. -/
theorem check_first_N_then_reject_witness :
    ((NewRateLimiter memoryStorage NewMemoryStorage 5 10 (5 * time.Second)).checkAll
        ([100, 100, 101, 102, 103, 104].map fun t => (Check.IP "192.168.1.1", t))).1
      = [.ok ⟨true, 4, 0⟩, .ok ⟨true, 3, 0⟩, .ok ⟨true, 2, 0⟩, .ok ⟨true, 1, 0⟩,
          .ok ⟨true, 0, 0⟩, .ok ⟨false, 0, 104 + 5 * time.Second⟩] :=
  (check_first_N_then_reject
      (NewRateLimiter memoryStorage NewMemoryStorage 5 10 (5 * time.Second)) rfl
      (Check.IP "192.168.1.1") 5 (by decide) rfl 100 [100, 101, 102, 103] 104 rfl
      (by decide) (by decide) (by decide) (by decide)).trans (by decide)

/-! ## What a check leaves alone -/

/-- A check changes nothing of the limiter but its store. -/
theorem CheckLimit_fields (rl : RateLimiter MemoryStorage) (himpl : rl.impl = memoryStorage)
    (config : domain.RateLimitConfig) (now : time.Time) :
    (rl.CheckLimit config now).2
      = { rl with storage := (rl.CheckLimit config now).2.storage } := by
  obtain ⟨b, hb⟩ := IsBlocked_shape rl.storage (blockKey config) now
  cases b with
  | true =>
    obtain ⟨d, hd⟩ := GetTTL_shape rl.storage (blockKey config) now
    rw [CheckLimit_blocked rl himpl config now d hb hd]
  | false =>
    obtain ⟨e, he⟩ := Increment_shape rl.storage (countKey config) time.Second now
    rw [CheckLimit_open rl himpl config now e hb he]
    split <;> rfl

/-- A check writes under its own two keys only. -/
theorem CheckLimit_frame (rl : RateLimiter MemoryStorage) (himpl : rl.impl = memoryStorage)
    (config : domain.RateLimitConfig) (now : time.Time) (key : String)
    (h1 : key ≠ blockKey config) (h2 : key ≠ countKey config) :
    (rl.CheckLimit config now).2.storage.data key = rl.storage.data key := by
  obtain ⟨b, hb⟩ := IsBlocked_shape rl.storage (blockKey config) now
  cases b with
  | true =>
    obtain ⟨d, hd⟩ := GetTTL_shape rl.storage (blockKey config) now
    rw [CheckLimit_blocked rl himpl config now d hb hd]
  | false =>
    obtain ⟨e, he⟩ := Increment_shape rl.storage (countKey config) time.Second now
    rw [CheckLimit_open rl himpl config now e hb he]
    split
    · simp [Function.update_noteq h1, Function.update_noteq h2]
    · simp [Function.update_noteq h2]

theorem CheckLimit_impl (rl : RateLimiter MemoryStorage) (himpl : rl.impl = memoryStorage)
    (config : domain.RateLimitConfig) (now : time.Time) :
    (rl.CheckLimit config now).2.impl = memoryStorage := by
  rw [CheckLimit_fields rl himpl config now]
  exact himpl

theorem configOf_CheckLimit (rl : RateLimiter MemoryStorage) (himpl : rl.impl = memoryStorage)
    (config : domain.RateLimitConfig) (now : time.Time) (c : Check) :
    (rl.CheckLimit config now).2.configOf c = rl.configOf c := by
  rw [CheckLimit_fields rl himpl config now]
  exact configOf_storage rl _ c

/-- While a block entry `⟨1, exp⟩` is unexpired, a check of any identity at all
leaves that entry, and the counter entry next to it, as they are. -/
theorem CheckLimit_keeps_block (rl : RateLimiter MemoryStorage)
    (himpl : rl.impl = memoryStorage) (config config' : domain.RateLimitConfig)
    (now exp : time.Time) (h : rl.storage.data (blockKey config) = some ⟨1, exp⟩)
    (h0 : exp ≠ 0) (hle : now ≤ exp) :
    (rl.CheckLimit config' now).2.storage.data (blockKey config)
        = rl.storage.data (blockKey config)
      ∧ (rl.CheckLimit config' now).2.storage.data (countKey config)
        = rl.storage.data (countKey config) := by
  by_cases hk : blockKey config' = blockKey config
  · rw [CheckLimit_of_block rl himpl config' now exp (by rw [hk]; exact h) h0 hle]
    exact ⟨rfl, rfl⟩
  · have hk' : countKey config' ≠ countKey config :=
      fun hc => hk ((blockKey_eq_iff_countKey_eq _ _).2 hc)
    exact ⟨CheckLimit_frame rl himpl config' now _ (Ne.symm hk) (blockKey_ne_countKey _ _),
      CheckLimit_frame rl himpl config' now _ (Ne.symm (blockKey_ne_countKey _ _))
        (Ne.symm hk')⟩

/-- The same over a run of calls, none later than the expiration of the block. -/
theorem checkAll_keeps_block (config : domain.RateLimitConfig) (exp : time.Time)
    (h0 : exp ≠ 0) :
    ∀ (l : List (Check × time.Time)) (rl : RateLimiter MemoryStorage),
      rl.impl = memoryStorage → rl.storage.data (blockKey config) = some ⟨1, exp⟩ →
      (∀ p ∈ l, p.2 ≤ exp) →
      (rl.checkAll l).2.impl = memoryStorage
        ∧ (rl.checkAll l).2.storage.data (blockKey config) = some ⟨1, exp⟩
        ∧ (rl.checkAll l).2.storage.data (countKey config)
            = rl.storage.data (countKey config)
        ∧ ∀ c, (rl.checkAll l).2.configOf c = rl.configOf c
  | [], rl, himpl, h, _ => ⟨himpl, h, rfl, fun _ => rfl⟩
  | (c, t) :: l, rl, himpl, h, hl => by
    have ht : t ≤ exp := hl (c, t) (List.mem_cons_self _ _)
    have hstep := CheckLimit_keeps_block rl himpl config (rl.configOf c) t exp h h0 ht
    have ih := checkAll_keeps_block config exp h0 l (rl.CheckLimit (rl.configOf c) t).2
      (CheckLimit_impl rl himpl _ _) (by rw [hstep.1]; exact h)
      (fun p hp => hl p (List.mem_cons_of_mem _ hp))
    simp only [RateLimiter.checkAll, check_eq_CheckLimit]
    refine ⟨ih.1, ih.2.1, ?_, ?_⟩
    · rw [ih.2.2.1, hstep.2]
    · intro c'
      rw [ih.2.2.2 c', configOf_CheckLimit rl himpl]

/-- The check that blocks: the identity was not blocked, and the check came
back with `Allowed = false`.  Then the counter went over the limit and the
block entry `⟨1, now + BlockDuration⟩` was written. -/
theorem CheckLimit_trigger (rl : RateLimiter MemoryStorage) (himpl : rl.impl = memoryStorage)
    (config : domain.RateLimitConfig) (now : time.Time)
    (hnb : (rl.storage.IsBlocked (blockKey config) now).1 = .ok false)
    (st : domain.RateLimitStatus) (hres : (rl.CheckLimit config now).1 = .ok st)
    (hdeny : st.Allowed = false) :
    ∃ e : entry,
      (rl.CheckLimit config now).1 = .ok ⟨false, 0, now + config.BlockDuration⟩
      ∧ (rl.CheckLimit config now).2
          = { rl with storage := ⟨Function.update
                (Function.update rl.storage.data (countKey config) (some e))
                (blockKey config) (some ⟨1, now + config.BlockDuration⟩)⟩ }
      ∧ (rl.storage.Increment (countKey config) time.Second now).2.data (countKey config)
          = some e := by
  obtain ⟨b, hb⟩ := IsBlocked_shape rl.storage (blockKey config) now
  rw [hb] at hnb
  simp only [Except.ok.injEq] at hnb
  subst hnb
  obtain ⟨e, he⟩ := Increment_shape rl.storage (countKey config) time.Second now
  have hopen := CheckLimit_open rl himpl config now e hb he
  by_cases hgt : e.value > config.MaxRequests
  · simp only [hgt, if_true] at hopen
    exact ⟨e, by rw [hopen], by rw [hopen], by rw [he]; simp⟩
  · simp only [hgt, if_false] at hopen
    rw [hopen] at hres
    simp only [Except.ok.injEq] at hres
    rw [← hres] at hdeny
    exact absurd hdeny (by simp)

/-- C3 as stated fails when the block is shorter than the counter window: limit
1, blocks of half a second.  The second call, at 100, blocks the address until
100 + 0.5 s; the next call comes 0.6 s after it, strictly after the block has
ended, and is rejected, because the counter entry created at 100 lives until
100 + 1 s and now counts 3. -/
theorem allowed_after_block_counterexample :
    ((NewRateLimiter memoryStorage NewMemoryStorage 1 10 500000000).checkAll
        [(Check.IP "192.168.1.2", 100), (Check.IP "192.168.1.2", 100),
          (Check.IP "192.168.1.2", 100 + 600000000)]).1
      = [.ok ⟨true, 0, 0⟩, .ok ⟨false, 0, 100 + 500000000⟩,
          .ok ⟨false, 0, 100 + 600000000 + 500000000⟩]
    ∧ (100 : time.Time) + 500000000 < 100 + 600000000 := by
  decide

/-- C3, amended. After a check at `t0` has blocked an identity (it was not
blocked and the check came back with `Allowed = false`; the block's expiration
`t0 + BlockDuration` is not the zero time), and whatever calls were made no
later than `t0 + BlockDuration`, a check for that identity with limit `N ≥ 1`
made strictly after `t0 + BlockDuration` and after the identity's counter entry
has expired returns `Allowed = true` with `RemainingReqs = N - 1`.  The counter
entry has expired at every such check when `BlockDuration` is at least one
second and the counter entry found at `t0`, if any, has a non-zero expiration
no later than `t0` plus one second (as every entry a check created at or before
`t0` has). -/
theorem allowed_after_block_and_window (rl : RateLimiter MemoryStorage)
    (himpl : rl.impl = memoryStorage) (config : domain.RateLimitConfig) (t0 : time.Time)
    (hnb : (rl.storage.IsBlocked (blockKey config) t0).1 = .ok false)
    (st0 : domain.RateLimitStatus) (hres : (rl.CheckLimit config t0).1 = .ok st0)
    (hdeny : st0.Allowed = false) (hexp : t0 + config.BlockDuration ≠ 0)
    (l : List (Check × time.Time)) (hl : ∀ p ∈ l, p.2 ≤ t0 + config.BlockDuration)
    (config' : domain.RateLimitConfig)
    (hc : config'.Typ = config.Typ ∧ config'.Key = config.Key)
    (hN : 1 ≤ config'.MaxRequests) (t : time.Time)
    (ht : t0 + config.BlockDuration < t) :
    ((rl.CheckLimit config t0).2.storage.live (countKey config) t = false →
        (((rl.CheckLimit config t0).2.checkAll l).2.CheckLimit config' t).1
          = .ok ⟨true, config'.MaxRequests - 1, 0⟩)
      ∧ (time.Second ≤ config.BlockDuration → t0 + time.Second ≠ 0 →
          (∀ e, rl.storage.data (countKey config) = some e →
            e.expiresAt ≠ 0 ∧ e.expiresAt ≤ t0 + time.Second) →
          (((rl.CheckLimit config t0).2.checkAll l).2.CheckLimit config' t).1
            = .ok ⟨true, config'.MaxRequests - 1, 0⟩) := by
  obtain ⟨e, _, hstate, hinc⟩ := CheckLimit_trigger rl himpl config t0 hnb st0 hres hdeny
  have himpl0 := CheckLimit_impl rl himpl config t0
  have hne : blockKey config ≠ countKey config := blockKey_ne_countKey _ _
  have hb0 : (rl.CheckLimit config t0).2.storage.data (blockKey config)
      = some ⟨1, t0 + config.BlockDuration⟩ := by
    rw [hstate]; simp
  have hc0 : (rl.CheckLimit config t0).2.storage.data (countKey config) = some e := by
    rw [hstate]; simp [Function.update_noteq hne.symm]
  have hkb := blockKey_eq_of_same config config' hc.1 hc.2
  have hkc := countKey_eq_of_same config config' hc.1 hc.2
  have hrun := checkAll_keeps_block config _ hexp l _ himpl0 hb0 hl
  -- at `t` the block entry has expired
  have hblk : ((rl.CheckLimit config t0).2.checkAll l).2.storage.IsBlocked
      (blockKey config') t
        = (.ok false, ((rl.CheckLimit config t0).2.checkAll l).2.storage) :=
    IsBlocked_of_expired _ _ _ _ (by rw [hkb]; exact hrun.2.1)
      (expired_eq_true _ _ hexp ht)
  have key : (rl.CheckLimit config t0).2.storage.live (countKey config) t = false →
      (((rl.CheckLimit config t0).2.checkAll l).2.CheckLimit config' t).1
        = .ok ⟨true, config'.MaxRequests - 1, 0⟩ := by
    intro hlive
    have hlive' : ((rl.CheckLimit config t0).2.checkAll l).2.storage.live
        (countKey config') t = false := by
      rw [hkc]
      simp only [MemoryStorage.live, hrun.2.2.1]
      exact hlive
    have hfresh := CheckLimit_of_fresh _ hrun.1 config' t hblk hlive'
    have h1N : ¬ ((1 : Int) > config'.MaxRequests) := not_lt.2 hN
    simp only [h1N, if_false] at hfresh
    rw [hfresh]
  refine ⟨key, ?_⟩
  intro hd ht0 hpre
  apply key
  -- the counter entry left by the blocking check expires by `t0` plus one second
  have he : e.expiresAt ≠ 0 ∧ e.expiresAt ≤ t0 + time.Second := by
    cases hdata : rl.storage.data (countKey config) with
    | none =>
      rw [Increment_of_none _ _ _ _ hdata] at hinc
      simp only [Function.update_same, Option.some.injEq] at hinc
      rw [← hinc]
      exact ⟨ht0, le_refl _⟩
    | some e0 =>
      cases hx : expired e0 t0 with
      | true =>
        rw [Increment_of_expired _ _ _ _ e0 hdata hx] at hinc
        simp only [Function.update_same, Option.some.injEq] at hinc
        rw [← hinc]
        exact ⟨ht0, le_refl _⟩
      | false =>
        rw [Increment_of_live _ _ _ _ e0 hdata hx] at hinc
        simp only [Function.update_same, Option.some.injEq] at hinc
        rw [← hinc]
        exact hpre e0 hdata
  have hlt : e.expiresAt < t :=
    lt_of_le_of_lt (le_trans he.2 (by linarith)) ht
  simp only [MemoryStorage.live, hc0]
  simp [expired_eq_true e t he.1 hlt]

/-- C3, amended, on `TestRateLimiter_BlockDuration`: limit 2, blocks of two
seconds; the third call, at 102, blocks the address, and the call three seconds
later is allowed with one request left. -/
theorem allowed_after_block_and_window_witness :
    (((testLimiterAtLimit.CheckLimit ⟨"192.168.1.2", "ip", 2, 2 * time.Second⟩ 102).2.checkAll
          []).2.CheckLimit ⟨"192.168.1.2", "ip", 2, 2 * time.Second⟩
        (102 + 3 * time.Second)).1
      = .ok ⟨true, 2 - 1, 0⟩ :=
  (allowed_after_block_and_window testLimiterAtLimit rfl
    ⟨"192.168.1.2", "ip", 2, 2 * time.Second⟩ 102 (by decide)
    ⟨false, 0, 102 + 2 * time.Second⟩ (by decide) rfl (by decide) [] (by decide)
    ⟨"192.168.1.2", "ip", 2, 2 * time.Second⟩ ⟨rfl, rfl⟩ (by decide)
    (102 + 3 * time.Second) (by decide)).2 (by decide) (by decide)
    (fun e he => by
      have hd : testLimiterAtLimit.storage.data
          (countKey ⟨"192.168.1.2", "ip", 2, 2 * time.Second⟩)
            = some ⟨2, 100 + time.Second⟩ := by decide
      rw [hd] at he
      cases he
      decide)

/-! ## Checks of different identities -/

theorem GetTTL_congr (m m' : MemoryStorage) (key : String) (now : time.Time)
    (h : m'.data key = m.data key) (d : time.Duration)
    (hd : m.GetTTL key now = (.ok d, m)) : m'.GetTTL key now = (.ok d, m') := by
  obtain ⟨d', hd'⟩ := GetTTL_shape m' key now
  have h1 : (m'.GetTTL key now).1 = (m.GetTTL key now).1 := by
    simp only [MemoryStorage.GetTTL, h]
    cases m.data key with
    | none => rfl
    | some e =>
      dsimp only
      split
      · rfl
      · split <;> rfl
  rw [hd, hd'] at h1
  simp only [Except.ok.injEq] at h1
  rw [hd', h1]

theorem Increment_congr (m m' : MemoryStorage) (key : String) (expiration : time.Duration)
    (now : time.Time) (h : m'.data key = m.data key) (e : entry)
    (he : m.Increment key expiration now
      = (.ok e.value, ⟨Function.update m.data key (some e)⟩)) :
    m'.Increment key expiration now
      = (.ok e.value, ⟨Function.update m'.data key (some e)⟩) := by
  have hsame : ∀ (e1 : entry), (⟨Function.update m.data key (some e)⟩ : MemoryStorage)
      = ⟨Function.update m.data key (some e1)⟩ → e1 = e := by
    intro e1 h1
    have := congrArg (fun (x : MemoryStorage) => x.data key) h1
    simpa using this.symm
  cases hd : m.data key with
  | none =>
    rw [Increment_of_none m key expiration now hd] at he
    have h2 := hsame _ (congrArg Prod.snd he).symm
    rw [Increment_of_none m' key expiration now (by rw [h, hd])]
    subst h2
    rfl
  | some e0 =>
    cases hx : expired e0 now with
    | true =>
      rw [Increment_of_expired m key expiration now e0 hd hx] at he
      have h2 := hsame _ (congrArg Prod.snd he).symm
      rw [Increment_of_expired m' key expiration now e0 (by rw [h, hd]) hx]
      subst h2
      rfl
    | false =>
      rw [Increment_of_live m key expiration now e0 hd hx] at he
      have h2 := hsame _ (congrArg Prod.snd he).symm
      rw [Increment_of_live m' key expiration now e0 (by rw [h, hd]) hx]
      subst h2
      rfl

/-- The result of a check, and the two entries it leaves, depend on nothing in
the table but the two entries of its identity. -/
theorem CheckLimit_congr (rl rl' : RateLimiter MemoryStorage)
    (himpl : rl.impl = memoryStorage) (himpl' : rl'.impl = memoryStorage)
    (config : domain.RateLimitConfig) (now : time.Time)
    (hb : rl'.storage.data (blockKey config) = rl.storage.data (blockKey config))
    (hc : rl'.storage.data (countKey config) = rl.storage.data (countKey config)) :
    (rl'.CheckLimit config now).1 = (rl.CheckLimit config now).1
      ∧ (rl'.CheckLimit config now).2.storage.data (blockKey config)
          = (rl.CheckLimit config now).2.storage.data (blockKey config)
      ∧ (rl'.CheckLimit config now).2.storage.data (countKey config)
          = (rl.CheckLimit config now).2.storage.data (countKey config) := by
  have hne : blockKey config ≠ countKey config := blockKey_ne_countKey _ _
  obtain ⟨b, hblk⟩ := IsBlocked_shape rl.storage (blockKey config) now
  have hblk' := IsBlocked_congr rl.storage rl'.storage _ now hb b hblk
  cases b with
  | true =>
    obtain ⟨d, hd⟩ := GetTTL_shape rl.storage (blockKey config) now
    have hd' := GetTTL_congr rl.storage rl'.storage _ now hb d hd
    rw [CheckLimit_blocked rl himpl config now d hblk hd,
      CheckLimit_blocked rl' himpl' config now d hblk' hd']
    exact ⟨rfl, hb, hc⟩
  | false =>
    obtain ⟨e, he⟩ := Increment_shape rl.storage (countKey config) time.Second now
    have he' := Increment_congr rl.storage rl'.storage _ time.Second now hc e he
    rw [CheckLimit_open rl himpl config now e hblk he,
      CheckLimit_open rl' himpl' config now e hblk' he']
    split
    · simp [Function.update_noteq hne.symm]
    · simp [Function.update_noteq hne, hb]

/-- A run of calls leaves alone every key that is not a key of one of its calls. -/
theorem checkAll_frame (key : String) :
    ∀ (l : List (Check × time.Time)) (rl : RateLimiter MemoryStorage),
      rl.impl = memoryStorage →
      (∀ p ∈ l, key ≠ blockKey (rl.configOf p.1) ∧ key ≠ countKey (rl.configOf p.1)) →
      (rl.checkAll l).2.impl = memoryStorage
        ∧ (rl.checkAll l).2.storage.data key = rl.storage.data key
        ∧ ∀ c, (rl.checkAll l).2.configOf c = rl.configOf c
  | [], rl, himpl, _ => ⟨himpl, rfl, fun _ => rfl⟩
  | (c, t) :: l, rl, himpl, hl => by
    have hct := hl (c, t) (List.mem_cons_self _ _)
    have hstep := CheckLimit_frame rl himpl (rl.configOf c) t key hct.1 hct.2
    have ih := checkAll_frame key l (rl.CheckLimit (rl.configOf c) t).2
      (CheckLimit_impl rl himpl _ _)
      (fun p hp => by
        rw [configOf_CheckLimit rl himpl]
        exact hl p (List.mem_cons_of_mem _ hp))
    simp only [RateLimiter.checkAll, check_eq_CheckLimit]
    refine ⟨ih.1, by rw [ih.2.1, hstep], ?_⟩
    intro c'
    rw [ih.2.2 c', configOf_CheckLimit rl himpl]

/-- C4. On the in-process store, for every table and every time: calls for one
identity `(T1, K1)` (a kind, `ip` or `token`, and a key), however many and
whenever made, change neither the result of a later call for an identity that
differs from it in kind or in key, nor the counter and block entries of that
second identity, before and after its call, compared with the run in which the
calls for `(T1, K1)` were not made. -/
theorem checks_of_distinct_identities (rl : RateLimiter MemoryStorage)
    (himpl : rl.impl = memoryStorage) (T1 K1 : String)
    (hT1 : T1 = domain.RateLimitTypeIP ∨ T1 = domain.RateLimitTypeToken) (c2 : Check)
    (hT2 : (rl.configOf c2).Typ = domain.RateLimitTypeIP
      ∨ (rl.configOf c2).Typ = domain.RateLimitTypeToken)
    (hne : ¬ (T1 = (rl.configOf c2).Typ ∧ K1 = (rl.configOf c2).Key))
    (l : List (Check × time.Time))
    (hl : ∀ p ∈ l, (rl.configOf p.1).Typ = T1 ∧ (rl.configOf p.1).Key = K1)
    (now : time.Time) :
    ((rl.checkAll l).2.check c2 now).1 = (rl.check c2 now).1
      ∧ (rl.checkAll l).2.storage.data (countKey (rl.configOf c2))
          = rl.storage.data (countKey (rl.configOf c2))
      ∧ (rl.checkAll l).2.storage.data (blockKey (rl.configOf c2))
          = rl.storage.data (blockKey (rl.configOf c2))
      ∧ ((rl.checkAll l).2.check c2 now).2.storage.data (countKey (rl.configOf c2))
          = (rl.check c2 now).2.storage.data (countKey (rl.configOf c2))
      ∧ ((rl.checkAll l).2.check c2 now).2.storage.data (blockKey (rl.configOf c2))
          = (rl.check c2 now).2.storage.data (blockKey (rl.configOf c2)) := by
  -- the keys of the second identity are not keys of a call of the run
  have hkeys : ∀ p ∈ l,
      blockKey (rl.configOf c2) ≠ blockKey (rl.configOf p.1)
        ∧ countKey (rl.configOf c2) ≠ countKey (rl.configOf p.1) := by
    intro p hp
    have hp' := hl p hp
    have hb : blockKey (rl.configOf c2) ≠ blockKey (rl.configOf p.1) := by
      intro heq
      have := blockKey_inj _ _ hT2 (by rw [hp'.1]; exact hT1) heq
      exact hne ⟨by rw [this.1, hp'.1], by rw [this.2, hp'.2]⟩
    exact ⟨hb, fun hc => hb ((blockKey_eq_iff_countKey_eq _ _).2 hc)⟩
  have hfb := checkAll_frame (blockKey (rl.configOf c2)) l rl himpl
    (fun p hp => ⟨(hkeys p hp).1, blockKey_ne_countKey _ _⟩)
  have hfc := checkAll_frame (countKey (rl.configOf c2)) l rl himpl
    (fun p hp => ⟨Ne.symm (blockKey_ne_countKey _ _), (hkeys p hp).2⟩)
  have hcongr := CheckLimit_congr rl (rl.checkAll l).2 himpl hfb.1 (rl.configOf c2) now
    hfb.2.1 hfc.2.1
  simp only [check_eq_CheckLimit, hfb.2.2 c2]
  exact ⟨hcongr.1, hfc.2.1, hfb.2.1, hcongr.2.2, hcongr.2.1⟩

/-- C4 on `TestRateLimiter_DifferentIPs` and on one string used as address and
as token: six calls for `192.168.1.1` exhaust and block it; the call for
`192.168.1.2`, and the call for the token `192.168.1.1`, come back as on the
limiter that never saw the six calls. -/
theorem checks_of_distinct_identities_witness :
    (((NewRateLimiter memoryStorage NewMemoryStorage 5 10 (5 * time.Second)).checkAll
          ([100, 101, 102, 103, 104, 105].map fun t => (Check.IP "192.168.1.1", t))).2.check
        (Check.IP "192.168.1.2") 106).1
        = ((NewRateLimiter memoryStorage NewMemoryStorage 5 10 (5 * time.Second)).check
            (Check.IP "192.168.1.2") 106).1
      ∧ (((NewRateLimiter memoryStorage NewMemoryStorage 5 10 (5 * time.Second)).checkAll
          ([100, 101, 102, 103, 104, 105].map fun t => (Check.IP "192.168.1.1", t))).2.check
        (Check.Token "192.168.1.1") 106).1
        = ((NewRateLimiter memoryStorage NewMemoryStorage 5 10 (5 * time.Second)).check
            (Check.Token "192.168.1.1") 106).1 :=
  ⟨(checks_of_distinct_identities
      (NewRateLimiter memoryStorage NewMemoryStorage 5 10 (5 * time.Second)) rfl
      "ip" "192.168.1.1" (Or.inl rfl) (Check.IP "192.168.1.2") (Or.inl rfl) (by decide)
      ([100, 101, 102, 103, 104, 105].map fun t => (Check.IP "192.168.1.1", t))
      (by decide) 106).1,
   (checks_of_distinct_identities
      (NewRateLimiter memoryStorage NewMemoryStorage 5 10 (5 * time.Second)) rfl
      "ip" "192.168.1.1" (Or.inl rfl) (Check.Token "192.168.1.1") (Or.inr rfl) (by decide)
      ([100, 101, 102, 103, 104, 105].map fun t => (Check.IP "192.168.1.1", t))
      (by decide) 106).1⟩

/-! ## The limits of a call -/

/-- A check, over any store, changes nothing of the limiter but the store state. -/
theorem CheckLimit_params {σ : Type} (rl : RateLimiter σ) (config : domain.RateLimitConfig)
    (now : time.Time) :
    (rl.CheckLimit config now).2
      = { rl with storage := (rl.CheckLimit config now).2.storage } := by
  unfold RateLimiter.CheckLimit
  repeat' split
  all_goals rfl

theorem check_params {σ : Type} (rl : RateLimiter σ) (c : Check) (now : time.Time) :
    (rl.check c now).2 = { rl with storage := (rl.check c now).2.storage } := by
  rw [check_eq_CheckLimit]
  exact CheckLimit_params rl _ now

theorem checkAll_params {σ : Type} :
    ∀ (l : List (Check × time.Time)) (rl : RateLimiter σ),
      (rl.checkAll l).2 = { rl with storage := (rl.checkAll l).2.storage }
  | [], _ => rfl
  | (c, t) :: l, rl => by
    have ih := checkAll_params l (rl.check c t).2
    have hstep := check_params rl c t
    simp only [RateLimiter.checkAll]
    rw [ih]
    rw [hstep]

/-- A check reads nothing of the limiter but its store. -/
theorem CheckLimit_of_same_store {σ : Type} (rl rl' : RateLimiter σ)
    (h1 : rl'.impl = rl.impl) (h2 : rl'.storage = rl.storage)
    (config : domain.RateLimitConfig) (now : time.Time) :
    (rl'.CheckLimit config now).1 = (rl.CheckLimit config now).1
      ∧ (rl'.CheckLimit config now).2.storage = (rl.CheckLimit config now).2.storage := by
  obtain ⟨impl, st, a, b, c, tl⟩ := rl
  obtain ⟨impl', st', a', b', c', tl'⟩ := rl'
  simp only at h1 h2
  subst h1 h2
  simp only [RateLimiter.CheckLimit]
  rcases impl'.IsBlocked st' (blockKey config) now with ⟨(err | blk), s1⟩
  · exact ⟨rfl, rfl⟩
  · cases blk with
    | true =>
      dsimp only
      rcases impl'.GetTTL s1 (blockKey config) now with ⟨(err | ttl), s2⟩
      · exact ⟨rfl, rfl⟩
      · exact ⟨rfl, rfl⟩
    | false =>
      dsimp only
      rcases impl'.Increment s1 (countKey config) time.Second now with ⟨(err | count), s2⟩
      · exact ⟨rfl, rfl⟩
      · dsimp only
        by_cases hgt : count > config.MaxRequests
        · simp only [hgt, if_true]
          rcases impl'.SetBlock s2 (blockKey config) config.BlockDuration now
            with ⟨(err | u), s3⟩
          · exact ⟨rfl, rfl⟩
          · exact ⟨rfl, rfl⟩
        · simp only [hgt, if_false]
          exact ⟨trivial, trivial⟩

/-- Setting a token limit and making a check commute: the check gives the same
result and leaves the same store, and the limit set is there afterwards. -/
theorem CheckLimit_SetTokenLimit {σ : Type} (rl : RateLimiter σ) (token : String)
    (limit : Int) (config : domain.RateLimitConfig) (now : time.Time) :
    (rl.SetTokenLimit token limit).CheckLimit config now
      = ((rl.CheckLimit config now).1,
          (rl.CheckLimit config now).2.SetTokenLimit token limit) := by
  have h := CheckLimit_of_same_store rl (rl.SetTokenLimit token limit) rfl rfl config now
  refine Prod.ext h.1 ?_
  rw [CheckLimit_params (rl.SetTokenLimit token limit) config now,
    CheckLimit_params rl config now, h.2]
  rfl

/-- C5. Over any store: after `SetTokenLimit(t, L)`, and whatever calls are made
afterwards, `CheckToken(t)` is `CheckLimit` with kind `token`, key `t` and
`MaxRequests = L`, where `L` is the value set last; `CheckToken(u)` for a token
`u` without an override is `CheckLimit` with the default token limit; and
`SetTokenLimit(t, L)` changes neither `CheckToken(u)` for another token `u` nor
`CheckIP`: they give the result and leave the store they give without it. -/
theorem token_limit_override {σ : Type} (rl : RateLimiter σ) (t u : String) (L : Int)
    (l : List (Check × time.Time)) (now : time.Time) :
    ((rl.SetTokenLimit t L).checkAll l).2.CheckToken t now
        = ((rl.SetTokenLimit t L).checkAll l).2.CheckLimit
            ⟨t, domain.RateLimitTypeToken, L, rl.blockDuration⟩ now
      ∧ (∀ L0 : Int, ((rl.SetTokenLimit t L0).SetTokenLimit t L).CheckToken t now
          = ((rl.SetTokenLimit t L0).SetTokenLimit t L).CheckLimit
              ⟨t, domain.RateLimitTypeToken, L, rl.blockDuration⟩ now)
      ∧ (rl.tokenLimits u = none →
          (rl.checkAll l).2.CheckToken u now
            = (rl.checkAll l).2.CheckLimit
                ⟨u, domain.RateLimitTypeToken, rl.tokenLimit, rl.blockDuration⟩ now)
      ∧ (u ≠ t →
          (rl.SetTokenLimit t L).CheckToken u now
            = ((rl.CheckToken u now).1, (rl.CheckToken u now).2.SetTokenLimit t L))
      ∧ (∀ ip : String,
          (rl.SetTokenLimit t L).CheckIP ip now
            = ((rl.CheckIP ip now).1, (rl.CheckIP ip now).2.SetTokenLimit t L)) := by
  refine ⟨?_, ?_, ?_, ?_, ?_⟩
  · rw [checkAll_params l (rl.SetTokenLimit t L)]
    simp [RateLimiter.CheckToken, RateLimiter.SetTokenLimit]
  · intro L0
    simp [RateLimiter.CheckToken, RateLimiter.SetTokenLimit]
  · intro hu
    rw [checkAll_params l rl]
    simp [RateLimiter.CheckToken, hu]
  · intro hne
    have h := CheckLimit_SetTokenLimit rl t L (rl.configOf (Check.Token u)) now
    have hcfg : (rl.SetTokenLimit t L).CheckToken u now
        = (rl.SetTokenLimit t L).CheckLimit (rl.configOf (Check.Token u)) now := by
      simp [RateLimiter.CheckToken, RateLimiter.SetTokenLimit, RateLimiter.configOf,
        Function.update_noteq hne]
    rw [hcfg, h]
    rfl
  · intro ip
    exact CheckLimit_SetTokenLimit rl t L (rl.configOf (Check.IP ip)) now

/-- C5 on `TestRateLimiter_CustomTokenLimit`: default token limit 10, the limit
of `premium-token` set to 100.  Its check is the `CheckLimit` with limit 100, a
token without override is checked with limit 10, and the checks of another
token and of an address are as before the override. -/
theorem token_limit_override_witness :
    ((testLimiter.SetTokenLimit "premium-token" 100).checkAll []).2.CheckToken
        "premium-token" 100
        = ((testLimiter.SetTokenLimit "premium-token" 100).checkAll []).2.CheckLimit
            ⟨"premium-token", domain.RateLimitTypeToken, 100, testLimiter.blockDuration⟩ 100
      ∧ (testLimiter.checkAll []).2.CheckToken "test-token-123" 100
        = (testLimiter.checkAll []).2.CheckLimit
            ⟨"test-token-123", domain.RateLimitTypeToken, 10, testLimiter.blockDuration⟩ 100
      ∧ (testLimiter.SetTokenLimit "premium-token" 100).CheckToken "test-token-123" 100
        = ((testLimiter.CheckToken "test-token-123" 100).1,
            (testLimiter.CheckToken "test-token-123" 100).2.SetTokenLimit "premium-token" 100)
      ∧ (testLimiter.SetTokenLimit "premium-token" 100).CheckIP "192.168.1.2" 100
        = ((testLimiter.CheckIP "192.168.1.2" 100).1,
            (testLimiter.CheckIP "192.168.1.2" 100).2.SetTokenLimit "premium-token" 100) :=
  ⟨(token_limit_override testLimiter "premium-token" "test-token-123" 100 [] 100).1,
   (token_limit_override testLimiter "premium-token" "test-token-123" 100 [] 100).2.2.1 rfl,
   (token_limit_override testLimiter "premium-token" "test-token-123" 100 [] 100).2.2.2.1
     (by decide),
   (token_limit_override testLimiter "premium-token" "test-token-123" 100 [] 100).2.2.2.2
     "192.168.1.2"⟩

/-! ## The remaining requests -/

/-- The entry an increment leaves under its key has not expired at the time of
the increment, when the window is not negative. -/
theorem Increment_entry_live (m : MemoryStorage) (key : String) (expiration : time.Duration)
    (now : time.Time) (hexp : 0 ≤ expiration) :
    ∃ e, m.Increment key expiration now
        = (.ok e.value, ⟨Function.update m.data key (some e)⟩)
      ∧ expired e now = false := by
  have hnew : expired ⟨1, time.Add now expiration⟩ now = false :=
    expired_eq_false_of_le _ _ (by simp only [time.Add]; linarith)
  cases h : m.data key with
  | none => exact ⟨_, Increment_of_none m key expiration now h, hnew⟩
  | some e =>
    cases hx : expired e now with
    | true => exact ⟨_, Increment_of_expired m key expiration now e h hx, hnew⟩
    | false =>
      refine ⟨⟨e.value + 1, e.expiresAt⟩, Increment_of_live m key expiration now e h hx, ?_⟩
      simpa [expired] using hx

/-- Over any store the remaining requests of a check are never negative. -/
theorem RemainingReqs_nonneg {σ : Type} (rl : RateLimiter σ)
    (config : domain.RateLimitConfig) (now : time.Time) (st : domain.RateLimitStatus)
    (h : (rl.CheckLimit config now).1 = .ok st) : 0 ≤ st.RemainingReqs := by
  revert h
  simp only [RateLimiter.CheckLimit]
  rcases rl.impl.IsBlocked rl.storage (blockKey config) now with ⟨(err | blk), s1⟩
  · intro h
    simp at h
  · cases blk with
    | true =>
      dsimp only
      rcases rl.impl.GetTTL s1 (blockKey config) now with ⟨(err | ttl), s2⟩
      · intro h
        simp at h
      · intro h
        simp only [Except.ok.injEq] at h
        rw [← h]
    | false =>
      dsimp only
      rcases rl.impl.Increment s1 (countKey config) time.Second now
        with ⟨(err | count), s2⟩
      · intro h
        simp at h
      · dsimp only
        by_cases hgt : count > config.MaxRequests
        · simp only [hgt, if_true]
          rcases rl.impl.SetBlock s2 (blockKey config) config.BlockDuration now
            with ⟨(err | u), s3⟩
          · intro h
            simp at h
          · intro h
            simp only [Except.ok.injEq] at h
            rw [← h]
        · simp only [hgt, if_false, Except.ok.injEq]
          intro h
          rw [← h]
          dsimp only
          split
          · exact le_refl _
          · rename_i hneg
            exact not_lt.1 hneg

/-- C6 as stated fails on a blocked identity whose counter entry has expired:
limit 2, blocks of two seconds, the address blocked at 102; the check 1.5 s
later returns `RemainingReqs = 0`, while the counter reads 0 just afterwards
and `max(0, 2 - 0)` is 2. -/
theorem remaining_requests_counterexample :
    ((testLimiterAtLimit.CheckIP "192.168.1.2" 102).2.CheckIP "192.168.1.2"
        (102 + 1500000000)).1 = .ok ⟨false, 0, 102 + 2 * time.Second⟩
    ∧ (((testLimiterAtLimit.CheckIP "192.168.1.2" 102).2.CheckIP "192.168.1.2"
        (102 + 1500000000)).2.storage.Get "count:ip:192.168.1.2" (102 + 1500000000)).1
        = .ok 0
    ∧ (0 : Int) ≠ max 0 (2 - 0) := by
  decide

/-- C6, amended. On the in-process store, for every config (any integer
`MaxRequests`) and every table: a check that does not find the identity
blocked returns `RemainingReqs = max(0, MaxRequests - count)`, where `count` is
what `Get` on the identity's count key returns right after the check; a check
that finds the identity blocked returns `RemainingReqs = 0`, whatever the
counter; and over any store the `RemainingReqs` of a check is never negative. -/
theorem remaining_requests (rl : RateLimiter MemoryStorage) (himpl : rl.impl = memoryStorage)
    (config : domain.RateLimitConfig) (now : time.Time) :
    ((rl.storage.IsBlocked (blockKey config) now).1 = .ok false →
        ∃ st count, (rl.CheckLimit config now).1 = .ok st
          ∧ ((rl.CheckLimit config now).2.storage.Get (countKey config) now).1 = .ok count
          ∧ st.RemainingReqs = max 0 (config.MaxRequests - count))
      ∧ ((rl.storage.IsBlocked (blockKey config) now).1 = .ok true →
          ∃ st, (rl.CheckLimit config now).1 = .ok st ∧ st.Allowed = false
            ∧ st.RemainingReqs = 0)
      ∧ (∀ (σ : Type) (rl' : RateLimiter σ) (c : domain.RateLimitConfig) (t : time.Time)
          (st : domain.RateLimitStatus),
          (rl'.CheckLimit c t).1 = .ok st → 0 ≤ st.RemainingReqs) := by
  have hne : blockKey config ≠ countKey config := blockKey_ne_countKey _ _
  obtain ⟨b, hb⟩ := IsBlocked_shape rl.storage (blockKey config) now
  refine ⟨?_, ?_, fun σ rl' c t st h => RemainingReqs_nonneg rl' c t st h⟩
  · intro hnb
    rw [hb] at hnb
    simp only [Except.ok.injEq] at hnb
    subst hnb
    obtain ⟨e, he, hlive⟩ := Increment_entry_live rl.storage (countKey config) time.Second
      now (by decide)
    rw [CheckLimit_open rl himpl config now e hb he]
    by_cases hgt : e.value > config.MaxRequests
    · simp only [hgt, if_true]
      refine ⟨_, e.value, rfl, ?_, ?_⟩
      · exact Get_of_live _ _ _ e (by simp [Function.update_noteq hne.symm]) hlive
      · have : config.MaxRequests - e.value ≤ 0 := by linarith
        simp [this]
    · simp only [hgt, if_false]
      refine ⟨_, e.value, rfl, ?_, ?_⟩
      · exact Get_of_live _ _ _ e (by simp) hlive
      · have : 0 ≤ config.MaxRequests - e.value := sub_nonneg.2 (not_lt.1 hgt)
        simp [this]
  · intro hblk
    rw [hb] at hblk
    simp only [Except.ok.injEq] at hblk
    subst hblk
    obtain ⟨d, hd⟩ := GetTTL_shape rl.storage (blockKey config) now
    rw [CheckLimit_blocked rl himpl config now d hb hd]
    exact ⟨_, rfl, rfl, rfl⟩

/-- C6, amended, on the limiter of the tests: the first check of a new address
with limit 2 leaves one request and the counter at 1; the check of the address
once blocked leaves none; and no check returns a negative count. -/
theorem remaining_requests_witness :
    (∃ st count,
        (testLimiter.CheckLimit ⟨"192.168.1.2", "ip", 2, 2 * time.Second⟩ 100).1 = .ok st
        ∧ ((testLimiter.CheckLimit ⟨"192.168.1.2", "ip", 2, 2 * time.Second⟩ 100).2.storage.Get
            (countKey ⟨"192.168.1.2", "ip", 2, 2 * time.Second⟩) 100).1 = .ok count
        ∧ st.RemainingReqs = max 0 (2 - count))
      ∧ (∃ st,
          ((testLimiterAtLimit.CheckIP "192.168.1.2" 102).2.CheckLimit
            ⟨"192.168.1.2", "ip", 2, 2 * time.Second⟩ 103).1 = .ok st
          ∧ st.Allowed = false ∧ st.RemainingReqs = 0)
      ∧ (0 : Int) ≤ (domain.RateLimitStatus.mk true 1 0).RemainingReqs :=
  ⟨(remaining_requests testLimiter rfl ⟨"192.168.1.2", "ip", 2, 2 * time.Second⟩ 100).1
      (by decide),
   (remaining_requests (testLimiterAtLimit.CheckIP "192.168.1.2" 102).2 rfl
      ⟨"192.168.1.2", "ip", 2, 2 * time.Second⟩ 103).2.1 (by decide),
   (remaining_requests testLimiter rfl ⟨"192.168.1.2", "ip", 2, 2 * time.Second⟩ 100).2.2
      MemoryStorage testLimiter ⟨"192.168.1.2", "ip", 2, 2 * time.Second⟩ 100 ⟨true, 1, 0⟩
      (by decide)⟩

/-! ## Store errors -/

/-- C7. For every implementation of `Storage`, every state of it, every config
and time: run `CheckLimit` over the store with a call log.  The log does not
change the run (same result, same store state).  The calls made are
`IsBlocked`, then `GetTTL`, or `IsBlocked`, then `Increment`, then `SetBlock`,
or a beginning of one of the two; every call but the last succeeded; if the
last call failed with `e`, `CheckLimit` returns the error that wraps `e` in the
context of that call, and no status; if the last call succeeded, `CheckLimit`
returns a status.  Hence `CheckLimit` returns an error exactly when a store call
failed, and makes no call after a failed one. -/
theorem store_errors_propagate {σ : Type} (rl : RateLimiter σ)
    (config : domain.RateLimitConfig) (now : time.Time) :
    (rl.withTrace.CheckLimit config now).1 = (rl.CheckLimit config now).1
      ∧ (rl.withTrace.CheckLimit config now).2.storage.1
          = (rl.CheckLimit config now).2.storage
      ∧ (∃ (done : List domain.StoreCall) (last : domain.StoreCall)
            (lastErr : Option GoError),
          (rl.withTrace.CheckLimit config now).2.storage.2
              = done.map (fun c => (c, none)) ++ [(last, lastErr)]
            ∧ (done ++ [last] <+:
                  [domain.StoreCall.IsBlocked (blockKey config),
                    domain.StoreCall.GetTTL (blockKey config)]
                ∨ done ++ [last] <+:
                  [domain.StoreCall.IsBlocked (blockKey config),
                    domain.StoreCall.Increment (countKey config) time.Second,
                    domain.StoreCall.SetBlock (blockKey config) config.BlockDuration])
            ∧ (∀ e, lastErr = some e →
                (rl.CheckLimit config now).1
                  = .error (.wrapf (domain.errorContext last) e))
            ∧ (lastErr = none → ∃ st, (rl.CheckLimit config now).1 = .ok st))
      ∧ ((∃ e, (rl.CheckLimit config now).1 = .error e)
          ↔ ∃ p ∈ (rl.withTrace.CheckLimit config now).2.storage.2, p.2 ≠ none) := by
  simp only [RateLimiter.withTrace, RateLimiter.CheckLimit, domain.traced]
  rcases rl.impl.IsBlocked rl.storage (blockKey config) now with ⟨(err | blk), s1⟩
  · refine ⟨rfl, rfl, ⟨[], _, some err, rfl, Or.inl ⟨[_], rfl⟩, ?_, ?_⟩, ?_⟩
    · intro e he
      cases he
      rfl
    · intro h
      cases h
    · simp [domain.errOf]
  · cases blk with
    | true =>
      dsimp only
      rcases rl.impl.GetTTL s1 (blockKey config) now with ⟨(err | ttl), s2⟩
      · refine ⟨rfl, rfl, ⟨[_], _, some err, rfl, Or.inl ⟨[], rfl⟩, ?_, ?_⟩, ?_⟩
        · intro e he
          cases he
          rfl
        · intro h
          cases h
        · simp [domain.errOf]
      · refine ⟨rfl, rfl, ⟨[_], _, none, rfl, Or.inl ⟨[], rfl⟩, ?_, ?_⟩, ?_⟩
        · intro e he
          cases he
        · intro _
          exact ⟨_, rfl⟩
        · simp [domain.errOf]
    | false =>
      dsimp only
      rcases rl.impl.Increment s1 (countKey config) time.Second now
        with ⟨(err | count), s2⟩
      · refine ⟨rfl, rfl, ⟨[_], _, some err, rfl, Or.inr ⟨[_], rfl⟩, ?_, ?_⟩, ?_⟩
        · intro e he
          cases he
          rfl
        · intro h
          cases h
        · simp [domain.errOf]
      · dsimp only
        by_cases hgt : count > config.MaxRequests
        · simp only [hgt, if_true]
          rcases rl.impl.SetBlock s2 (blockKey config) config.BlockDuration now
            with ⟨(err | u), s3⟩
          · refine ⟨rfl, rfl, ⟨[_, _], _, some err, rfl, Or.inr ⟨[], rfl⟩, ?_, ?_⟩, ?_⟩
            · intro e he
              cases he
              rfl
            · intro h
              cases h
            · simp [domain.errOf]
          · refine ⟨rfl, rfl, ⟨[_, _], _, none, rfl, Or.inr ⟨[], rfl⟩, ?_, ?_⟩, ?_⟩
            · intro e he
              cases he
            · intro _
              exact ⟨_, rfl⟩
            · simp [domain.errOf]
        · simp only [hgt, if_false]
          refine ⟨trivial, trivial, ⟨[_], _, none, rfl, Or.inr ⟨[_], rfl⟩, ?_, ?_⟩, ?_⟩
          · intro e he
            cases he
          · intro _
            exact ⟨_, rfl⟩
          · simp [domain.errOf]

end usecase

namespace storage

/-- C8, the code at a concrete run. Three increments of one key with a window
of one second, at 100, 0.6 s later and 0.6 s after that: the second call leaves
the expiration at 100 + 1 s, where the first call put it, and the third call,
which comes 0.6 s after the second, finds the entry expired and returns 1. -/
theorem increment_keeps_first_expiration :
    ((NewMemoryStorage.Increment "count:ip:192.168.1.1" time.Second 100).2.Increment
        "count:ip:192.168.1.1" time.Second (100 + 600000000)).2.data "count:ip:192.168.1.1"
        = some ⟨2, 100 + time.Second⟩
      ∧ (incrementAll NewMemoryStorage "count:ip:192.168.1.1" time.Second
          [100, 100 + 600000000, 100 + 1200000000]).1 = [.ok 1, .ok 2, .ok 1] := by
  decide

end storage

namespace storage

/-! ## The in-process store: what a call or a sweep leaves alone -/

theorem call_frame (m : MemoryStorage) (c : domain.StoreCall) (now : time.Time)
    (key : String) (h : c.writes key = false) :
    (memoryStorage.call m c now).2.data key = m.data key := by
  cases c with
  | Increment k expiration =>
    have hk : key ≠ k := by
      intro hkk
      simp [domain.StoreCall.writes, hkk] at h
    obtain ⟨e, he⟩ := Increment_shape m k expiration now
    simp only [domain.Storage.call, memoryStorage, he]
    exact Function.update_noteq hk _ _
  | Get k =>
    simp only [domain.Storage.call, memoryStorage, Get_state]
  | SetBlock k duration =>
    have hk : key ≠ k := by
      intro hkk
      simp [domain.StoreCall.writes, hkk] at h
    simp only [domain.Storage.call, memoryStorage, MemoryStorage.SetBlock]
    exact Function.update_noteq hk _ _
  | IsBlocked k =>
    obtain ⟨b, hb⟩ := IsBlocked_shape m k now
    simp only [domain.Storage.call, memoryStorage, hb]
  | GetTTL k =>
    obtain ⟨d, hd⟩ := GetTTL_shape m k now
    simp only [domain.Storage.call, memoryStorage, hd]
  | Close => simp [domain.StoreCall.writes] at h

theorem cleanupExpired_data (m : MemoryStorage) (now : time.Time) (key : String) :
    (m.cleanupExpired now).data key
      = match m.data key with
        | some e => if expired e now then none else some e
        | none => none := rfl

/-- An event that does not write under the key leaves its entry, or deletes it
if it has expired. -/
theorem after_data (m : MemoryStorage) (ev : Event) (now : time.Time) (key : String)
    (h : ev.writes key = false) :
    (m.after ev now).data key = m.data key
      ∨ ((m.after ev now).data key = none
          ∧ ∃ e, m.data key = some e ∧ expired e now = true) := by
  cases ev with
  | Call c => exact Or.inl (call_frame m c now key h)
  | Sweep =>
    simp only [MemoryStorage.after, cleanupExpired_data]
    cases hd : m.data key with
    | none => exact Or.inl rfl
    | some e =>
      cases hx : expired e now with
      | true => exact Or.inr ⟨by simp [hx], e, rfl, hx⟩
      | false => exact Or.inl (by simp [hx])

/-- A run that does not write under the key and ends no later than `t` keeps
an entry that has not expired at `t`. -/
theorem afterAll_keeps_live (key : String) (e : entry) (t : time.Time)
    (hx : expired e t = false) :
    ∀ (l : List (Event × time.Time)) (m : MemoryStorage),
      m.data key = some e → (∀ p ∈ l, p.1.writes key = false ∧ p.2 ≤ t) →
      (m.afterAll l).data key = some e
  | [], _, hm, _ => hm
  | (ev, u) :: l, m, hm, hl => by
    have hp := hl (ev, u) (List.mem_cons_self _ _)
    have hstep : (m.after ev u).data key = some e := by
      rcases after_data m ev u key hp.1 with h | ⟨_, e', he', hx'⟩
      · rw [h, hm]
      · rw [hm] at he'
        cases he'
        have := expired_mono e u t hx' hp.2
        rw [hx] at this
        cases this
    exact afterAll_keeps_live key e t hx l (m.after ev u) hstep
      (fun p hp' => hl p (List.mem_cons_of_mem _ hp'))

/-- A run that does not write under the key leaves its entry or deletes it. -/
theorem afterAll_data (key : String) :
    ∀ (l : List (Event × time.Time)) (m : MemoryStorage),
      (∀ p ∈ l, p.1.writes key = false) →
      (m.afterAll l).data key = m.data key ∨ (m.afterAll l).data key = none
  | [], _, _ => Or.inl rfl
  | (ev, u) :: l, m, hl => by
    have hp := hl (ev, u) (List.mem_cons_self _ _)
    have ih := afterAll_data key l (m.after ev u)
      (fun p hp' => hl p (List.mem_cons_of_mem _ hp'))
    simp only [MemoryStorage.afterAll]
    rcases after_data m ev u key hp with h | ⟨h, _⟩
    · rw [h] at ih
      exact ih
    · rw [h] at ih
      exact Or.inr (by rcases ih with h' | h' <;> exact h')

/-- C11. `IsBlocked` of a key that no event has written since the store was made
is false.  After `SetBlock(key, d)` at `t`, whatever the key held before, and
after any run of calls and sweeps that do not write under the key, made no
later than `t'`: `IsBlocked(key)` at `t'` is true when `t' ≤ t + d`, and false
when `t + d < t'` (the expiration `t + d` not being the zero time, which would
stand for no expiry). -/
theorem isBlocked_after_setBlock (m : MemoryStorage) (key : String) (d : time.Duration)
    (t t' : time.Time) (l : List (Event × time.Time))
    (hl : ∀ p ∈ l, p.1.writes key = false ∧ p.2 ≤ t') :
    ((NewMemoryStorage.afterAll l).IsBlocked key t').1 = .ok false
      ∧ (t' ≤ t + d →
          (((m.SetBlock key d t).2.afterAll l).IsBlocked key t').1 = .ok true)
      ∧ (t + d ≠ 0 → t + d < t' →
          (((m.SetBlock key d t).2.afterAll l).IsBlocked key t').1 = .ok false) := by
  have hset : (m.SetBlock key d t).2.data key = some ⟨1, t + d⟩ := by
    simp [MemoryStorage.SetBlock, time.Add]
  refine ⟨?_, ?_, ?_⟩
  · have hnone : (NewMemoryStorage.afterAll l).data key = none := by
      rcases afterAll_data key l NewMemoryStorage (fun p hp => (hl p hp).1) with h | h
      · rw [h]; rfl
      · exact h
    rw [IsBlocked_of_none _ _ _ hnone]
  · intro hle
    have hkeep := afterAll_keeps_live key ⟨1, t + d⟩ t'
      (expired_eq_false_of_le _ _ hle) l _ hset hl
    rw [IsBlocked_of_block _ key t' (t + d) hkeep hle]
  · intro h0 hlt
    rcases afterAll_data key l (m.SetBlock key d t).2 (fun p hp => (hl p hp).1) with h | h
    · rw [hset] at h
      rw [IsBlocked_of_expired _ key t' _ h (expired_eq_true _ _ h0 hlt)]
    · rw [IsBlocked_of_none _ _ _ h]

/-- C11 on `TestMemoryStorage_IsBlocked`: a key never written is not blocked;
after `SetBlock` for one second at 100, with a `Get` and a sweep in between, it
is blocked one second later and no longer blocked two seconds later. -/
theorem isBlocked_after_setBlock_witness :
    ((NewMemoryStorage.afterAll
        [(Event.Call (.Get "block:test"), 100), (Event.Sweep, 100)]).IsBlocked
          "block:test" 100).1 = .ok false
      ∧ (((NewMemoryStorage.SetBlock "block:test" time.Second 100).2.afterAll
          [(Event.Call (.Get "block:test"), 100), (Event.Sweep, 100)]).IsBlocked
            "block:test" (100 + time.Second)).1 = .ok true
      ∧ (((NewMemoryStorage.SetBlock "block:test" time.Second 100).2.afterAll
          [(Event.Call (.Get "block:test"), 100), (Event.Sweep, 100)]).IsBlocked
            "block:test" (100 + 2 * time.Second)).1 = .ok false :=
  ⟨(isBlocked_after_setBlock NewMemoryStorage "block:test" time.Second 100 100
      [(Event.Call (.Get "block:test"), 100), (Event.Sweep, 100)] (by decide)).1,
   (isBlocked_after_setBlock NewMemoryStorage "block:test" time.Second 100
      (100 + time.Second)
      [(Event.Call (.Get "block:test"), 100), (Event.Sweep, 100)] (by decide)).2.1
      (by decide),
   (isBlocked_after_setBlock NewMemoryStorage "block:test" time.Second 100
      (100 + 2 * time.Second)
      [(Event.Call (.Get "block:test"), 100), (Event.Sweep, 100)] (by decide)).2.2
      (by decide) (by decide)⟩

end storage

namespace storage

/-! ## `GetTTL`, `Close`, and what `IsBlocked` tests -/

/-- C12. `MemoryStorage.GetTTL` at time `now` returns `expiresAt - now` for an
entry with a non-zero expiration not before `now`, and zero when the key is
absent, when its entry has expired, and when the expiration is the zero time
(no expiry); it never returns an error or a negative duration and leaves the
table as it was.  After `SetBlock(key, d)` at `t` (with `t + d` not the zero
time), `GetTTL` at `t'` with `t ≤ t' ≤ t + d` returns `t + d - t'`, which is at
most `d`. -/
theorem getTTL_result (m : MemoryStorage) (key : String) (now : time.Time) :
    (∀ e, m.data key = some e → e.expiresAt ≠ 0 → now ≤ e.expiresAt →
        (m.GetTTL key now).1 = .ok (e.expiresAt - now))
      ∧ (m.data key = none → (m.GetTTL key now).1 = .ok 0)
      ∧ (∀ e, m.data key = some e → e.expiresAt < now → (m.GetTTL key now).1 = .ok 0)
      ∧ (∀ e, m.data key = some e → e.expiresAt = 0 → (m.GetTTL key now).1 = .ok 0)
      ∧ (∃ d, (m.GetTTL key now).1 = .ok d ∧ 0 ≤ d)
      ∧ (m.GetTTL key now).2 = m
      ∧ (∀ (d : time.Duration) (t : time.Time), t + d ≠ 0 → t ≤ now → now ≤ t + d →
          ((m.SetBlock key d t).2.GetTTL key now).1 = .ok (t + d - now)
            ∧ t + d - now ≤ d) := by
  refine ⟨?_, ?_, ?_, ?_, ?_, ?_, ?_⟩
  · intro e h h0 hle
    rw [GetTTL_of_entry m key now e h h0 hle]
  · intro h
    simp [MemoryStorage.GetTTL, h]
  · intro e h hlt
    have hneg : e.expiresAt - now < 0 := sub_neg.2 hlt
    by_cases hz : e.expiresAt = 0
    · simp [MemoryStorage.GetTTL, h, time.IsZero, hz]
    · simp [MemoryStorage.GetTTL, h, time.IsZero, hz, time.Until, hneg]
  · intro e h hz
    simp [MemoryStorage.GetTTL, h, time.IsZero, hz]
  · cases h : m.data key with
    | none => exact ⟨0, by simp [MemoryStorage.GetTTL, h], le_refl _⟩
    | some e =>
      by_cases hz : e.expiresAt = 0
      · exact ⟨0, by simp [MemoryStorage.GetTTL, h, time.IsZero, hz], le_refl _⟩
      · by_cases hneg : e.expiresAt - now < 0
        · exact ⟨0, by simp [MemoryStorage.GetTTL, h, time.IsZero, hz, time.Until, hneg],
            le_refl _⟩
        · exact ⟨e.expiresAt - now,
            by simp [MemoryStorage.GetTTL, h, time.IsZero, hz, time.Until, hneg],
            not_lt.1 hneg⟩
  · obtain ⟨d, hd⟩ := GetTTL_shape m key now
    rw [hd]
  · intro d t h0 htn hnd
    have hset : (m.SetBlock key d t).2.data key = some ⟨1, t + d⟩ := by
      simp [MemoryStorage.SetBlock, time.Add]
    rw [GetTTL_of_entry _ key now ⟨1, t + d⟩ hset h0 hnd]
    exact ⟨rfl, by linarith⟩

/-- C12 on `TestMemoryStorage_GetTTL`: a block of five seconds set at 100 has
five seconds less one nanosecond left at 101, nothing left at 100 plus six
seconds, and a key never written has no time left. -/
theorem getTTL_result_witness :
    ((NewMemoryStorage.SetBlock "test:ttl" (5 * time.Second) 100).2.GetTTL
        "test:ttl" 101).1 = .ok (100 + 5 * time.Second - 101)
      ∧ ((NewMemoryStorage.SetBlock "test:ttl" (5 * time.Second) 100).2.GetTTL
        "test:ttl" (100 + 6 * time.Second)).1 = .ok 0
      ∧ (NewMemoryStorage.GetTTL "test:ttl" 100).1 = .ok 0 :=
  ⟨((getTTL_result NewMemoryStorage "test:ttl" 101).2.2.2.2.2.2 (5 * time.Second) 100
      (by decide) (by decide) (by decide)).1,
   (getTTL_result (NewMemoryStorage.SetBlock "test:ttl" (5 * time.Second) 100).2
      "test:ttl" (100 + 6 * time.Second)).2.2.1 ⟨1, 100 + 5 * time.Second⟩ (by decide)
      (by decide),
   (getTTL_result NewMemoryStorage "test:ttl" 100).2.1 rfl⟩

/-- C13. `MemoryStorage.Close` returns no error and leaves the empty table: for
every key and time `Get` gives 0, `IsBlocked` gives false and `GetTTL` gives 0
afterwards, and closing twice leaves what closing once leaves. -/
theorem close_clears (m : MemoryStorage) :
    (m.Close).1 = .ok ()
      ∧ (∀ key, (m.Close).2.data key = none)
      ∧ (∀ key now, ((m.Close).2.Get key now).1 = .ok 0
          ∧ ((m.Close).2.IsBlocked key now).1 = .ok false
          ∧ ((m.Close).2.GetTTL key now).1 = .ok 0)
      ∧ ((m.Close).2.Close).2 = (m.Close).2
      ∧ ((m.Close).2.Close).1 = .ok () := by
  refine ⟨rfl, fun _ => rfl, fun key now => ⟨?_, ?_, ?_⟩, rfl, rfl⟩
  · exact Get_of_none _ key now rfl
  · rw [IsBlocked_of_none _ key now rfl]
  · simp [MemoryStorage.GetTTL, MemoryStorage.Close]

/-- C19 as stated fails: a key written by one `Increment` and never by
`SetBlock` is reported as blocked. -/
theorem isBlocked_counter_counterexample :
    ((NewMemoryStorage.Increment "test:key" (5 * time.Second) 100).2.IsBlocked
        "test:key" 100).1 = .ok true := by
  decide

/-- C19, amended. In every state of the in-process store, `IsBlocked(key)` is
true exactly when the key has an entry that has not expired and whose value is
1.  `SetBlock` writes the value 1 (so after it the key is reported as blocked
until it expires), and so does the `Increment` that creates an entry: a key
that was absent and has then only been written by `Increment`, within the
window, is reported as blocked exactly when it has been incremented once. -/
theorem isBlocked_iff (m : MemoryStorage) (key : String) (now : time.Time) :
    ((m.IsBlocked key now).1 = .ok true
        ↔ ∃ e, m.data key = some e ∧ expired e now = false ∧ e.value = 1)
      ∧ (∀ (d : time.Duration) (t : time.Time),
          (m.SetBlock key d t).2.data key = some ⟨1, t + d⟩)
      ∧ (∀ (expiration : time.Duration) (t0 : time.Time) (ts : List time.Time),
          m.data key = none → (∀ t ∈ ts, t ≤ t0 + expiration) → now ≤ t0 + expiration →
          (((incrementAll m key expiration (t0 :: ts)).2.IsBlocked key now).1 = .ok true
            ↔ ts = [])) := by
  refine ⟨?_, ?_, ?_⟩
  · cases h : m.data key with
    | none => simp [MemoryStorage.IsBlocked, h]
    | some e =>
      cases hx : expired e now with
      | true => simp [MemoryStorage.IsBlocked, h, hx]
      | false => simp [MemoryStorage.IsBlocked, h, hx]
  · intro d t
    simp [MemoryStorage.SetBlock, time.Add]
  · intro expiration t0 ts hnone hts hnow
    have hd := (incrementAll_of_none m key expiration t0 ts hnone hts).2
    have hx : expired ⟨(ts.length : Int) + 1, t0 + expiration⟩ now = false :=
      expired_eq_false_of_le _ _ hnow
    simp only [MemoryStorage.IsBlocked, hd, hx]
    cases ts with
    | nil => simp
    | cons a as =>
      simp only [List.length_cons, Nat.cast_add, Nat.cast_one]
      have hpos : (0 : Int) ≤ (as.length : Int) := Int.ofNat_nonneg _
      have hne : ¬ ((as.length : Int) + 1 + 1 = 1) := by
        intro h
        have : (as.length : Int) = -1 := by linarith
        rw [this] at hpos
        exact absurd hpos (by decide)
      simp [hne]

/-- C19, amended, at concrete tables: a key is reported as blocked after
`SetBlock` and after one `Increment`, and not after two increments. -/
theorem isBlocked_iff_witness :
    ((NewMemoryStorage.SetBlock "block:test" (2 * time.Second) 100).2.IsBlocked
        "block:test" 100).1 = .ok true
      ∧ ((incrementAll NewMemoryStorage "test:key" (5 * time.Second) [100]).2.IsBlocked
        "test:key" 100).1 = .ok true
      ∧ ¬ ((incrementAll NewMemoryStorage "test:key" (5 * time.Second) [100, 101]).2.IsBlocked
        "test:key" 102).1 = .ok true :=
  ⟨(isBlocked_iff (NewMemoryStorage.SetBlock "block:test" (2 * time.Second) 100).2
      "block:test" 100).1.2 ⟨⟨1, 100 + 2 * time.Second⟩, by decide, by decide, rfl⟩,
   ((isBlocked_iff NewMemoryStorage "test:key" 100).2.2 (5 * time.Second) 100 [] rfl
      (by decide) (by decide)).2 rfl,
   fun h => absurd
     (((isBlocked_iff NewMemoryStorage "test:key" 102).2.2 (5 * time.Second) 100 [101] rfl
        (by decide) (by decide)).1 h) (by decide)⟩

end storage

namespace usecase

open storage

/-! ## The calls and keys of a check -/

/-- Every store call of a check is one of the four calls of its algorithm, on
the block key or the count key of its config. -/
theorem withTrace_calls {σ : Type} (rl : RateLimiter σ) (config : domain.RateLimitConfig)
    (now : time.Time) :
    ∀ p ∈ (rl.withTrace.CheckLimit config now).2.storage.2,
      p.1 = domain.StoreCall.IsBlocked (blockKey config)
        ∨ p.1 = domain.StoreCall.GetTTL (blockKey config)
        ∨ p.1 = domain.StoreCall.Increment (countKey config) time.Second
        ∨ p.1 = domain.StoreCall.SetBlock (blockKey config) config.BlockDuration := by
  simp only [RateLimiter.withTrace, RateLimiter.CheckLimit, domain.traced]
  rcases rl.impl.IsBlocked rl.storage (blockKey config) now with ⟨(err | blk), s1⟩
  · simp
  · cases blk with
    | true =>
      dsimp only
      rcases rl.impl.GetTTL s1 (blockKey config) now with ⟨(err | ttl), s2⟩ <;> simp
    | false =>
      dsimp only
      rcases rl.impl.Increment s1 (countKey config) time.Second now
        with ⟨(err | count), s2⟩
      · simp
      · dsimp only
        by_cases hgt : count > config.MaxRequests
        · simp only [hgt, if_true]
          rcases rl.impl.SetBlock s2 (blockKey config) config.BlockDuration now
            with ⟨(err | u), s3⟩ <;> simp
        · simp [hgt]

theorem countKey_inj (c c' : domain.RateLimitConfig)
    (hc : c.Typ = domain.RateLimitTypeIP ∨ c.Typ = domain.RateLimitTypeToken)
    (hc' : c'.Typ = domain.RateLimitTypeIP ∨ c'.Typ = domain.RateLimitTypeToken)
    (h : countKey c = countKey c') : c.Typ = c'.Typ ∧ c.Key = c'.Key :=
  blockKey_inj c c' hc hc' ((blockKey_eq_iff_countKey_eq c c').2 h)

/-- C14. The keys `CheckLimit` builds are `block:<kind>:<identity>` and
`count:<kind>:<identity>`, and every store call of a check, over any store, is
made on one of the two.  For the kinds `ip` and `token` and any identity
strings (empty ones and ones with `:` in them included) a block key is never a
count key, and two block keys, or two count keys, are equal only if kind and
identity are. -/
theorem keys_of_check (c c' : domain.RateLimitConfig)
    (hc : c.Typ = domain.RateLimitTypeIP ∨ c.Typ = domain.RateLimitTypeToken)
    (hc' : c'.Typ = domain.RateLimitTypeIP ∨ c'.Typ = domain.RateLimitTypeToken) :
    blockKey c = "block:" ++ c.Typ ++ ":" ++ c.Key
      ∧ countKey c = "count:" ++ c.Typ ++ ":" ++ c.Key
      ∧ (∀ (σ : Type) (rl : RateLimiter σ) (now : time.Time),
          ∀ p ∈ (rl.withTrace.CheckLimit c now).2.storage.2,
            p.1 = domain.StoreCall.IsBlocked (blockKey c)
              ∨ p.1 = domain.StoreCall.GetTTL (blockKey c)
              ∨ p.1 = domain.StoreCall.Increment (countKey c) time.Second
              ∨ p.1 = domain.StoreCall.SetBlock (blockKey c) c.BlockDuration)
      ∧ blockKey c ≠ countKey c'
      ∧ (blockKey c = blockKey c' ↔ c.Typ = c'.Typ ∧ c.Key = c'.Key)
      ∧ (countKey c = countKey c' ↔ c.Typ = c'.Typ ∧ c.Key = c'.Key) :=
  ⟨rfl, rfl, fun _ rl now => withTrace_calls rl c now, blockKey_ne_countKey c c',
    ⟨blockKey_inj c c' hc hc', fun h => (blockKey_eq_of_same c' c h.1 h.2)⟩,
    ⟨countKey_inj c c' hc hc', fun h => (countKey_eq_of_same c' c h.1 h.2)⟩⟩

/-- C14 at concrete identities: the keys of the address `192.168.1.1`, and the
keys of two identities that only differ in where the `:` stands, an empty
address and the token `:`. -/
theorem keys_of_check_witness :
    blockKey ⟨"192.168.1.1", "ip", 5, 0⟩ = "block:ip:192.168.1.1"
      ∧ countKey ⟨"192.168.1.1", "ip", 5, 0⟩ = "count:ip:192.168.1.1"
      ∧ blockKey ⟨"", "ip", 5, 0⟩ ≠ countKey ⟨":", "token", 5, 0⟩
      ∧ ¬ (blockKey ⟨"", "ip", 5, 0⟩ = blockKey ⟨":", "token", 5, 0⟩) :=
  ⟨(keys_of_check ⟨"192.168.1.1", "ip", 5, 0⟩ ⟨":", "token", 5, 0⟩ (Or.inl rfl)
      (Or.inr rfl)).1.trans (by decide),
   (keys_of_check ⟨"192.168.1.1", "ip", 5, 0⟩ ⟨":", "token", 5, 0⟩ (Or.inl rfl)
      (Or.inr rfl)).2.1.trans (by decide),
   (keys_of_check ⟨"", "ip", 5, 0⟩ ⟨":", "token", 5, 0⟩ (Or.inl rfl) (Or.inr rfl)).2.2.2.1,
   fun h => absurd
     ((keys_of_check ⟨"", "ip", 5, 0⟩ ⟨":", "token", 5, 0⟩ (Or.inl rfl)
        (Or.inr rfl)).2.2.2.2.1.1 h).1 (by decide)⟩

end usecase

namespace usecase

open storage

/-! ## A block that cannot be written -/

/-- The check whose `SetBlock` fails: the error is the wrapped error of
`SetBlock`, and the store is left as `SetBlock` left it. -/
theorem CheckLimit_of_failed_SetBlock {σ : Type} (rl : RateLimiter σ)
    (config : domain.RateLimitConfig) (now : time.Time) (s1 s2 s3 : σ) (count : Int)
    (e : GoError)
    (h1 : rl.impl.IsBlocked rl.storage (blockKey config) now = (.ok false, s1))
    (h2 : rl.impl.Increment s1 (countKey config) time.Second now = (.ok count, s2))
    (hgt : count > config.MaxRequests)
    (h3 : rl.impl.SetBlock s2 (blockKey config) config.BlockDuration now = (.error e, s3)) :
    rl.CheckLimit config now
      = (.error (.wrapf "failed to set block" e), { rl with storage := s3 }) := by
  simp only [RateLimiter.CheckLimit, h1, h2, hgt, if_true, h3]

/-- C18, amended. For every `Storage`, in a state where `IsBlocked` returns
false, `Increment` succeeds with a count over `MaxRequests` and `SetBlock`
fails with `e`: `CheckLimit` returns the error wrapping `e`; its store calls
are `IsBlocked`, `Increment`, `SetBlock` and nothing after the failed
`SetBlock`, so the increment is not undone and the store is left as the failed
`SetBlock` left it: if that call wrote nothing, as `Increment` left it.  A
retried check that is again not blocked calls `Increment` again.  On the
in-process store with a `SetBlock` that fails and writes nothing: after the
failed check the counter reads one more than before, the block entry is what
it was and the identity is still not blocked, and a retry at the same instant
fails again and leaves the counter one higher still. -/
theorem setBlock_failure_not_rolled_back {σ : Type} (rl : RateLimiter σ)
    (config : domain.RateLimitConfig) (now : time.Time) (s1 s2 s3 : σ) (count : Int)
    (e : GoError)
    (h1 : rl.impl.IsBlocked rl.storage (blockKey config) now = (.ok false, s1))
    (h2 : rl.impl.Increment s1 (countKey config) time.Second now = (.ok count, s2))
    (hgt : count > config.MaxRequests)
    (h3 : rl.impl.SetBlock s2 (blockKey config) config.BlockDuration now = (.error e, s3)) :
    rl.CheckLimit config now
        = (.error (.wrapf "failed to set block" e), { rl with storage := s3 })
      ∧ (rl.withTrace.CheckLimit config now).2.storage.2
          = [(domain.StoreCall.IsBlocked (blockKey config), none),
              (domain.StoreCall.Increment (countKey config) time.Second, none),
              (domain.StoreCall.SetBlock (blockKey config) config.BlockDuration, some e)]
      ∧ (s3 = s2 → (rl.CheckLimit config now).2.storage = s2)
      ∧ (∀ (now' : time.Time) (s4 : σ),
          rl.impl.IsBlocked s3 (blockKey config) now' = (.ok false, s4) →
          ∃ rest,
            (({ rl with storage := s3 } : RateLimiter σ).withTrace.CheckLimit
                config now').2.storage.2
              = (domain.StoreCall.IsBlocked (blockKey config), none)
                :: (domain.StoreCall.Increment (countKey config) time.Second,
                    domain.errOf (rl.impl.Increment s4 (countKey config)
                      time.Second now').1)
                :: rest)
      ∧ (∀ (rm : RateLimiter MemoryStorage) (err : GoError) (n : Int),
          rm.impl = failingSetBlock err →
          (rm.storage.IsBlocked (blockKey config) now).1 = .ok false →
          (rm.storage.Increment (countKey config) time.Second now).1 = .ok n →
          n > config.MaxRequests →
          (rm.storage.Get (countKey config) now).1 = .ok (n - 1)
            ∧ (rm.CheckLimit config now).1 = .error (.wrapf "failed to set block" err)
            ∧ ((rm.CheckLimit config now).2.storage.Get (countKey config) now).1 = .ok n
            ∧ (rm.CheckLimit config now).2.storage.data (blockKey config)
                = rm.storage.data (blockKey config)
            ∧ ((rm.CheckLimit config now).2.storage.IsBlocked (blockKey config) now).1
                = .ok false
            ∧ ((rm.CheckLimit config now).2.CheckLimit config now).1
                = .error (.wrapf "failed to set block" err)
            ∧ (((rm.CheckLimit config now).2.CheckLimit config now).2.storage.Get
                (countKey config) now).1 = .ok (n + 1)) := by
  refine ⟨CheckLimit_of_failed_SetBlock rl config now s1 s2 s3 count e h1 h2 hgt h3,
    ?_, ?_, ?_, ?_⟩
  · simp only [RateLimiter.withTrace, RateLimiter.CheckLimit, domain.traced, h1, h2, hgt,
      if_true, h3, domain.errOf, List.nil_append, List.cons_append]
  · intro h32
    rw [CheckLimit_of_failed_SetBlock rl config now s1 s2 s3 count e h1 h2 hgt h3]
    exact h32
  · intro now' s4 h4
    simp only [RateLimiter.withTrace, RateLimiter.CheckLimit, domain.traced, h4]
    rcases rl.impl.Increment s4 (countKey config) time.Second now'
      with ⟨(err | count'), s5⟩
    · exact ⟨[], by simp [domain.errOf]⟩
    · dsimp only
      by_cases hgt' : count' > config.MaxRequests
      · simp only [hgt', if_true]
        rcases rl.impl.SetBlock s5 (blockKey config) config.BlockDuration now'
          with ⟨(err | u), s6⟩
        · exact ⟨[(domain.StoreCall.SetBlock (blockKey config) config.BlockDuration,
            some err)], by simp [domain.errOf]⟩
        · exact ⟨[(domain.StoreCall.SetBlock (blockKey config) config.BlockDuration,
            none)], by simp [domain.errOf]⟩
      · exact ⟨[], by simp [hgt', domain.errOf]⟩
  · intro rm err n himpl hnb hinc hn
    have hne : blockKey config ≠ countKey config := blockKey_ne_countKey _ _
    obtain ⟨b, hb⟩ := IsBlocked_shape rm.storage (blockKey config) now
    rw [hb] at hnb
    simp only [Except.ok.injEq] at hnb
    subst hnb
    obtain ⟨en, hen, hlive⟩ := Increment_entry_live rm.storage (countKey config)
      time.Second now (by decide)
    rw [hen] at hinc
    simp only [Except.ok.injEq] at hinc
    -- the counter before the check
    have hbefore : (rm.storage.Get (countKey config) now).1 = .ok (n - 1) := by
      cases hd : rm.storage.data (countKey config) with
      | none =>
        rw [Increment_of_none _ _ _ _ hd] at hen
        have h1n := congrArg Prod.fst hen
        simp only [Except.ok.injEq] at h1n
        rw [Get_of_none _ _ _ hd, ← hinc, ← h1n]
        rfl
      | some e0 =>
        cases hx : expired e0 now with
        | true =>
          rw [Increment_of_expired _ _ _ _ e0 hd hx] at hen
          have h1n := congrArg Prod.fst hen
          simp only [Except.ok.injEq] at h1n
          rw [Get_of_expired _ _ _ e0 hd hx, ← hinc, ← h1n]
          rfl
        | false =>
          rw [Increment_of_live _ _ _ _ e0 hd hx] at hen
          have h1n := congrArg Prod.fst hen
          simp only [Except.ok.injEq] at h1n
          rw [Get_of_live _ _ _ e0 hd hx, ← hinc, ← h1n]
          simp
    -- the failed check
    have hI : rm.impl.IsBlocked rm.storage (blockKey config) now = (.ok false, rm.storage) := by
      rw [himpl]; exact hb
    have hInc : rm.impl.Increment rm.storage (countKey config) time.Second now
        = (.ok en.value, ⟨Function.update rm.storage.data (countKey config) (some en)⟩) := by
      rw [himpl]; exact hen
    have hS : rm.impl.SetBlock ⟨Function.update rm.storage.data (countKey config) (some en)⟩
        (blockKey config) config.BlockDuration now
          = (.error err,
              ⟨Function.update rm.storage.data (countKey config) (some en)⟩) := by
      rw [himpl]; rfl
    have hchk := CheckLimit_of_failed_SetBlock rm config now _ _ _ en.value err hI hInc
      (by rw [hinc]; exact hn) hS
    -- the retry
    have hI2 : rm.impl.IsBlocked
        ⟨Function.update rm.storage.data (countKey config) (some en)⟩ (blockKey config) now
          = (.ok false, ⟨Function.update rm.storage.data (countKey config) (some en)⟩) := by
      rw [himpl]
      exact IsBlocked_congr rm.storage _ (blockKey config) now
        (by simp [Function.update_noteq hne]) false hb
    have hInc2 : rm.impl.Increment
        ⟨Function.update rm.storage.data (countKey config) (some en)⟩ (countKey config)
        time.Second now
          = (.ok (en.value + 1),
              ⟨Function.update rm.storage.data (countKey config)
                (some ⟨en.value + 1, en.expiresAt⟩)⟩) := by
      rw [himpl]
      have := Increment_of_live
        ⟨Function.update rm.storage.data (countKey config) (some en)⟩ (countKey config)
        time.Second now en (by simp) hlive
      simpa [Function.update_idem] using this
    have hS2 : rm.impl.SetBlock
        ⟨Function.update rm.storage.data (countKey config)
          (some ⟨en.value + 1, en.expiresAt⟩)⟩
        (blockKey config) config.BlockDuration now
          = (.error err, ⟨Function.update rm.storage.data (countKey config)
              (some ⟨en.value + 1, en.expiresAt⟩)⟩) := by
      rw [himpl]; rfl
    have hchk2 := CheckLimit_of_failed_SetBlock
      ({ rm with storage := ⟨Function.update rm.storage.data (countKey config) (some en)⟩ })
      config now _ _ _ (en.value + 1) err hI2 hInc2
      (by rw [hinc]; linarith) hS2
    have hlive2 : expired ⟨en.value + 1, en.expiresAt⟩ now = false := by
      simpa [expired] using hlive
    rw [hchk, hchk2]
    refine ⟨hbefore, rfl, ?_, ?_, ?_, rfl, ?_⟩
    · rw [← hinc]
      exact Get_of_live _ _ _ en (by simp) hlive
    · simp [Function.update_noteq hne]
    · rw [IsBlocked_congr rm.storage _ (blockKey config) now
        (by simp [Function.update_noteq hne]) false hb]
    · rw [← hinc]
      exact Get_of_live _ _ _ ⟨en.value + 1, en.expiresAt⟩ (by simp) hlive2

end usecase

namespace usecase

open storage

/-- C18 on the limiter whose `SetBlock` fails, after one allowed check of an
address: the second check goes over the limit 1, cannot write the block and
returns the wrapped error; the counter reads 2 afterwards, the address is not
blocked, and the retry fails again with the counter at 3. -/
theorem setBlock_failure_not_rolled_back_witness :
    ((faultyLimiter.CheckIP "192.168.1.1" 100).2.CheckLimit
        ⟨"192.168.1.1", "ip", 1, 2 * time.Second⟩ 101).1
        = .error (.wrapf "failed to set block" (.plain "connection refused"))
      ∧ ((((faultyLimiter.CheckIP "192.168.1.1" 100).2.CheckLimit
            ⟨"192.168.1.1", "ip", 1, 2 * time.Second⟩ 101).2.storage.Get
          (countKey ⟨"192.168.1.1", "ip", 1, 2 * time.Second⟩) 101).1 = .ok 2
        ∧ (((faultyLimiter.CheckIP "192.168.1.1" 100).2.CheckLimit
            ⟨"192.168.1.1", "ip", 1, 2 * time.Second⟩ 101).2.storage.IsBlocked
          (blockKey ⟨"192.168.1.1", "ip", 1, 2 * time.Second⟩) 101).1 = .ok false
        ∧ ((((faultyLimiter.CheckIP "192.168.1.1" 100).2.CheckLimit
              ⟨"192.168.1.1", "ip", 1, 2 * time.Second⟩ 101).2.CheckLimit
            ⟨"192.168.1.1", "ip", 1, 2 * time.Second⟩ 101).2.storage.Get
          (countKey ⟨"192.168.1.1", "ip", 1, 2 * time.Second⟩) 101).1 = .ok (2 + 1)) :=
  have h := setBlock_failure_not_rolled_back (faultyLimiter.CheckIP "192.168.1.1" 100).2
    ⟨"192.168.1.1", "ip", 1, 2 * time.Second⟩ 101
    (faultyLimiter.CheckIP "192.168.1.1" 100).2.storage
    ((faultyLimiter.CheckIP "192.168.1.1" 100).2.storage.Increment
      (countKey ⟨"192.168.1.1", "ip", 1, 2 * time.Second⟩) time.Second 101).2
    ((faultyLimiter.CheckIP "192.168.1.1" 100).2.storage.Increment
      (countKey ⟨"192.168.1.1", "ip", 1, 2 * time.Second⟩) time.Second 101).2
    2 (.plain "connection refused") rfl rfl (by decide) rfl
  have hm := h.2.2.2.2 (faultyLimiter.CheckIP "192.168.1.1" 100).2
    (.plain "connection refused") 2 rfl (by decide) (by decide) (by decide)
  ⟨congrArg Prod.fst h.1, hm.2.2.1, hm.2.2.2.2.1, hm.2.2.2.2.2.2⟩

end usecase

namespace strings

/-! ## `Split` and `TrimSpace` -/

/-- The first piece of a split is what comes before the first separator. -/
theorem splitList_head (sep : Char) :
    ∀ l : List Char, ∃ pieces,
      splitList sep l = l.takeWhile (fun c => decide (c ≠ sep)) :: pieces
  | [] => ⟨[], rfl⟩
  | c :: cs => by
    obtain ⟨pieces, ih⟩ := splitList_head sep cs
    by_cases h : c = sep
    · exact ⟨splitList sep cs, by simp [splitList, h]⟩
    · exact ⟨pieces, by simp [splitList, h, ih]⟩

theorem Split_head (s : String) (sep : Char) :
    ∃ pieces, Split s sep = ⟨s.data.takeWhile (fun c => decide (c ≠ sep))⟩ :: pieces := by
  obtain ⟨pieces, h⟩ := splitList_head sep s.data
  exact ⟨pieces.map String.mk, by simp [Split, h]⟩

theorem dropWhile_head_not (p : Char → Bool) (l : List Char) (c : Char)
    (h : (l.dropWhile p).head? = some c) : p c = false := by
  have := List.head?_dropWhile_not p l
  rw [h] at this
  exact this

/-- What `TrimSpace` removes is white space, at both ends, and what it leaves
neither begins nor ends with white space. -/
theorem TrimSpace_spec (s : String) :
    ∃ pre post : List Char,
      s.data = pre ++ (TrimSpace s).data ++ post
        ∧ (∀ c ∈ pre, unicode.IsSpace c = true)
        ∧ (∀ c ∈ post, unicode.IsSpace c = true)
        ∧ (∀ c, (TrimSpace s).data.head? = some c → unicode.IsSpace c = false)
        ∧ (∀ c, (TrimSpace s).data.getLast? = some c → unicode.IsSpace c = false) := by
  have hsplit : s.data.dropWhile unicode.IsSpace
      = (((s.data.dropWhile unicode.IsSpace).reverse).dropWhile unicode.IsSpace).reverse
        ++ (((s.data.dropWhile unicode.IsSpace).reverse).takeWhile unicode.IsSpace).reverse := by
    rw [← List.reverse_append, List.takeWhile_append_dropWhile, List.reverse_reverse]
  refine ⟨s.data.takeWhile unicode.IsSpace,
    (((s.data.dropWhile unicode.IsSpace).reverse).takeWhile unicode.IsSpace).reverse,
    ?_, ?_, ?_, ?_, ?_⟩
  · simp only [TrimSpace]
    rw [List.append_assoc, ← hsplit, List.takeWhile_append_dropWhile]
  · intro c hc
    exact List.mem_takeWhile_imp hc
  · intro c hc
    exact List.mem_takeWhile_imp (List.mem_reverse.1 hc)
  · intro c hc
    simp only [TrimSpace] at hc
    apply dropWhile_head_not unicode.IsSpace s.data c
    rw [hsplit, List.head?_append, hc]
    rfl
  · intro c hc
    simp only [TrimSpace, List.getLast?_reverse] at hc
    exact dropWhile_head_not unicode.IsSpace _ c hc

end strings

namespace web

/-! ## `extractIP` -/

/-- C20. `extractIP` resolves the client address by fixed precedence.  If the
header `X-Forwarded-For` is not empty, the result is its first comma-separated
element (what comes before the first comma) with the white space at both ends
removed, whatever `X-Real-IP` and `RemoteAddr` are; otherwise, if `X-Real-IP` is
not empty, it is that header; otherwise it is the host `net.SplitHostPort` gives
for `RemoteAddr`, and `RemoteAddr` itself when `net.SplitHostPort` fails. -/
theorem extractIP_precedence (SplitHostPort : String → Except GoError (String × String))
    (r : http.Request) :
    (r.Header "X-Forwarded-For" ≠ "" →
        extractIP SplitHostPort r
            = strings.TrimSpace
                ⟨(r.Header "X-Forwarded-For").data.takeWhile (fun c => decide (c ≠ ','))⟩
          ∧ (∃ pre post : List Char,
              (r.Header "X-Forwarded-For").data.takeWhile (fun c => decide (c ≠ ','))
                  = pre ++ (extractIP SplitHostPort r).data ++ post
                ∧ (∀ c ∈ pre, unicode.IsSpace c = true)
                ∧ (∀ c ∈ post, unicode.IsSpace c = true)
                ∧ (∀ c, (extractIP SplitHostPort r).data.head? = some c →
                    unicode.IsSpace c = false)
                ∧ (∀ c, (extractIP SplitHostPort r).data.getLast? = some c →
                    unicode.IsSpace c = false))
          ∧ (∀ r' : http.Request,
              r'.Header "X-Forwarded-For" = r.Header "X-Forwarded-For" →
              extractIP SplitHostPort r' = extractIP SplitHostPort r))
      ∧ (r.Header "X-Forwarded-For" = "" → r.Header "X-Real-IP" ≠ "" →
          extractIP SplitHostPort r = r.Header "X-Real-IP")
      ∧ (r.Header "X-Forwarded-For" = "" → r.Header "X-Real-IP" = "" →
          ∀ host port, SplitHostPort r.RemoteAddr = .ok (host, port) →
            extractIP SplitHostPort r = host)
      ∧ (r.Header "X-Forwarded-For" = "" → r.Header "X-Real-IP" = "" →
          ∀ err, SplitHostPort r.RemoteAddr = .error err →
            extractIP SplitHostPort r = r.RemoteAddr) := by
  have hfwd : ∀ q : http.Request, q.Header "X-Forwarded-For" ≠ "" →
      extractIP SplitHostPort q
        = strings.TrimSpace
            ⟨(q.Header "X-Forwarded-For").data.takeWhile (fun c => decide (c ≠ ','))⟩ := by
    intro q hq
    obtain ⟨pieces, hp⟩ := strings.Split_head (q.Header "X-Forwarded-For") ','
    simp only [extractIP, hp]
    rw [if_pos hq]
  refine ⟨?_, ?_, ?_, ?_⟩
  · intro h
    refine ⟨hfwd r h, ?_, ?_⟩
    · rw [hfwd r h]
      exact strings.TrimSpace_spec _
    · intro r' hr'
      rw [hfwd r h, hfwd r' (by rw [hr']; exact h), hr']
  · intro h hreal
    simp [extractIP, h, hreal]
  · intro h hreal host port hs
    simp [extractIP, h, hreal, hs]
  · intro h hreal err hs
    simp [extractIP, h, hreal, hs]

/-- C20 on the four cases of `TestExtractIP`, and on an address without a port. -/
theorem extractIP_precedence_witness :
    extractIP net.SplitHostPort
        ⟨"/test", fun h => if h = "X-Forwarded-For" then "10.0.0.1, 10.0.0.2, 10.0.0.3"
          else if h = "X-Real-IP" then "10.0.0.5" else "", "192.168.1.1:12345"⟩
        = strings.TrimSpace ⟨"10.0.0.1, 10.0.0.2, 10.0.0.3".data.takeWhile
            (fun c => decide (c ≠ ','))⟩
      ∧ extractIP net.SplitHostPort
          ⟨"/test", fun h => if h = "X-Real-IP" then "10.0.0.5" else "",
            "192.168.1.1:12345"⟩ = "10.0.0.5"
      ∧ extractIP net.SplitHostPort ⟨"/test", fun _ => "", "192.168.1.1:12345"⟩
          = "192.168.1.1"
      ∧ extractIP net.SplitHostPort ⟨"/test", fun _ => "", "192.168.1.1"⟩
          = "192.168.1.1" :=
  ⟨((extractIP_precedence net.SplitHostPort
      ⟨"/test", fun h => if h = "X-Forwarded-For" then "10.0.0.1, 10.0.0.2, 10.0.0.3"
        else if h = "X-Real-IP" then "10.0.0.5" else "", "192.168.1.1:12345"⟩).1
      (by decide)).1,
   (extractIP_precedence net.SplitHostPort
      ⟨"/test", fun h => if h = "X-Real-IP" then "10.0.0.5" else "",
        "192.168.1.1:12345"⟩).2.1 (by decide) (by decide),
   (extractIP_precedence net.SplitHostPort
      ⟨"/test", fun _ => "", "192.168.1.1:12345"⟩).2.2.1 rfl rfl "192.168.1.1" "12345"
      (by decide),
   (extractIP_precedence net.SplitHostPort
      ⟨"/test", fun _ => "", "192.168.1.1"⟩).2.2.2 rfl rfl
      (net.addrErr "192.168.1.1" "missing port in address") (by decide)⟩

end web

namespace web

open usecase storage

/-! ## The middleware -/

/-- A request with a token, off `/health`: the middleware checks the token and
nothing else. -/
theorem Handle_of_token {σ ω : Type} (m : RateLimiterMiddleware σ)
    (SplitHostPort : String → Except GoError (String × String)) (next : http.Handler ω)
    (s : ω) (w : http.ResponseWriter) (r : http.Request) (now : time.Time)
    (hpath : r.Path ≠ "/health") (htok : r.Header HeaderAPIKey ≠ "") :
    m.Handle SplitHostPort next s w r now
      = (respond next s w r (m.limiter.CheckToken (r.Header HeaderAPIKey) now).1,
          ⟨(m.limiter.CheckToken (r.Header HeaderAPIKey) now).2⟩) := by
  simp only [RateLimiterMiddleware.Handle, if_neg hpath, if_pos htok]
  rcases m.limiter.CheckToken (r.Header HeaderAPIKey) now with ⟨(err | st), lim⟩
  · rfl
  · simp only [respond]
    split <;> rfl

/-- A request without a token, off `/health`, whose address is not empty: the
middleware checks the address. -/
theorem Handle_of_ip {σ ω : Type} (m : RateLimiterMiddleware σ)
    (SplitHostPort : String → Except GoError (String × String)) (next : http.Handler ω)
    (s : ω) (w : http.ResponseWriter) (r : http.Request) (now : time.Time)
    (hpath : r.Path ≠ "/health") (htok : r.Header HeaderAPIKey = "")
    (hip : extractIP SplitHostPort r ≠ "") :
    m.Handle SplitHostPort next s w r now
      = (respond next s w r (m.limiter.CheckIP (extractIP SplitHostPort r) now).1,
          ⟨(m.limiter.CheckIP (extractIP SplitHostPort r) now).2⟩) := by
  simp only [RateLimiterMiddleware.Handle, if_neg hpath, htok, ne_eq, not_true_eq_false,
    if_false, if_neg hip]
  rcases m.limiter.CheckIP (extractIP SplitHostPort r) now with ⟨(err | st), lim⟩
  · rfl
  · simp only [respond]
    split <;> rfl

/-- The response `http.Error` writes on a response that has not been started. -/
theorem Error_response (w : http.ResponseWriter) (msg : String) (code : Nat)
    (hw : w.Code = none) :
    (http.Error w msg code).Code = some code
      ∧ (http.Error w msg code).Body = w.Body ++ (msg ++ "\n")
      ∧ ∀ name, name ≠ "Content-Length" → name ≠ "Content-Type" →
          name ≠ "X-Content-Type-Options" →
          (http.Error w msg code).Header name = w.Header name := by
  refine ⟨?_, ?_, ?_⟩
  · simp [http.Error, http.ResponseWriter.Write, http.ResponseWriter.WriteHeader,
      http.ResponseWriter.Set, http.ResponseWriter.Del, hw]
  · simp [http.Error, http.ResponseWriter.Write, http.ResponseWriter.WriteHeader,
      http.ResponseWriter.Set, http.ResponseWriter.Del, hw]
  · intro name h1 h2 h3
    simp [http.Error, http.ResponseWriter.Write, http.ResponseWriter.WriteHeader,
      http.ResponseWriter.Set, http.ResponseWriter.Del, hw, Function.update_noteq h1,
      Function.update_noteq h2, Function.update_noteq h3]

end web

namespace web

open usecase storage

/-- C16. For a request off `/health` whose identity is determined (a non-empty
`API_KEY` header, checked with `CheckToken`; otherwise a non-empty client
address, checked with `CheckIP`), on a response not yet started: if the check
returns `Allowed = true`, the middleware does what `next` does, once, on the
untouched response and request; if it returns `Allowed = false`, `next` is not
called (its state is untouched, the response is the same for every `next`) and
the response has status 429, the header `X-RateLimit-Remaining: 0` and the body
`Message429` and a newline; if it returns an error, `next` is not called and the
status is 500.  With the counting handler of the tests as `next`, the count
goes up exactly when the check returned `Allowed = true`. -/
theorem handle_follows_check {σ ω : Type} (m : RateLimiterMiddleware σ)
    (SplitHostPort : String → Except GoError (String × String)) (next : http.Handler ω)
    (s : ω) (w : http.ResponseWriter) (r : http.Request) (now : time.Time) (c : Check)
    (hpath : r.Path ≠ "/health") (hw : w.Code = none)
    (hc : (r.Header HeaderAPIKey ≠ "" ∧ c = Check.Token (r.Header HeaderAPIKey))
      ∨ (r.Header HeaderAPIKey = "" ∧ extractIP SplitHostPort r ≠ ""
          ∧ c = Check.IP (extractIP SplitHostPort r))) :
    (m.Handle SplitHostPort next s w r now).2 = ⟨(m.limiter.check c now).2⟩
      ∧ (∀ st, (m.limiter.check c now).1 = .ok st → st.Allowed = true →
          (m.Handle SplitHostPort next s w r now).1 = next s w r)
      ∧ (∀ st, (m.limiter.check c now).1 = .ok st → st.Allowed = false →
          (m.Handle SplitHostPort next s w r now).1
              = (s, http.Error (w.Set HeaderRateLimitRemain "0") Message429
                  http.StatusTooManyRequests)
            ∧ (m.Handle SplitHostPort next s w r now).1.2.Code = some 429
            ∧ (m.Handle SplitHostPort next s w r now).1.2.Header "X-RateLimit-Remaining"
                = some "0"
            ∧ (m.Handle SplitHostPort next s w r now).1.2.Body
                = w.Body ++ (Message429 ++ "\n"))
      ∧ (∀ e, (m.limiter.check c now).1 = .error e →
          (m.Handle SplitHostPort next s w r now).1
              = (s, http.Error w "Internal Server Error" http.StatusInternalServerError)
            ∧ (m.Handle SplitHostPort next s w r now).1.2.Code = some 500)
      ∧ (∀ calls : Nat,
          (m.Handle SplitHostPort okHandler calls w r now).1.1 = calls + 1
            ↔ ∃ st, (m.limiter.check c now).1 = .ok st ∧ st.Allowed = true) := by
  have hH : ∀ (ω' : Type) (next' : http.Handler ω') (s' : ω'),
      m.Handle SplitHostPort next' s' w r now
        = (respond next' s' w r (m.limiter.check c now).1, ⟨(m.limiter.check c now).2⟩) := by
    intro ω' next' s'
    rcases hc with ⟨htok, rfl⟩ | ⟨htok, hip, rfl⟩
    · exact Handle_of_token m SplitHostPort next' s' w r now hpath htok
    · exact Handle_of_ip m SplitHostPort next' s' w r now hpath htok hip
  have hw' : (w.Set HeaderRateLimitRemain "0").Code = none := hw
  have h429 := Error_response (w.Set HeaderRateLimitRemain "0") Message429
    http.StatusTooManyRequests hw'
  have h500 := Error_response w "Internal Server Error" http.StatusInternalServerError hw
  refine ⟨by rw [hH], ?_, ?_, ?_, ?_⟩
  · intro st hst hal
    rw [hH, hst]
    simp [respond, hal]
  · intro st hst hal
    have hr : respond next s w r (.ok st)
        = (s, http.Error (w.Set HeaderRateLimitRemain "0") Message429
            http.StatusTooManyRequests) := by
      simp [respond, hal]
    rw [hH, hst, hr]
    refine ⟨rfl, h429.1, ?_, h429.2.1⟩
    show (http.Error (w.Set HeaderRateLimitRemain "0") Message429
      http.StatusTooManyRequests).Header "X-RateLimit-Remaining" = some "0"
    rw [h429.2.2 "X-RateLimit-Remaining" (by decide) (by decide) (by decide)]
    simp [http.ResponseWriter.Set, HeaderRateLimitRemain]
  · intro e he
    rw [hH, he]
    exact ⟨rfl, h500.1⟩
  · intro calls
    rw [hH]
    rcases hres : (m.limiter.check c now).1 with err | st
    · simp [respond]
    · cases hal : st.Allowed with
      | true => simp [respond, hal, okHandler]
      | false => simp [respond, hal]

end web

namespace web

open usecase storage

/-- C16 on `TestMiddleware_IPLimit`: the first request from `192.168.1.1` goes to
the handler of the test, which answers 200; the fourth is answered 429 with the
remaining-requests header at 0 and the handler is not called. -/
theorem handle_follows_check_witness :
    (testMiddleware.Handle net.SplitHostPort okHandler 0 http.NewRecorder testRequest
        100).1 = okHandler 0 http.NewRecorder testRequest
      ∧ (okHandler 0 http.NewRecorder testRequest).2.Code = some 200
      ∧ ((testMiddlewareAtLimit.Handle net.SplitHostPort okHandler 0 http.NewRecorder
          testRequest 103).1
            = (0, http.Error (http.NewRecorder.Set HeaderRateLimitRemain "0") Message429
                http.StatusTooManyRequests)
        ∧ (testMiddlewareAtLimit.Handle net.SplitHostPort okHandler 0 http.NewRecorder
            testRequest 103).1.2.Code = some 429
        ∧ (testMiddlewareAtLimit.Handle net.SplitHostPort okHandler 0 http.NewRecorder
            testRequest 103).1.2.Header "X-RateLimit-Remaining" = some "0"
        ∧ (testMiddlewareAtLimit.Handle net.SplitHostPort okHandler 0 http.NewRecorder
            testRequest 103).1.2.Body = http.NewRecorder.Body ++ (Message429 ++ "\n")) :=
  ⟨(handle_follows_check testMiddleware net.SplitHostPort okHandler 0 http.NewRecorder
      testRequest 100 (Check.IP "192.168.1.1") (by decide) rfl
      (Or.inr ⟨by decide, by decide, by decide⟩)).2.1 ⟨true, 2, 0⟩ (by decide) rfl,
   by decide,
   (handle_follows_check testMiddlewareAtLimit net.SplitHostPort okHandler 0
      http.NewRecorder testRequest 103 (Check.IP "192.168.1.1") (by decide) rfl
      (Or.inr ⟨by decide, by decide, by decide⟩)).2.2.1
      ⟨false, 0, 103 + 5 * time.Second⟩ (by decide) rfl⟩

/-- C15. For a request off `/health` with a non-empty `API_KEY` header, the
middleware is decided by `CheckToken` on that header alone: it answers 500 on an
error, 429 on a refusal, and passes the request to `next` when the token check
allows it, whatever the state of the request's address in the store; the
limiter it leaves is the one `CheckToken` leaves; a request that differs in
address headers and `RemoteAddr` only leaves the same limiter and gets the same
refusal or error response.  Every store call made is a call of the token's
check, on the token's block or count key; and over the in-process store the
count and block entries of every address are left as they were. -/
theorem token_takes_precedence {σ ω : Type} (m : RateLimiterMiddleware σ)
    (SplitHostPort : String → Except GoError (String × String)) (next : http.Handler ω)
    (s : ω) (w : http.ResponseWriter) (r : http.Request) (now : time.Time)
    (hpath : r.Path ≠ "/health") (htok : r.Header HeaderAPIKey ≠ "") :
    (m.Handle SplitHostPort next s w r now).2
        = ⟨(m.limiter.CheckToken (r.Header HeaderAPIKey) now).2⟩
      ∧ (∀ e, (m.limiter.CheckToken (r.Header HeaderAPIKey) now).1 = .error e →
          (m.Handle SplitHostPort next s w r now).1
            = (s, http.Error w "Internal Server Error" http.StatusInternalServerError))
      ∧ (∀ st, (m.limiter.CheckToken (r.Header HeaderAPIKey) now).1 = .ok st →
          st.Allowed = false →
          (m.Handle SplitHostPort next s w r now).1
            = (s, http.Error (w.Set HeaderRateLimitRemain "0") Message429
                http.StatusTooManyRequests))
      ∧ (∀ st, (m.limiter.CheckToken (r.Header HeaderAPIKey) now).1 = .ok st →
          st.Allowed = true →
          (m.Handle SplitHostPort next s w r now).1 = next s w r)
      ∧ (∀ (split' : String → Except GoError (String × String)) (r' : http.Request),
          r'.Path = r.Path → r'.Header HeaderAPIKey = r.Header HeaderAPIKey →
          (m.Handle split' next s w r' now).2 = (m.Handle SplitHostPort next s w r now).2
            ∧ ((∀ st, (m.limiter.CheckToken (r.Header HeaderAPIKey) now).1 = .ok st →
                  st.Allowed = false) →
                (m.Handle split' next s w r' now).1
                  = (m.Handle SplitHostPort next s w r now).1))
      ∧ (∀ p ∈ ((⟨m.limiter.withTrace⟩ : RateLimiterMiddleware _).Handle SplitHostPort
            next s w r now).2.limiter.storage.2,
          p.1 = domain.StoreCall.IsBlocked
              (blockKey (m.limiter.configOf (Check.Token (r.Header HeaderAPIKey))))
            ∨ p.1 = domain.StoreCall.GetTTL
              (blockKey (m.limiter.configOf (Check.Token (r.Header HeaderAPIKey))))
            ∨ p.1 = domain.StoreCall.Increment
              (countKey (m.limiter.configOf (Check.Token (r.Header HeaderAPIKey))))
              time.Second
            ∨ p.1 = domain.StoreCall.SetBlock
              (blockKey (m.limiter.configOf (Check.Token (r.Header HeaderAPIKey))))
              m.limiter.blockDuration)
      ∧ (∀ (mm : RateLimiterMiddleware MemoryStorage) (ip : String),
          mm.limiter.impl = memoryStorage →
          (mm.Handle SplitHostPort next s w r now).2.limiter.storage.data
              (countKey (mm.limiter.configOf (Check.IP ip)))
            = mm.limiter.storage.data (countKey (mm.limiter.configOf (Check.IP ip)))
          ∧ (mm.Handle SplitHostPort next s w r now).2.limiter.storage.data
              (blockKey (mm.limiter.configOf (Check.IP ip)))
            = mm.limiter.storage.data (blockKey (mm.limiter.configOf (Check.IP ip)))) := by
  have hH := Handle_of_token m SplitHostPort next s w r now hpath htok
  refine ⟨by rw [hH], ?_, ?_, ?_, ?_, ?_, ?_⟩
  · intro e he
    rw [hH, he]
    rfl
  · intro st hst hal
    rw [hH, hst]
    simp [respond, hal]
  · intro st hst hal
    rw [hH, hst]
    simp [respond, hal]
  · intro split' r' hp ht
    have hH' := Handle_of_token m split' next s w r' now (by rw [hp]; exact hpath)
      (by rw [ht]; exact htok)
    refine ⟨by rw [hH', hH, ht], ?_⟩
    intro hden
    rw [hH', hH, ht]
    rcases hres : (m.limiter.CheckToken (r.Header HeaderAPIKey) now).1 with err | st
    · rfl
    · have hal := hden st hres
      simp [respond, hal]
  · have hT := Handle_of_token (⟨m.limiter.withTrace⟩ : RateLimiterMiddleware _)
      SplitHostPort next s w r now hpath htok
    rw [hT]
    exact withTrace_calls m.limiter (m.limiter.configOf (Check.Token (r.Header HeaderAPIKey)))
      now
  · intro mm ip himpl
    have hM := Handle_of_token mm SplitHostPort next s w r now hpath htok
    rw [hM]
    have hkinds : ¬ ((mm.limiter.configOf (Check.IP ip)).Typ
        = (mm.limiter.configOf (Check.Token (r.Header HeaderAPIKey))).Typ) := by
      simp [RateLimiter.configOf, domain.RateLimitTypeIP, domain.RateLimitTypeToken]
    have hb : blockKey (mm.limiter.configOf (Check.IP ip))
        ≠ blockKey (mm.limiter.configOf (Check.Token (r.Header HeaderAPIKey))) :=
      fun h => hkinds (blockKey_inj _ _ (Or.inl rfl) (Or.inr rfl) h).1
    have hcnt : countKey (mm.limiter.configOf (Check.IP ip))
        ≠ countKey (mm.limiter.configOf (Check.Token (r.Header HeaderAPIKey))) :=
      fun h => hb ((blockKey_eq_iff_countKey_eq _ _).2 h)
    exact ⟨CheckLimit_frame mm.limiter himpl _ now _
        (Ne.symm (blockKey_ne_countKey _ _)) hcnt,
      CheckLimit_frame mm.limiter himpl _ now _ hb (blockKey_ne_countKey _ _)⟩

end web

namespace web

open usecase storage

/-- C15 on a blocked address: `192.168.1.1` is blocked at 104, a request from it
without token is refused, and the request from it with the header
`API_KEY: premium-token` goes to the handler; the block entry of the address is
what it was. -/
theorem token_takes_precedence_witness :
    (testMiddlewareBlocked.limiter.CheckIP "192.168.1.1" 104).1
        = .ok ⟨false, 0, 103 + 5 * time.Second⟩
      ∧ (testMiddlewareBlocked.Handle net.SplitHostPort okHandler 0 http.NewRecorder
          tokenRequest 104).1 = okHandler 0 http.NewRecorder tokenRequest
      ∧ (testMiddlewareBlocked.Handle net.SplitHostPort okHandler 0 http.NewRecorder
          tokenRequest 104).2.limiter.storage.data
            (blockKey (testMiddlewareBlocked.limiter.configOf (Check.IP "192.168.1.1")))
          = testMiddlewareBlocked.limiter.storage.data
            (blockKey (testMiddlewareBlocked.limiter.configOf (Check.IP "192.168.1.1"))) :=
  ⟨by decide,
   (token_takes_precedence testMiddlewareBlocked net.SplitHostPort okHandler 0
      http.NewRecorder tokenRequest 104 (by decide) (by decide)).2.2.2.1
      ⟨true, 9, 0⟩ (by decide) rfl,
   ((token_takes_precedence testMiddlewareBlocked net.SplitHostPort okHandler 0
      http.NewRecorder tokenRequest 104 (by decide) (by decide)).2.2.2.2.2.2
      testMiddlewareBlocked "192.168.1.1" rfl).2⟩

end web

namespace usecase

open storage

/-! ## Concurrent checks -/

/-- The steps of a check, made one after the other at one clock reading, are
`CheckLimit`: three steps from the start give its result and its store. -/
theorem checkStep_refines {σ : Type} (rl : RateLimiter σ) (config : domain.RateLimitConfig)
    (now : time.Time) :
    (checkStep rl.impl config
        (checkStep rl.impl config
          (checkStep rl.impl config .start rl.storage now).1
          (checkStep rl.impl config .start rl.storage now).2 now).1
        (checkStep rl.impl config
          (checkStep rl.impl config .start rl.storage now).1
          (checkStep rl.impl config .start rl.storage now).2 now).2 now)
      = (.done (rl.CheckLimit config now).1, (rl.CheckLimit config now).2.storage) := by
  simp only [RateLimiter.CheckLimit, checkStep]
  rcases rl.impl.IsBlocked rl.storage (blockKey config) now with ⟨(err | blk), s1⟩
  · rfl
  · cases blk with
    | true =>
      dsimp only [checkStep]
      rcases rl.impl.GetTTL s1 (blockKey config) now with ⟨(err | ttl), s2⟩
      · rfl
      · rfl
    | false =>
      dsimp only [checkStep]
      rcases rl.impl.Increment s1 (countKey config) time.Second now
        with ⟨(err | count), s2⟩
      · rfl
      · dsimp only
        by_cases hgt : count > config.MaxRequests
        · simp only [hgt, if_true, checkStep]
          rcases rl.impl.SetBlock s2 (blockKey config) config.BlockDuration now
            with ⟨(err | u), s3⟩
          · rfl
          · rfl
        · simp only [hgt, if_false, checkStep]

theorem countP_set {α : Type} (p : α → Bool) :
    ∀ (l : List α) (i : Nat) (a b : α), l.get? i = some a →
      (l.set i b).countP p + (if p a then 1 else 0)
        = l.countP p + (if p b then 1 else 0)
  | [], i, a, b, h => by simp at h
  | x :: xs, 0, a, b, h => by
    simp only [List.get?_cons_zero, Option.some.injEq] at h
    subst h
    simp only [List.set_cons_zero, List.countP_cons]
    omega
  | x :: xs, i + 1, a, b, h => by
    simp only [List.get?_cons_succ] at h
    have ih := countP_set p xs i a b h
    simp only [List.set_cons_succ, List.countP_cons]
    omega

theorem counterAt_congr (m m' : MemoryStorage) (key : String) (t0 tmax : time.Time)
    (c : Nat) (h : m'.data key = m.data key) (hc : counterAt m key t0 tmax c) :
    counterAt m' key t0 tmax c := by
  rcases hc with ⟨h0, hl⟩ | ⟨hpos, exp, hexp, hd⟩
  · refine Or.inl ⟨h0, ?_⟩
    simp only [MemoryStorage.live, h]
    exact hl
  · exact Or.inr ⟨hpos, exp, hexp, by rw [h, hd]⟩

/-- An increment inside the window moves the counter from `c` to `c + 1`. -/
theorem counterAt_Increment (m : MemoryStorage) (key : String) (t0 : time.Time) (c : Nat)
    (now : time.Time) (hc : counterAt m key t0 (t0 + time.Second) c) (h0 : t0 ≤ now)
    (h1 : now ≤ t0 + time.Second) :
    (m.Increment key time.Second now).1 = .ok ((c : Int) + 1)
      ∧ counterAt (m.Increment key time.Second now).2 key t0 (t0 + time.Second) (c + 1) := by
  rcases hc with ⟨hzero, hl⟩ | ⟨hpos, exp, hexp, hd⟩
  · subst hzero
    have hnew : m.Increment key time.Second now
        = (.ok 1, ⟨Function.update m.data key (some ⟨1, time.Add now time.Second⟩)⟩) := by
      rcases (live_eq_false_iff m key now).1 (live_mono m key t0 now hl h0) with hn | ⟨e, he, hx⟩
      · exact Increment_of_none _ _ _ _ hn
      · exact Increment_of_expired _ _ _ _ e he hx
    rw [hnew]
    refine ⟨by simp, Or.inr ⟨Nat.succ_pos _, now + time.Second, by linarith, ?_⟩⟩
    simp [time.Add]
  · have hx : expired ⟨(c : Int), exp⟩ now = false :=
      expired_eq_false_of_le _ _ (le_trans h1 hexp)
    rw [Increment_of_live m key time.Second now ⟨(c : Int), exp⟩ hd hx]
    refine ⟨rfl, Or.inr ⟨Nat.succ_pos _, exp, hexp, ?_⟩⟩
    simp

/-- A sweep inside the window leaves the counter where it stands. -/
theorem counterAt_cleanupExpired (m : MemoryStorage) (key : String) (t0 : time.Time)
    (c : Nat) (now : time.Time) (hc : counterAt m key t0 (t0 + time.Second) c)
    (h0 : t0 ≤ now) (h1 : now ≤ t0 + time.Second) :
    counterAt (m.cleanupExpired now) key t0 (t0 + time.Second) c := by
  rcases hc with ⟨hzero, hl⟩ | ⟨hpos, exp, hexp, hd⟩
  · refine Or.inl ⟨hzero, ?_⟩
    rcases (live_eq_false_iff m key t0).1 hl with hn | ⟨e, he, hx⟩
    · simp [MemoryStorage.live, cleanupExpired_data, hn]
    · have hx' := expired_mono e t0 now hx h0
      simp [MemoryStorage.live, cleanupExpired_data, he, hx']
  · have hx : expired ⟨(c : Int), exp⟩ now = false :=
      expired_eq_false_of_le _ _ (le_trans h1 hexp)
    exact Or.inr ⟨hpos, exp, hexp, by simp [cleanupExpired_data, hd, hx]⟩

end usecase

namespace usecase

open storage

/-- One check moves on, from a stage at which it has not returned
`Allowed = true`: the invariant carries over when the new stage is not an
error and the count of allowed checks keeps up with the counter. -/
theorem concurrentInv_set (T K : String) (N : Nat) (t0 : time.Time)
    (threads : List (domain.RateLimitConfig × Pc)) (m m' : MemoryStorage) (i : Nat)
    (config : domain.RateLimitConfig) (pc pc' : Pc)
    (hinv : concurrentInv T K N t0 threads m)
    (hget : threads.get? i = some (config, pc)) (hpc : pc.allowed = false)
    (herr : ∀ e, pc' ≠ .done (.error e))
    (hcnt : ∀ c : Nat, counterAt m (countKey ⟨K, T, 0, 0⟩) t0 (t0 + time.Second) c →
      ∃ c' : Nat, counterAt m' (countKey ⟨K, T, 0, 0⟩) t0 (t0 + time.Second) c'
        ∧ min c' N = min c N + (if pc'.allowed then 1 else 0)) :
    concurrentInv T K N t0 (threads.set i (config, pc')) m' := by
  obtain ⟨hcfg, hnoerr, c, hc, hcount⟩ := hinv
  have hmem : (config, pc) ∈ threads := List.get?_mem hget
  refine ⟨?_, ?_, ?_⟩
  · intro p hp
    rcases List.mem_or_eq_of_mem_set hp with h | h
    · exact hcfg p h
    · rw [h]; exact hcfg (config, pc) hmem
  · intro p hp e
    rcases List.mem_or_eq_of_mem_set hp with h | h
    · exact hnoerr p h e
    · rw [h]; exact herr e
  · obtain ⟨c', hc', hmin⟩ := hcnt c hc
    refine ⟨c', hc', ?_⟩
    have hset := countP_set (fun (p : domain.RateLimitConfig × Pc) => p.2.allowed)
      threads i (config, pc) (config, pc') hget
    simp only [hpc] at hset
    simp only [Bool.false_eq_true, if_false, Nat.add_zero] at hset
    rw [hset, hcount, hmin]

theorem set_of_get? {α : Type} :
    ∀ (l : List α) (i : Nat) (a : α), l.get? i = some a → l.set i a = l
  | [], _, _, h => by simp at h
  | x :: xs, 0, a, h => by
    simp only [List.get?_cons_zero, Option.some.injEq] at h
    simp [h]
  | x :: xs, i + 1, a, h => by
    simp only [List.get?_cons_succ] at h
    simp [set_of_get? xs i a h]

theorem concurrentStep_thread (threads : List (domain.RateLimitConfig × Pc))
    (m : MemoryStorage) (i : Nat) (now : time.Time) (config : domain.RateLimitConfig)
    (pc : Pc) (hget : threads.get? i = some (config, pc)) :
    concurrentStep threads m (.Thread i) now
      = (threads.set i (config, (checkStep memoryStorage config pc m now).1),
          (checkStep memoryStorage config pc m now).2) := by
  simp only [concurrentStep, hget]

/-- Every move of a concurrent run inside the window keeps the invariant. -/
theorem concurrentInv_step (T K : String) (N : Nat) (t0 : time.Time)
    (threads : List (domain.RateLimitConfig × Pc)) (m : MemoryStorage) (mv : Move)
    (now : time.Time) (hinv : concurrentInv T K N t0 threads m) (h0 : t0 ≤ now)
    (h1 : now ≤ t0 + time.Second) :
    concurrentInv T K N t0 (concurrentStep threads m mv now).1
      (concurrentStep threads m mv now).2 := by
  cases mv with
  | Sweep =>
    obtain ⟨hcfg, hnoerr, c, hc, hcount⟩ := hinv
    exact ⟨hcfg, hnoerr, c, counterAt_cleanupExpired m _ t0 c now hc h0 h1, hcount⟩
  | Thread i =>
    cases hget : threads.get? i with
    | none =>
      simp only [concurrentStep, hget]
      exact hinv
    | some cp =>
      obtain ⟨config, pc⟩ := cp
      rw [concurrentStep_thread threads m i now config pc hget]
      have hcfg := hinv.1 (config, pc) (List.get?_mem hget)
      have hck : countKey config = countKey ⟨K, T, 0, 0⟩ :=
        countKey_eq_of_same ⟨K, T, 0, 0⟩ config hcfg.1 hcfg.2.1
      have hbk : blockKey config ≠ countKey ⟨K, T, 0, 0⟩ := blockKey_ne_countKey _ _
      have hstay : ∀ (pc' : Pc), pc'.allowed = false → ∀ c : Nat,
          counterAt m (countKey ⟨K, T, 0, 0⟩) t0 (t0 + time.Second) c →
          ∃ c' : Nat, counterAt m (countKey ⟨K, T, 0, 0⟩) t0 (t0 + time.Second) c'
            ∧ min c' N = min c N + (if pc'.allowed then 1 else 0) := by
        intro pc' hpc' c hc
        exact ⟨c, hc, by simp [hpc']⟩
      cases pc with
      | start =>
        obtain ⟨b, hb⟩ := IsBlocked_shape m (blockKey config) now
        cases b with
        | true =>
          have hs : checkStep memoryStorage config .start m now = (.sawBlock, m) := by
            simp only [checkStep, memoryStorage, hb]
          rw [hs]
          exact concurrentInv_set T K N t0 threads m m i config _ _ hinv hget rfl
            (fun e h => by cases h) (hstay _ rfl)
        | false =>
          have hs : checkStep memoryStorage config .start m now = (.sawOpen, m) := by
            simp only [checkStep, memoryStorage, hb]
          rw [hs]
          exact concurrentInv_set T K N t0 threads m m i config _ _ hinv hget rfl
            (fun e h => by cases h) (hstay _ rfl)
      | sawBlock =>
        obtain ⟨d, hd⟩ := GetTTL_shape m (blockKey config) now
        have hs : checkStep memoryStorage config .sawBlock m now
            = (.done (.ok ⟨false, 0, time.Add now d⟩), m) := by
          simp only [checkStep, memoryStorage, hd]
        rw [hs]
        exact concurrentInv_set T K N t0 threads m m i config _ _ hinv hget rfl
          (fun e h => by cases h) (hstay _ rfl)
      | sawOpen =>
        obtain ⟨en, hen⟩ := Increment_shape m (countKey config) time.Second now
        by_cases hgt : en.value > config.MaxRequests
        · have hs : checkStep memoryStorage config .sawOpen m now
              = (.overLimit, (m.Increment (countKey config) time.Second now).2) := by
            simp only [checkStep, memoryStorage, hen, hgt, if_true]
          rw [hs]
          refine concurrentInv_set T K N t0 threads m _ i config _ _ hinv hget rfl
            (fun e h => by cases h) ?_
          intro c hc
          have hinc := counterAt_Increment m _ t0 c now hc h0 h1
          rw [← hck] at hinc
          refine ⟨c + 1, by rw [hck] at hinc; rw [hck]; exact hinc.2, ?_⟩
          have hval : en.value = (c : Int) + 1 := by
            have := hinc.1
            rw [hen] at this
            simpa using this
          have hNc : N ≤ c := by
            rw [hval, hcfg.2.2] at hgt
            have : (N : Int) < (c : Int) + 1 := hgt
            omega
          simp only [Pc.allowed, Bool.false_eq_true, if_false, Nat.add_zero]
          omega
        · have hs : checkStep memoryStorage config .sawOpen m now
              = (.done (.ok ⟨true,
                  (if config.MaxRequests - en.value < 0 then 0
                    else config.MaxRequests - en.value), 0⟩),
                (m.Increment (countKey config) time.Second now).2) := by
            simp only [checkStep, memoryStorage, hen, hgt, if_false]
          rw [hs]
          refine concurrentInv_set T K N t0 threads m _ i config _ _ hinv hget rfl
            (fun e h => by cases h) ?_
          intro c hc
          have hinc := counterAt_Increment m _ t0 c now hc h0 h1
          rw [← hck] at hinc
          refine ⟨c + 1, by rw [hck] at hinc; rw [hck]; exact hinc.2, ?_⟩
          have hval : en.value = (c : Int) + 1 := by
            have := hinc.1
            rw [hen] at this
            simpa using this
          have hcN : c + 1 ≤ N := by
            rw [hval, hcfg.2.2] at hgt
            have : ¬ ((N : Int) < (c : Int) + 1) := hgt
            omega
          simp only [Pc.allowed, if_true]
          omega
      | overLimit =>
        have hs : checkStep memoryStorage config .overLimit m now
            = (.done (.ok ⟨false, 0, time.Add now config.BlockDuration⟩),
                ⟨Function.update m.data (blockKey config)
                  (some ⟨1, time.Add now config.BlockDuration⟩)⟩) := by
          simp only [checkStep, memoryStorage, MemoryStorage.SetBlock]
        rw [hs]
        refine concurrentInv_set T K N t0 threads m _ i config _ _ hinv hget rfl
          (fun e h => by cases h) ?_
        intro c hc
        exact ⟨c, counterAt_congr m _ _ t0 _ c
          (by simp [Function.update_noteq (Ne.symm hbk)]) hc, by simp [Pc.allowed]⟩
      | done r =>
        have hs : checkStep memoryStorage config (.done r) m now = (.done r, m) := rfl
        rw [hs]
        have hsame : threads.set i (config, Pc.done r) = threads :=
          set_of_get? threads i _ hget
        rw [hsame]
        exact hinv

end usecase

namespace usecase

open storage

theorem concurrentStep_length (threads : List (domain.RateLimitConfig × Pc))
    (m : MemoryStorage) (mv : Move) (now : time.Time) :
    (concurrentStep threads m mv now).1.length = threads.length := by
  cases mv with
  | Sweep => rfl
  | Thread i =>
    cases hget : threads.get? i with
    | none => simp only [concurrentStep, hget]
    | some cp =>
      obtain ⟨config, pc⟩ := cp
      rw [concurrentStep_thread threads m i now config pc hget]
      exact List.length_set _ _ _

/-- A concurrent run inside the window keeps the invariant and the number of
checks. -/
theorem concurrentInv_run (T K : String) (N : Nat) (t0 : time.Time) :
    ∀ (sched : List (Move × time.Time)) (threads : List (domain.RateLimitConfig × Pc))
      (m : MemoryStorage),
      concurrentInv T K N t0 threads m →
      (∀ p ∈ sched, t0 ≤ p.2 ∧ p.2 ≤ t0 + time.Second) →
      concurrentInv T K N t0 (concurrentRun threads m sched).1
          (concurrentRun threads m sched).2
        ∧ (concurrentRun threads m sched).1.length = threads.length
  | [], _, _, hinv, _ => ⟨hinv, rfl⟩
  | (mv, t) :: rest, threads, m, hinv, hs => by
    have ht := hs (mv, t) (List.mem_cons_self _ _)
    have hstep := concurrentInv_step T K N t0 threads m mv t hinv ht.1 ht.2
    have ih := concurrentInv_run T K N t0 rest _ _ hstep
      (fun p hp => hs p (List.mem_cons_of_mem _ hp))
    simp only [concurrentRun]
    exact ⟨ih.1, by rw [ih.2, concurrentStep_length]⟩

end usecase

namespace web

open usecase storage

/-- C21. For a request whose path is exactly `/health`, whatever its headers and
address and whatever the store holds: the middleware does what `next` does,
once, on the untouched response and request, and leaves the limiter as it was;
over the store with a call log, no store call is made. -/
theorem health_bypasses_limiter {σ ω : Type} (m : RateLimiterMiddleware σ)
    (SplitHostPort : String → Except GoError (String × String)) (next : http.Handler ω)
    (s : ω) (w : http.ResponseWriter) (r : http.Request) (now : time.Time)
    (hpath : r.Path = "/health") :
    m.Handle SplitHostPort next s w r now = (next s w r, m)
      ∧ (m.Handle SplitHostPort next s w r now).2.limiter.storage = m.limiter.storage
      ∧ ((⟨m.limiter.withTrace⟩ : RateLimiterMiddleware _).Handle SplitHostPort next s w r
          now).2.limiter.storage.2 = []
      ∧ (∀ calls : Nat, (m.Handle SplitHostPort okHandler calls w r now).1.1 = calls + 1) := by
  have hH : ∀ (σ' ω' : Type) (m' : RateLimiterMiddleware σ') (next' : http.Handler ω')
      (s' : ω'), m'.Handle SplitHostPort next' s' w r now = (next' s' w r, m') := by
    intro σ' ω' m' next' s'
    simp only [RateLimiterMiddleware.Handle, hpath, if_true]
  refine ⟨hH _ _ m next s, by rw [hH], by rw [hH]; rfl, ?_⟩
  intro calls
  rw [hH]
  rfl

/-- C21 on a blocked address and an exhausted token: the request `GET /health`
from the blocked address `192.168.1.1`, with a token, goes to the handler, and
the store is what it was. -/
theorem health_bypasses_limiter_witness :
    (testMiddlewareBlocked.limiter.CheckIP "192.168.1.1" 104).1
        = .ok ⟨false, 0, 103 + 5 * time.Second⟩
      ∧ testMiddlewareBlocked.Handle net.SplitHostPort okHandler 0 http.NewRecorder
          ⟨"/health", tokenRequest.Header, "192.168.1.1:12345"⟩ 104
        = (okHandler 0 http.NewRecorder ⟨"/health", tokenRequest.Header, "192.168.1.1:12345"⟩,
            testMiddlewareBlocked) :=
  ⟨by decide,
   (health_bypasses_limiter testMiddlewareBlocked net.SplitHostPort okHandler 0
      http.NewRecorder ⟨"/health", tokenRequest.Header, "192.168.1.1:12345"⟩ 104 rfl).1⟩

end web

namespace usecase

open storage

/-- C23. On the in-process store, a check that finds the identity blocked
(`IsBlocked` on its block key returns true: the block entry is there, not
expired) returns `Allowed = false` and leaves the limiter and every entry of
the table as they were: the only store calls are `IsBlocked` and `GetTTL`, the
counter is not incremented and the block is not rewritten. -/
theorem blocked_check_changes_nothing (rl : RateLimiter MemoryStorage)
    (himpl : rl.impl = memoryStorage) (config : domain.RateLimitConfig) (now : time.Time)
    (hb : (rl.storage.IsBlocked (blockKey config) now).1 = .ok true) :
    (rl.CheckLimit config now).2 = rl
      ∧ (∀ key, (rl.CheckLimit config now).2.storage.data key = rl.storage.data key)
      ∧ (∃ bu, (rl.CheckLimit config now).1 = .ok ⟨false, 0, bu⟩)
      ∧ (rl.withTrace.CheckLimit config now).2.storage.2
          = [(domain.StoreCall.IsBlocked (blockKey config), none),
              (domain.StoreCall.GetTTL (blockKey config), none)]
      ∧ (∀ exp : time.Time, rl.storage.data (blockKey config) = some ⟨1, exp⟩ →
          now ≤ exp → (rl.storage.IsBlocked (blockKey config) now).1 = .ok true) := by
  obtain ⟨b, hshape⟩ := IsBlocked_shape rl.storage (blockKey config) now
  rw [hshape] at hb
  simp only [Except.ok.injEq] at hb
  subst hb
  obtain ⟨d, hd⟩ := GetTTL_shape rl.storage (blockKey config) now
  have hchk := CheckLimit_blocked rl himpl config now d hshape hd
  refine ⟨by rw [hchk], fun key => by rw [hchk], ⟨now + d, by rw [hchk]⟩, ?_, ?_⟩
  · have hI : rl.impl.IsBlocked rl.storage (blockKey config) now = (.ok true, rl.storage) := by
      rw [himpl]; exact hshape
    have hG : rl.impl.GetTTL rl.storage (blockKey config) now = (.ok d, rl.storage) := by
      rw [himpl]; exact hd
    simp only [RateLimiter.withTrace, RateLimiter.CheckLimit, domain.traced, hI, hG,
      domain.errOf, List.nil_append, List.cons_append]
  · intro exp he hle
    rw [IsBlocked_of_block rl.storage (blockKey config) now exp he hle]

/-- C23 on the limiter of `TestRateLimiter_BlockDuration`, with the address
blocked at 102: the check at 103 is refused and leaves the limiter as it was. -/
theorem blocked_check_changes_nothing_witness :
    ((testLimiterAtLimit.CheckIP "192.168.1.2" 102).2.CheckLimit
        ⟨"192.168.1.2", "ip", 2, 2 * time.Second⟩ 103).2
        = (testLimiterAtLimit.CheckIP "192.168.1.2" 102).2
      ∧ ∃ bu, ((testLimiterAtLimit.CheckIP "192.168.1.2" 102).2.CheckLimit
          ⟨"192.168.1.2", "ip", 2, 2 * time.Second⟩ 103).1 = .ok ⟨false, 0, bu⟩ :=
  ⟨(blocked_check_changes_nothing (testLimiterAtLimit.CheckIP "192.168.1.2" 102).2 rfl
      ⟨"192.168.1.2", "ip", 2, 2 * time.Second⟩ 103 (by decide)).1,
   (blocked_check_changes_nothing (testLimiterAtLimit.CheckIP "192.168.1.2" 102).2 rfl
      ⟨"192.168.1.2", "ip", 2, 2 * time.Second⟩ 103 (by decide)).2.2.1⟩

end usecase

namespace storage

/-! ## The sweep cannot be observed -/

theorem sweptOf_cleanupExpired (m : MemoryStorage) (t : time.Time) :
    sweptOf t m (m.cleanupExpired t) := by
  intro key
  rw [cleanupExpired_data]
  cases hd : m.data key with
  | none => exact Or.inl rfl
  | some e =>
    cases hx : expired e t with
    | true => exact Or.inr ⟨by simp [hx], e, rfl, hx⟩
    | false => exact Or.inl (by simp [hx])

theorem sweptOf_update (t : time.Time) (m m' : MemoryStorage) (h : sweptOf t m m')
    (key : String) (v : Option entry) :
    sweptOf t ⟨Function.update m.data key v⟩ ⟨Function.update m'.data key v⟩ := by
  intro k
  by_cases hk : k = key
  · subst hk
    exact Or.inl (by simp)
  · simp only [Function.update_noteq hk]
    exact h k

theorem GetTTL_of_expired (m : MemoryStorage) (key : String) (now : time.Time) (e : entry)
    (h : m.data key = some e) (hx : expired e now = true) :
    m.GetTTL key now = (.ok 0, m) := by
  have hxe := (expired_iff e now).1 hx
  have hneg : e.expiresAt - now < 0 := sub_neg.2 hxe.2
  simp [MemoryStorage.GetTTL, h, time.IsZero, hxe.1, time.Until, hneg]

theorem GetTTL_of_none (m : MemoryStorage) (key : String) (now : time.Time)
    (h : m.data key = none) : m.GetTTL key now = (.ok 0, m) := by
  simp [MemoryStorage.GetTTL, h]

theorem Get_eq (m : MemoryStorage) (key : String) (now : time.Time) :
    m.Get key now = ((m.Get key now).1, m) :=
  Prod.ext rfl (Get_state m key now)

theorem Get_congr (m m' : MemoryStorage) (key : String) (now : time.Time)
    (h : m'.data key = m.data key) : (m'.Get key now).1 = (m.Get key now).1 := by
  simp only [MemoryStorage.Get, h]
  cases m.data key with
  | none => rfl
  | some e =>
    dsimp only
    cases expired e now <;> rfl

/-- A call at `now`, no earlier than `t`, gives the same reply on a table and
on the table without some entries that had expired at `t`, and leaves two
tables that are again so related. -/
theorem call_sweptOf (t : time.Time) (m m' : MemoryStorage) (h : sweptOf t m m')
    (c : domain.StoreCall) (now : time.Time) (hnow : t ≤ now) :
    (memoryStorage.call m' c now).1 = (memoryStorage.call m c now).1
      ∧ sweptOf t (memoryStorage.call m c now).2 (memoryStorage.call m' c now).2 := by
  cases c with
  | Increment key expiration =>
    simp only [domain.Storage.call, memoryStorage]
    rcases h key with heq | ⟨hnone, e, he, hx⟩
    · obtain ⟨en, hen⟩ := Increment_shape m key expiration now
      have hen' := usecase.Increment_congr m m' key expiration now heq en hen
      rw [hen, hen']
      exact ⟨rfl, sweptOf_update t m m' h key _⟩
    · rw [Increment_of_expired m key expiration now e he (expired_mono e t now hx hnow),
        Increment_of_none m' key expiration now hnone]
      exact ⟨rfl, sweptOf_update t m m' h key _⟩
  | Get key =>
    simp only [domain.Storage.call, memoryStorage, Get_state]
    refine ⟨?_, h⟩
    rcases h key with heq | ⟨hnone, e, he, hx⟩
    · rw [Get_congr m m' key now heq]
    · rw [Get_of_expired m key now e he (expired_mono e t now hx hnow),
        Get_of_none m' key now hnone]
  | SetBlock key duration =>
    simp only [domain.Storage.call, memoryStorage, MemoryStorage.SetBlock]
    exact ⟨by first | rfl | trivial, sweptOf_update t m m' h key _⟩
  | IsBlocked key =>
    simp only [domain.Storage.call, memoryStorage]
    rcases h key with heq | ⟨hnone, e, he, hx⟩
    · obtain ⟨b, hb⟩ := IsBlocked_shape m key now
      rw [hb, usecase.IsBlocked_congr m m' key now heq b hb]
      exact ⟨rfl, h⟩
    · rw [IsBlocked_of_expired m key now e he (expired_mono e t now hx hnow),
        IsBlocked_of_none m' key now hnone]
      exact ⟨rfl, h⟩
  | GetTTL key =>
    simp only [domain.Storage.call, memoryStorage]
    rcases h key with heq | ⟨hnone, e, he, hx⟩
    · obtain ⟨d, hd⟩ := GetTTL_shape m key now
      rw [hd, usecase.GetTTL_congr m m' key now heq d hd]
      exact ⟨rfl, h⟩
    · rw [GetTTL_of_expired m key now e he (expired_mono e t now hx hnow),
        GetTTL_of_none m' key now hnone]
      exact ⟨rfl, h⟩
  | Close =>
    simp only [domain.Storage.call, memoryStorage, MemoryStorage.Close]
    exact ⟨by first | rfl | trivial, fun _ => Or.inl rfl⟩

theorem callAll_sweptOf (t : time.Time) :
    ∀ (l : List (domain.StoreCall × time.Time)) (m m' : MemoryStorage),
      sweptOf t m m' → (∀ p ∈ l, t ≤ p.2) →
      (memoryStorage.callAll m' l).1 = (memoryStorage.callAll m l).1
        ∧ sweptOf t (memoryStorage.callAll m l).2 (memoryStorage.callAll m' l).2
  | [], _, _, h, _ => ⟨rfl, h⟩
  | (c, u) :: rest, m, m', h, hl => by
    have hu := hl (c, u) (List.mem_cons_self _ _)
    have hstep := call_sweptOf t m m' h c u hu
    have ih := callAll_sweptOf t rest _ _ hstep.2
      (fun p hp => hl p (List.mem_cons_of_mem _ hp))
    simp only [domain.Storage.callAll]
    exact ⟨by rw [hstep.1, ih.1], ih.2⟩

/-- C22. For every table and time `t`: after one pass of `cleanupExpired` at `t`,
every run of calls of the store's methods (`Increment`, `Get`, `SetBlock`,
`IsBlocked`, `GetTTL`, and `Close`) at times no earlier than `t` gets the same
replies, call by call, as on the table that was not swept; and the two tables
left still differ only by entries that had expired at `t`. -/
theorem sweep_invisible (m : MemoryStorage) (t : time.Time)
    (l : List (domain.StoreCall × time.Time)) (hl : ∀ p ∈ l, t ≤ p.2) :
    (memoryStorage.callAll (m.cleanupExpired t) l).1 = (memoryStorage.callAll m l).1
      ∧ sweptOf t (memoryStorage.callAll m l).2
          (memoryStorage.callAll (m.cleanupExpired t) l).2 :=
  callAll_sweptOf t l m (m.cleanupExpired t) (sweptOf_cleanupExpired m t) hl

/-- C22 on a table with a counter that expired at 100 plus one second and a
block that lasts until 100 plus five seconds, swept at 100 plus two seconds:
the calls that follow are answered as without the sweep. -/
theorem sweep_invisible_witness :
    (memoryStorage.callAll
        (((NewMemoryStorage.Increment "count:ip:a" time.Second 100).2.SetBlock
          "block:ip:a" (5 * time.Second) 100).2.cleanupExpired (100 + 2 * time.Second))
        [(.GetTTL "count:ip:a", 100 + 2 * time.Second),
          (.Get "count:ip:a", 100 + 2 * time.Second),
          (.IsBlocked "block:ip:a", 100 + 3 * time.Second),
          (.Increment "count:ip:a" time.Second, 100 + 3 * time.Second),
          (.GetTTL "block:ip:a", 100 + 4 * time.Second)]).1
      = (memoryStorage.callAll
          ((NewMemoryStorage.Increment "count:ip:a" time.Second 100).2.SetBlock
            "block:ip:a" (5 * time.Second) 100).2
          [(.GetTTL "count:ip:a", 100 + 2 * time.Second),
            (.Get "count:ip:a", 100 + 2 * time.Second),
            (.IsBlocked "block:ip:a", 100 + 3 * time.Second),
            (.Increment "count:ip:a" time.Second, 100 + 3 * time.Second),
            (.GetTTL "block:ip:a", 100 + 4 * time.Second)]).1 :=
  (sweep_invisible
    ((NewMemoryStorage.Increment "count:ip:a" time.Second 100).2.SetBlock
      "block:ip:a" (5 * time.Second) 100).2 (100 + 2 * time.Second)
    [(.GetTTL "count:ip:a", 100 + 2 * time.Second),
      (.Get "count:ip:a", 100 + 2 * time.Second),
      (.IsBlocked "block:ip:a", 100 + 3 * time.Second),
      (.Increment "count:ip:a" time.Second, 100 + 3 * time.Second),
      (.GetTTL "block:ip:a", 100 + 4 * time.Second)] (by decide)).1

end storage

namespace usecase

open storage

/-! ## A limit of zero or less -/

/-- An increment of a counter that is not negative returns 1 at least. -/
theorem Increment_value_pos (m : MemoryStorage) (key : String) (expiration : time.Duration)
    (now : time.Time) (hcount : ∀ e, m.data key = some e → 0 ≤ e.value) :
    ∃ en : entry, m.Increment key expiration now
        = (.ok en.value, ⟨Function.update m.data key (some en)⟩)
      ∧ 1 ≤ en.value := by
  cases h : m.data key with
  | none =>
    exact ⟨⟨1, time.Add now expiration⟩, Increment_of_none m key expiration now h, le_refl _⟩
  | some e =>
    cases hx : expired e now with
    | true =>
      exact ⟨⟨1, time.Add now expiration⟩, Increment_of_expired m key expiration now e h hx,
        le_refl _⟩
    | false =>
      refine ⟨⟨e.value + 1, e.expiresAt⟩, Increment_of_live m key expiration now e h hx, ?_⟩
      have := hcount e h
      show 1 ≤ e.value + 1
      linarith

/-- One check with a limit of zero or less, on a table whose counter is not
negative. -/
theorem CheckLimit_nonpositive (rl : RateLimiter MemoryStorage)
    (himpl : rl.impl = memoryStorage) (config : domain.RateLimitConfig) (now : time.Time)
    (hmax : config.MaxRequests ≤ 0)
    (hcount : ∀ e, rl.storage.data (countKey config) = some e → 0 ≤ e.value) :
    (∃ bu, (rl.CheckLimit config now).1 = .ok ⟨false, 0, bu⟩)
      ∧ (∀ e, (rl.CheckLimit config now).2.storage.data (countKey config) = some e →
          0 ≤ e.value)
      ∧ ((rl.storage.IsBlocked (blockKey config) now).1 = .ok false →
          (rl.CheckLimit config now).1 = .ok ⟨false, 0, now + config.BlockDuration⟩
            ∧ (rl.CheckLimit config now).2.storage.data (blockKey config)
                = some ⟨1, now + config.BlockDuration⟩) := by
  have hne : blockKey config ≠ countKey config := blockKey_ne_countKey _ _
  obtain ⟨b, hb⟩ := IsBlocked_shape rl.storage (blockKey config) now
  cases b with
  | true =>
    obtain ⟨d, hd⟩ := GetTTL_shape rl.storage (blockKey config) now
    rw [CheckLimit_blocked rl himpl config now d hb hd]
    refine ⟨⟨now + d, rfl⟩, hcount, ?_⟩
    intro hnb
    rw [hb] at hnb
    simp at hnb
  | false =>
    obtain ⟨en, hen, hpos⟩ := Increment_value_pos rl.storage (countKey config) time.Second
      now hcount
    have hgt : en.value > config.MaxRequests := by
      have : config.MaxRequests < en.value := by linarith
      exact this
    have hopen := CheckLimit_open rl himpl config now en hb hen
    simp only [hgt, if_true] at hopen
    rw [hopen]
    refine ⟨⟨_, rfl⟩, ?_, fun _ => ⟨rfl, by simp⟩⟩
    intro e he
    simp only [Function.update_noteq hne.symm, Function.update_same,
      Option.some.injEq] at he
    rw [← he]
    linarith

/-- C24. On the in-process store, for every config with `MaxRequests ≤ 0` and
every table whose counter entry for the identity, if any, is not negative (as
every entry `Increment` wrote is): a check that does not find the identity
blocked returns `Allowed = false` with `RemainingReqs = 0` and writes the block
entry that expires `BlockDuration` later; a check that finds it blocked is
refused as well; so in every run of checks of that identity with limits of zero
or less, whenever they are made, every check returns `Allowed = false`. -/
theorem nonpositive_limit_rejects (rl : RateLimiter MemoryStorage)
    (himpl : rl.impl = memoryStorage) (config : domain.RateLimitConfig) (now : time.Time)
    (hmax : config.MaxRequests ≤ 0)
    (hcount : ∀ e, rl.storage.data (countKey config) = some e → 0 ≤ e.value) :
    ((rl.storage.IsBlocked (blockKey config) now).1 = .ok false →
        (rl.CheckLimit config now).1 = .ok ⟨false, 0, now + config.BlockDuration⟩
          ∧ (rl.CheckLimit config now).2.storage.data (blockKey config)
              = some ⟨1, now + config.BlockDuration⟩)
      ∧ (∃ bu, (rl.CheckLimit config now).1 = .ok ⟨false, 0, bu⟩)
      ∧ (∀ l : List (domain.RateLimitConfig × time.Time),
          (∀ p ∈ l, p.1.Typ = config.Typ ∧ p.1.Key = config.Key ∧ p.1.MaxRequests ≤ 0) →
          ∀ r ∈ (rl.checkAll (l.map fun p => (Check.Limit p.1, p.2))).1,
            ∃ bu, r = .ok ⟨false, 0, bu⟩) := by
  have h1 := CheckLimit_nonpositive rl himpl config now hmax hcount
  refine ⟨h1.2.2, h1.1, ?_⟩
  intro l
  induction l generalizing rl with
  | nil =>
    intro _ r hr
    simp [RateLimiter.checkAll] at hr
  | cons p rest ih =>
    intro hl r hr
    have hp := hl p (List.mem_cons_self _ _)
    have hck : countKey p.1 = countKey config := countKey_eq_of_same config p.1 hp.1 hp.2.1
    have hstep := CheckLimit_nonpositive rl himpl p.1 p.2 hp.2.2
      (by rw [hck]; exact hcount)
    simp only [List.map_cons, RateLimiter.checkAll, RateLimiter.check,
      List.mem_cons] at hr
    rcases hr with hr | hr
    · rw [hr]
      exact hstep.1
    · exact ih (rl.CheckLimit p.1 p.2).2 (CheckLimit_impl rl himpl _ _)
        (by
          have := hstep.2.1
          rw [hck] at this
          exact this)
        (CheckLimit_nonpositive _ (CheckLimit_impl rl himpl _ _) config now hmax
          (by
            have := hstep.2.1
            rw [hck] at this
            exact this))
        (fun q hq => hl q (List.mem_cons_of_mem _ hq)) r hr

end usecase

namespace usecase

open storage

/-- C24 on a token whose limit was set to 0 with `SetTokenLimit`: its first
check is refused and blocks it for two seconds, and so are the checks after the
block and after the counter window have ended. -/
theorem nonpositive_limit_rejects_witness :
    ((testLimiter.SetTokenLimit "blocked-token" 0).CheckToken "blocked-token" 100).1
        = .ok ⟨false, 0, 100 + 2 * time.Second⟩
      ∧ ((testLimiter.SetTokenLimit "blocked-token" 0).CheckToken "blocked-token"
          100).2.storage.data (blockKey ⟨"blocked-token", "token", 0, 2 * time.Second⟩)
        = some ⟨1, 100 + 2 * time.Second⟩
      ∧ ∀ r ∈ ((testLimiter.SetTokenLimit "blocked-token" 0).checkAll
          ([(⟨"blocked-token", "token", 0, 2 * time.Second⟩, 100),
            (⟨"blocked-token", "token", 0, 2 * time.Second⟩, 101),
            (⟨"blocked-token", "token", -1, 2 * time.Second⟩, 100 + 3 * time.Second)].map
              fun p => (Check.Limit p.1, p.2))).1,
          ∃ bu, r = .ok ⟨false, 0, bu⟩ :=
  have h := nonpositive_limit_rejects (testLimiter.SetTokenLimit "blocked-token" 0) rfl
    ⟨"blocked-token", "token", 0, 2 * time.Second⟩ 100 (by decide)
    (fun e he => absurd (show (none : Option entry) = some e from he) (by simp))
  ⟨(h.1 (by decide)).1, (h.1 (by decide)).2,
    h.2.2 [(⟨"blocked-token", "token", 0, 2 * time.Second⟩, 100),
      (⟨"blocked-token", "token", 0, 2 * time.Second⟩, 101),
      (⟨"blocked-token", "token", -1, 2 * time.Second⟩, 100 + 3 * time.Second)]
      (by decide)⟩

end usecase

namespace usecase

open storage

/-- C18 as stated fails on a store whose `SetBlock` writes the block and then
reports an error.  After one allowed check of an address with limit 1, the
check at 101 meets the conditions of the claim (`IsBlocked` returns false,
`Increment` succeeds with 2, `SetBlock` fails) and returns the wrapped error;
but the block entry is recorded, the retried check is refused as blocked, with
no error, and the counter still reads 2 after it: the retry has not
incremented it. -/
theorem setBlock_failure_counterexample :
    ((lostReplyLimiter.CheckIP "192.168.1.1" 100).2.impl.IsBlocked
        (lostReplyLimiter.CheckIP "192.168.1.1" 100).2.storage
        (blockKey ⟨"192.168.1.1", "ip", 1, 2 * time.Second⟩) 101).1 = .ok false
      ∧ ((lostReplyLimiter.CheckIP "192.168.1.1" 100).2.impl.Increment
          (lostReplyLimiter.CheckIP "192.168.1.1" 100).2.storage
          (countKey ⟨"192.168.1.1", "ip", 1, 2 * time.Second⟩) time.Second 101).1 = .ok 2
      ∧ ((lostReplyLimiter.CheckIP "192.168.1.1" 100).2.impl.SetBlock
          ((lostReplyLimiter.CheckIP "192.168.1.1" 100).2.impl.Increment
            (lostReplyLimiter.CheckIP "192.168.1.1" 100).2.storage
            (countKey ⟨"192.168.1.1", "ip", 1, 2 * time.Second⟩) time.Second 101).2
          (blockKey ⟨"192.168.1.1", "ip", 1, 2 * time.Second⟩) (2 * time.Second) 101).1
          = .error (.plain "i/o timeout")
      ∧ ((lostReplyLimiter.CheckIP "192.168.1.1" 100).2.CheckLimit
          ⟨"192.168.1.1", "ip", 1, 2 * time.Second⟩ 101).1
          = .error (.wrapf "failed to set block" (.plain "i/o timeout"))
      ∧ (((lostReplyLimiter.CheckIP "192.168.1.1" 100).2.CheckLimit
            ⟨"192.168.1.1", "ip", 1, 2 * time.Second⟩ 101).2.storage.Get
          (countKey ⟨"192.168.1.1", "ip", 1, 2 * time.Second⟩) 101).1 = .ok 2
      ∧ ((lostReplyLimiter.CheckIP "192.168.1.1" 100).2.CheckLimit
            ⟨"192.168.1.1", "ip", 1, 2 * time.Second⟩ 101).2.storage.data
          (blockKey ⟨"192.168.1.1", "ip", 1, 2 * time.Second⟩)
          = some ⟨1, 101 + 2 * time.Second⟩
      ∧ (((lostReplyLimiter.CheckIP "192.168.1.1" 100).2.CheckLimit
            ⟨"192.168.1.1", "ip", 1, 2 * time.Second⟩ 101).2.storage.IsBlocked
          (blockKey ⟨"192.168.1.1", "ip", 1, 2 * time.Second⟩) 101).1 = .ok true
      ∧ (∃ bu, (((lostReplyLimiter.CheckIP "192.168.1.1" 100).2.CheckLimit
              ⟨"192.168.1.1", "ip", 1, 2 * time.Second⟩ 101).2.CheckLimit
            ⟨"192.168.1.1", "ip", 1, 2 * time.Second⟩ 101).1 = .ok ⟨false, 0, bu⟩)
      ∧ ((((lostReplyLimiter.CheckIP "192.168.1.1" 100).2.CheckLimit
              ⟨"192.168.1.1", "ip", 1, 2 * time.Second⟩ 101).2.CheckLimit
            ⟨"192.168.1.1", "ip", 1, 2 * time.Second⟩ 101).2.storage.Get
          (countKey ⟨"192.168.1.1", "ip", 1, 2 * time.Second⟩) 101).1 = .ok 2 :=
  ⟨by decide, by decide, by decide, by decide, by decide, by decide, by decide,
    ⟨101 + 2 * time.Second, by decide⟩, by decide⟩

end usecase

namespace usecase

open storage

/-! ## Concurrent checks: every check returns, and the exact count -/

theorem get?_set_self {α : Type} :
    ∀ (l : List α) (i : Nat) (a b : α), l.get? i = some a → (l.set i b).get? i = some b
  | [], _, _, _, h => by simp at h
  | x :: xs, 0, a, b, _ => by simp
  | x :: xs, i + 1, a, b, h => by
    simp only [List.get?_cons_succ] at h
    simp only [List.set_cons_succ, List.get?_cons_succ]
    exact get?_set_self xs i a b h

theorem get?_set_other {α : Type} :
    ∀ (l : List α) (i j : Nat) (b : α), j ≠ i → (l.set j b).get? i = l.get? i
  | [], _, _, _, _ => by simp
  | x :: xs, 0, 0, b, h => absurd rfl h
  | x :: xs, 0, j + 1, b, _ => by simp
  | x :: xs, i + 1, 0, b, _ => by simp
  | x :: xs, i + 1, j + 1, b, h => by
    simp only [List.set_cons_succ, List.get?_cons_succ]
    exact get?_set_other xs i j b (fun hji => h (by rw [hji]))

/-- A store call of a check over the in-process store brings it one stage
nearer to its return at least. -/
theorem checkStep_rank (config : domain.RateLimitConfig) (pc : Pc) (m : MemoryStorage)
    (now : time.Time) :
    (checkStep memoryStorage config pc m now).1.rank ≤ pc.rank - 1 := by
  cases pc with
  | start =>
    obtain ⟨b, hb⟩ := IsBlocked_shape m (blockKey config) now
    cases b with
    | true =>
      have hs : checkStep memoryStorage config .start m now = (.sawBlock, m) := by
        simp only [checkStep, memoryStorage, hb]
      rw [hs]; simp [Pc.rank]
    | false =>
      have hs : checkStep memoryStorage config .start m now = (.sawOpen, m) := by
        simp only [checkStep, memoryStorage, hb]
      rw [hs]; simp [Pc.rank]
  | sawBlock =>
    obtain ⟨d, hd⟩ := GetTTL_shape m (blockKey config) now
    have hs : checkStep memoryStorage config .sawBlock m now
        = (.done (.ok ⟨false, 0, time.Add now d⟩), m) := by
      simp only [checkStep, memoryStorage, hd]
    rw [hs]; simp [Pc.rank]
  | sawOpen =>
    obtain ⟨en, hen⟩ := Increment_shape m (countKey config) time.Second now
    by_cases hgt : en.value > config.MaxRequests
    · have hs : checkStep memoryStorage config .sawOpen m now
          = (.overLimit, (m.Increment (countKey config) time.Second now).2) := by
        simp only [checkStep, memoryStorage, hen, hgt, if_true]
      rw [hs]; simp [Pc.rank]
    · have hs : checkStep memoryStorage config .sawOpen m now
          = (.done (.ok ⟨true,
              (if config.MaxRequests - en.value < 0 then 0
                else config.MaxRequests - en.value), 0⟩),
            (m.Increment (countKey config) time.Second now).2) := by
        simp only [checkStep, memoryStorage, hen, hgt, if_false]
      rw [hs]; simp [Pc.rank]
  | overLimit =>
    have hs : checkStep memoryStorage config .overLimit m now
        = (.done (.ok ⟨false, 0, time.Add now config.BlockDuration⟩),
            ⟨Function.update m.data (blockKey config)
              (some ⟨1, time.Add now config.BlockDuration⟩)⟩) := by
      simp only [checkStep, memoryStorage, MemoryStorage.SetBlock]
    rw [hs]; simp [Pc.rank]
  | done r => exact Nat.zero_le _

/-- A move of a concurrent run leaves every check in the list, with its
config; the check that moves comes one stage nearer to its return. -/
theorem concurrentStep_rank (threads : List (domain.RateLimitConfig × Pc))
    (m : MemoryStorage) (mv : Move) (now : time.Time) (i : Nat)
    (config : domain.RateLimitConfig) (pc : Pc) (hget : threads.get? i = some (config, pc)) :
    ∃ pc', (concurrentStep threads m mv now).1.get? i = some (config, pc')
      ∧ pc'.rank ≤ pc.rank - (if mv = Move.Thread i then 1 else 0) := by
  cases mv with
  | Sweep => exact ⟨pc, hget, by simp⟩
  | Thread j =>
    by_cases hji : j = i
    · subst hji
      rw [concurrentStep_thread threads m j now config pc hget]
      exact ⟨_, get?_set_self threads j _ _ hget, by
        simpa using checkStep_rank config pc m now⟩
    · have hne : Move.Thread j ≠ Move.Thread i := fun h => hji (by injection h)
      cases hj : threads.get? j with
      | none =>
        simp only [concurrentStep, hj]
        exact ⟨pc, hget, by simp [hne]⟩
      | some cp =>
        obtain ⟨cj, pcj⟩ := cp
        rw [concurrentStep_thread threads m j now cj pcj hj]
        exact ⟨pc, by rw [get?_set_other threads i j _ hji]; exact hget, by simp [hne]⟩

/-- Along a concurrent run, a check comes one stage nearer to its return with
each of its moves. -/
theorem concurrentRun_rank :
    ∀ (sched : List (Move × time.Time)) (threads : List (domain.RateLimitConfig × Pc))
      (m : MemoryStorage) (i : Nat) (config : domain.RateLimitConfig) (pc : Pc),
      threads.get? i = some (config, pc) →
      ∃ pc', (concurrentRun threads m sched).1.get? i = some (config, pc')
        ∧ pc'.rank ≤ pc.rank - movesOf i sched
  | [], threads, m, i, config, pc, hget => ⟨pc, hget, by simp [movesOf]⟩
  | (mv, t) :: rest, threads, m, i, config, pc, hget => by
    obtain ⟨pc1, hget1, hr1⟩ := concurrentStep_rank threads m mv t i config pc hget
    obtain ⟨pc2, hget2, hr2⟩ := concurrentRun_rank rest _
      (concurrentStep threads m mv t).2 i config pc1 hget1
    refine ⟨pc2, by simp only [concurrentRun]; exact hget2, ?_⟩
    have hm : movesOf i ((mv, t) :: rest)
        = movesOf i rest + (if mv = Move.Thread i then 1 else 0) := by
      simp only [movesOf, List.countP_cons, decide_eq_true_eq]
    rw [hm]
    omega

theorem returned_of_rank (pc : Pc) (h : pc.rank = 0) : pc.returned = true := by
  cases pc <;> first | rfl | (simp [Pc.rank] at h)

/-- The counter of a key stands at one value only. -/
theorem counterAt_unique (m : MemoryStorage) (key : String) (t0 tmax : time.Time)
    (c c' : Nat) (ht : t0 ≤ tmax) (h : counterAt m key t0 tmax c)
    (h' : counterAt m key t0 tmax c') : c = c' := by
  have hlive : ∀ (d : Nat) (exp : time.Time), tmax ≤ exp →
      m.data key = some ⟨(d : Int), exp⟩ → m.live key t0 = true := by
    intro d exp hexp hd
    have hx : expired ⟨(d : Int), exp⟩ t0 = false :=
      expired_eq_false_of_le _ _ (le_trans ht hexp)
    simp [MemoryStorage.live, hd, hx]
  rcases h with ⟨h0, hl⟩ | ⟨hpos, exp, hexp, hd⟩
  · rcases h' with ⟨h0', _⟩ | ⟨_, exp', hexp', hd'⟩
    · rw [h0, h0']
    · rw [hlive c' exp' hexp' hd'] at hl
      cases hl
  · rcases h' with ⟨_, hl'⟩ | ⟨_, exp', _, hd'⟩
    · rw [hlive c exp hexp hd] at hl'
      cases hl'
    · rw [hd] at hd'
      simp only [Option.some.injEq, entry.mk.injEq] at hd'
      exact_mod_cast hd'.1

end usecase

namespace usecase

open storage

/-- One check moves on to a stage of `Pc.underLimit`, and the table keeps its
block entry: `freshInv` carries over when the counter has not gone down. -/
theorem freshInv_set (T K : String) (N : Nat) (t0 : time.Time)
    (threads : List (domain.RateLimitConfig × Pc)) (m m' : MemoryStorage) (i : Nat)
    (config : domain.RateLimitConfig) (pc' : Pc)
    (hf : freshInv T K N t0 threads m)
    (hcnt : ∀ c' : Nat, counterAt m' (countKey ⟨K, T, 0, 0⟩) t0 (t0 + time.Second) c' →
      c' ≤ N → ∃ c : Nat, counterAt m (countKey ⟨K, T, 0, 0⟩) t0 (t0 + time.Second) c
        ∧ c ≤ N
        ∧ (m.live (blockKey ⟨K, T, 0, 0⟩) t0 = false →
            (∀ p ∈ threads, p.2.underLimit = true) →
            m'.live (blockKey ⟨K, T, 0, 0⟩) t0 = false ∧ pc'.underLimit = true)) :
    freshInv T K N t0 (threads.set i (config, pc')) m' := by
  intro c' hc' hc'N
  obtain ⟨c, hc, hcN, hnew⟩ := hcnt c' hc' hc'N
  obtain ⟨hl, hth⟩ := hf c hc hcN
  obtain ⟨hl', hpc'⟩ := hnew hl hth
  refine ⟨hl', ?_⟩
  intro p hp
  rcases List.mem_or_eq_of_mem_set hp with h | h
  · exact hth p h
  · rw [h]; exact hpc'

/-- Every move of a concurrent run inside the window keeps `freshInv`. -/
theorem freshInv_step (T K : String) (N : Nat) (t0 : time.Time)
    (threads : List (domain.RateLimitConfig × Pc)) (m : MemoryStorage) (mv : Move)
    (now : time.Time) (hinv : concurrentInv T K N t0 threads m)
    (hf : freshInv T K N t0 threads m) (h0 : t0 ≤ now) (h1 : now ≤ t0 + time.Second) :
    freshInv T K N t0 (concurrentStep threads m mv now).1
      (concurrentStep threads m mv now).2 := by
  have hwin : t0 ≤ t0 + time.Second := le_trans h0 h1
  obtain ⟨hcfgAll, _, c0, hc0, _⟩ := hinv
  cases mv with
  | Sweep =>
    intro c hc hcN
    have hc0' := counterAt_cleanupExpired m _ t0 c0 now hc0 h0 h1
    have hcc : c = c0 := counterAt_unique _ _ _ _ _ _ hwin hc hc0'
    subst hcc
    obtain ⟨hl, hth⟩ := hf c hc0 hcN
    refine ⟨?_, hth⟩
    rcases counterAt_cleanupExpired m (blockKey ⟨K, T, 0, 0⟩) t0 0 now (Or.inl ⟨rfl, hl⟩)
      h0 h1 with ⟨_, h⟩ | ⟨hpos, _⟩
    · exact h
    · exact absurd hpos (lt_irrefl 0)
  | Thread i =>
    cases hget : threads.get? i with
    | none =>
      simp only [concurrentStep, hget]
      exact hf
    | some cp =>
      obtain ⟨config, pc⟩ := cp
      rw [concurrentStep_thread threads m i now config pc hget]
      have hmem : (config, pc) ∈ threads := List.get?_mem hget
      have hcfg := hcfgAll (config, pc) hmem
      have hck : countKey config = countKey ⟨K, T, 0, 0⟩ :=
        countKey_eq_of_same ⟨K, T, 0, 0⟩ config hcfg.1 hcfg.2.1
      have hbk : blockKey config = blockKey ⟨K, T, 0, 0⟩ :=
        blockKey_eq_of_same ⟨K, T, 0, 0⟩ config hcfg.1 hcfg.2.1
      have hne : blockKey ⟨K, T, 0, 0⟩ ≠ countKey ⟨K, T, 0, 0⟩ := blockKey_ne_countKey _ _
      cases pc with
      | start =>
        obtain ⟨b, hb⟩ := IsBlocked_shape m (blockKey config) now
        have hs : checkStep memoryStorage config .start m now
            = ((if b then Pc.sawBlock else Pc.sawOpen), m) := by
          simp only [checkStep, memoryStorage, hb]
          cases b <;> rfl
        rw [hs]
        refine freshInv_set T K N t0 threads m m i config _ hf ?_
        intro c hc hcN
        refine ⟨c, hc, hcN, fun hl _ => ⟨hl, ?_⟩⟩
        have hnb := IsBlocked_of_not_live m (blockKey config) now
          (by rw [hbk]; exact live_mono m _ t0 now hl h0)
        rw [hb] at hnb
        have hbf : b = false := by
          have := congrArg Prod.fst hnb
          simpa using this
        rw [hbf]
        rfl
      | sawBlock =>
        intro c hc hcN
        have hm : (checkStep memoryStorage config .sawBlock m now).2 = m := by
          obtain ⟨d, hd⟩ := GetTTL_shape m (blockKey config) now
          simp only [checkStep, memoryStorage, hd]
        rw [hm] at hc
        have := (hf c hc hcN).2 (config, .sawBlock) hmem
        cases this
      | sawOpen =>
        obtain ⟨en, hen⟩ := Increment_shape m (countKey config) time.Second now
        have hinc := counterAt_Increment m _ t0 c0 now hc0 h0 h1
        rw [← hck, hen] at hinc
        have hval : en.value = (c0 : Int) + 1 := by simpa using hinc.1
        have hs : checkStep memoryStorage config .sawOpen m now
            = ((if en.value > config.MaxRequests then Pc.overLimit
                else Pc.done (.ok ⟨true,
                  (if config.MaxRequests - en.value < 0 then 0
                    else config.MaxRequests - en.value), 0⟩)),
                ⟨Function.update m.data (countKey config) (some en)⟩) := by
          simp only [checkStep, memoryStorage, hen]
          split <;> rfl
        rw [hs]
        refine freshInv_set T K N t0 threads m _ i config _ hf ?_
        intro c' hc' hc'N
        have hcc : c' = c0 + 1 := by
          refine counterAt_unique _ _ _ _ _ _ hwin hc' ?_
          rw [← hck]
          exact hinc.2
        refine ⟨c0, hc0, by omega, fun hl _ => ⟨?_, ?_⟩⟩
        · rw [← hl]
          exact live_update_ne m _ (countKey config) (some en) t0 (by rw [hck]; exact hne)
        · have hle : ¬ (en.value > config.MaxRequests) := by
            rw [hval, hcfg.2.2]
            have : (c0 : Int) + 1 ≤ (N : Int) := by exact_mod_cast (by omega : c0 + 1 ≤ N)
            exact not_lt.2 this
          simp only [hle, if_false]
          rfl
      | overLimit =>
        intro c hc hcN
        have hc' : counterAt m (countKey ⟨K, T, 0, 0⟩) t0 (t0 + time.Second) c := by
          refine counterAt_congr _ m _ t0 _ c ?_ hc
          simp only [checkStep, memoryStorage, MemoryStorage.SetBlock]
          rw [hbk, Function.update_noteq (Ne.symm hne)]
        have := (hf c hc' hcN).2 (config, .overLimit) hmem
        cases this
      | done r =>
        have hs : checkStep memoryStorage config (.done r) m now = (.done r, m) := rfl
        rw [hs, set_of_get? threads i _ hget]
        exact hf

/-- A concurrent run inside the window keeps `freshInv`. -/
theorem freshInv_run (T K : String) (N : Nat) (t0 : time.Time) :
    ∀ (sched : List (Move × time.Time)) (threads : List (domain.RateLimitConfig × Pc))
      (m : MemoryStorage),
      concurrentInv T K N t0 threads m → freshInv T K N t0 threads m →
      (∀ p ∈ sched, t0 ≤ p.2 ∧ p.2 ≤ t0 + time.Second) →
      freshInv T K N t0 (concurrentRun threads m sched).1 (concurrentRun threads m sched).2
  | [], _, _, _, hf, _ => hf
  | (mv, t) :: rest, threads, m, hinv, hf, hs => by
    have ht := hs (mv, t) (List.mem_cons_self _ _)
    have hstep := concurrentInv_step T K N t0 threads m mv t hinv ht.1 ht.2
    have hfstep := freshInv_step T K N t0 threads m mv t hinv hf ht.1 ht.2
    simp only [concurrentRun]
    exact freshInv_run T K N t0 rest _ _ hstep hfstep
      (fun p hp => hs p (List.mem_cons_of_mem _ hp))

end usecase

namespace usecase

open storage

/-- C17. `M` concurrent checks of one identity with limit `N`, on an in-process
store in which the identity has no live counter entry at `t0`.  A concurrent
run is any schedule of moves inside the counter window (between `t0` and one
second later): a move is the next store call of one of the checks, or a sweep
of `cleanupExpired` (each method of the store holds the lock of the table for
its whole body, so the store calls happen one at a time).  At every point of
every run there are still `M` checks, none has returned an error, and the
number of checks that have returned `Allowed = true` is the smaller of `N` and
the value the counter entry holds, so at most `N`.  Every check returns: it has
returned once it has made three moves of its own, whatever the others do, so
after a schedule in which every check moves three times all have returned.  Once all have returned, each
has one result, `Allowed = true` or `Allowed = false`, and if `N < M` at least
one has `Allowed = false`; when the identity has no live block entry at `t0`
either, exactly `min M N` checks have `Allowed = true` and the other
`M - min M N` have `Allowed = false`. -/
theorem concurrent_checks (m : MemoryStorage) (T K : String) (N : Nat)
    (configs : List domain.RateLimitConfig)
    (hcfg : ∀ c ∈ configs, c.Typ = T ∧ c.Key = K ∧ c.MaxRequests = (N : Int))
    (t0 : time.Time) (hfresh : m.live (countKey ⟨K, T, 0, 0⟩) t0 = false)
    (sched : List (Move × time.Time))
    (hs : ∀ p ∈ sched, t0 ≤ p.2 ∧ p.2 ≤ t0 + time.Second) :
    (concurrentRun (configs.map fun c => (c, Pc.start)) m sched).1.length = configs.length
      ∧ (∀ p ∈ (concurrentRun (configs.map fun c => (c, Pc.start)) m sched).1,
          ∀ e, p.2 ≠ .done (.error e))
      ∧ (∃ c : Nat,
          counterAt (concurrentRun (configs.map fun c => (c, Pc.start)) m sched).2
              (countKey ⟨K, T, 0, 0⟩) t0 (t0 + time.Second) c
            ∧ (concurrentRun (configs.map fun c => (c, Pc.start)) m sched).1.countP
                (fun p => p.2.allowed) = min c N)
      ∧ (concurrentRun (configs.map fun c => (c, Pc.start)) m sched).1.countP
          (fun p => p.2.allowed) ≤ N
      ∧ (∀ (i : Nat) (p : domain.RateLimitConfig × Pc),
          (concurrentRun (configs.map fun c => (c, Pc.start)) m sched).1.get? i = some p →
          3 ≤ movesOf i sched → p.2.returned = true)
      ∧ ((∀ i, i < configs.length → 3 ≤ movesOf i sched) →
          ∀ p ∈ (concurrentRun (configs.map fun c => (c, Pc.start)) m sched).1,
            p.2.returned = true)
      ∧ ((∀ p ∈ (concurrentRun (configs.map fun c => (c, Pc.start)) m sched).1,
            p.2.returned = true) →
          (∀ p ∈ (concurrentRun (configs.map fun c => (c, Pc.start)) m sched).1,
              ∃ st, p.2 = .done (.ok st))
            ∧ (N < configs.length →
                ∃ p ∈ (concurrentRun (configs.map fun c => (c, Pc.start)) m sched).1,
                  p.2.refused = true)
            ∧ (m.live (blockKey ⟨K, T, 0, 0⟩) t0 = false →
                (concurrentRun (configs.map fun c => (c, Pc.start)) m sched).1.countP
                    (fun p => p.2.allowed) = min configs.length N
                  ∧ (concurrentRun (configs.map fun c => (c, Pc.start)) m sched).1.countP
                      (fun p => p.2.refused) = configs.length - min configs.length N)) := by
  have hinit : concurrentInv T K N t0 (configs.map fun c => (c, Pc.start)) m := by
    refine ⟨?_, ?_, 0, Or.inl ⟨rfl, hfresh⟩, ?_⟩
    · intro p hp
      obtain ⟨c, hc, rfl⟩ := List.mem_map.1 hp
      exact hcfg c hc
    · intro p hp e
      obtain ⟨c, _, rfl⟩ := List.mem_map.1 hp
      intro h
      cases h
    · rw [Nat.zero_min]
      apply List.countP_eq_zero.2
      intro p hp
      obtain ⟨c, _, rfl⟩ := List.mem_map.1 hp
      simp [Pc.allowed]
  obtain ⟨⟨_, hnoerr, c, hc, hcount⟩, hlen⟩ :=
    concurrentInv_run T K N t0 sched _ m hinit hs
  rw [List.length_map] at hlen
  have hle : (concurrentRun (configs.map fun c => (c, Pc.start)) m sched).1.countP
      (fun p => p.2.allowed) ≤ N := by
    rw [hcount]; exact Nat.min_le_right _ _
  have hres : ∀ p ∈ (concurrentRun (configs.map fun c => (c, Pc.start)) m sched).1,
      p.2.returned = true → ∃ st, p.2 = .done (.ok st) := by
    intro p hp hret
    cases hpc : p.2 with
    | done r =>
      cases r with
      | error e => exact absurd hpc (hnoerr p hp e)
      | ok st => exact ⟨st, rfl⟩
    | start => rw [hpc] at hret; cases hret
    | sawBlock => rw [hpc] at hret; cases hret
    | sawOpen => rw [hpc] at hret; cases hret
    | overLimit => rw [hpc] at hret; cases hret
  have hprog : ∀ (i : Nat) (p : domain.RateLimitConfig × Pc),
      (concurrentRun (configs.map fun c => (c, Pc.start)) m sched).1.get? i = some p →
      3 ≤ movesOf i sched → p.2.returned = true := by
    intro i p hi h3
    obtain ⟨hilt, _⟩ := List.get?_eq_some.1 hi
    rw [hlen] at hilt
    cases h0 : (configs.map fun c => (c, Pc.start)).get? i with
    | none =>
      have := List.get?_eq_none.1 h0
      rw [List.length_map] at this
      exact absurd hilt (not_lt.2 this)
    | some cp =>
      obtain ⟨c1, _, hcp⟩ := List.mem_map.1 (List.get?_mem h0)
      rw [← hcp] at h0
      obtain ⟨pc', hget', hrank⟩ := concurrentRun_rank sched _ m i c1 Pc.start h0
      rw [hi] at hget'
      simp only [Option.some.injEq] at hget'
      rw [hget']
      have hstart : Pc.start.rank = 3 := rfl
      have hr0 : pc'.rank = 0 := by
        rw [hstart] at hrank
        omega
      exact returned_of_rank pc' hr0
  refine ⟨hlen, hnoerr, ⟨c, hc, hcount⟩, hle, hprog, ?_, ?_⟩
  · -- every check returns
    intro hmoves p hp
    obtain ⟨i, hi⟩ := List.get?_of_mem hp
    obtain ⟨hilt, _⟩ := List.get?_eq_some.1 hi
    rw [hlen] at hilt
    exact hprog i p hi (hmoves i hilt)
  · intro hall
    have hflip : ∀ p ∈ (concurrentRun (configs.map fun c => (c, Pc.start)) m sched).1,
        p.2.refused = !p.2.allowed := by
      intro p hp
      obtain ⟨st, hst⟩ := hres p hp (hall p hp)
      rw [hst]
      rfl
    have hsum : configs.length
        = (concurrentRun (configs.map fun c => (c, Pc.start)) m sched).1.countP
            (fun p => p.2.allowed)
          + (concurrentRun (configs.map fun c => (c, Pc.start)) m sched).1.countP
            (fun p => p.2.refused) := by
      rw [← hlen, List.length_eq_countP_add_countP
        (fun (p : domain.RateLimitConfig × Pc) => p.2.allowed)]
      congr 1
      apply List.countP_congr
      intro p hp
      rw [hflip p hp]
      simp
    refine ⟨fun p hp => hres p hp (hall p hp), ?_, ?_⟩
    · intro hNM
      by_contra hnone
      have hzero : (concurrentRun (configs.map fun c => (c, Pc.start)) m sched).1.countP
          (fun p => p.2.refused) = 0 := by
        apply List.countP_eq_zero.2
        intro p hp hr
        exact hnone ⟨p, hp, hr⟩
      omega
    · intro hnoblock
      have hfinit : freshInv T K N t0 (configs.map fun c => (c, Pc.start)) m := by
        intro _ _ _
        refine ⟨hnoblock, ?_⟩
        intro p hp
        obtain ⟨c1, _, rfl⟩ := List.mem_map.1 hp
        rfl
      have hf := freshInv_run T K N t0 sched _ m hinit hfinit hs
      have hexact : (concurrentRun (configs.map fun c => (c, Pc.start)) m sched).1.countP
          (fun p => p.2.allowed) = min configs.length N := by
        by_cases hcN : c ≤ N
        · obtain ⟨_, hth⟩ := hf c hc hcN
          have hallowed :
              ∀ p ∈ (concurrentRun (configs.map fun c => (c, Pc.start)) m sched).1,
                (fun (p : domain.RateLimitConfig × Pc) => p.2.allowed) p = true := by
            intro p hp
            obtain ⟨st, hst⟩ := hres p hp (hall p hp)
            have hu := hth p hp
            rw [hst] at hu
            simp only [hst]
            exact hu
          have hfull := List.countP_eq_length.2 hallowed
          rw [hlen] at hfull
          rw [hfull]
          rw [hfull] at hle
          exact (Nat.min_eq_left hle).symm
        · have hN : (concurrentRun (configs.map fun c => (c, Pc.start)) m sched).1.countP
              (fun p => p.2.allowed) = N := by
            rw [hcount]
            exact Nat.min_eq_right (by omega)
          have hNM : N ≤ configs.length := by omega
          rw [hN]
          exact (Nat.min_eq_right hNM).symm
      refine ⟨hexact, ?_⟩
      omega

end usecase

namespace usecase

open storage

/-- C17 on fifteen concurrent checks of one new address with limit 10, in a run
in which every check has seen the address unblocked before any of them counts,
and every check moves three times: all fifteen return, each with a result;
exactly ten have `Allowed = true` and five `Allowed = false`. -/
theorem concurrent_checks_witness :
    (concurrentRun (concurrentConfigs.map fun c => (c, Pc.start)) NewMemoryStorage
        concurrentSchedule).1.length = 15
      ∧ (∀ p ∈ (concurrentRun (concurrentConfigs.map fun c => (c, Pc.start))
            NewMemoryStorage concurrentSchedule).1, ∃ st, p.2 = .done (.ok st))
      ∧ (concurrentRun (concurrentConfigs.map fun c => (c, Pc.start)) NewMemoryStorage
          concurrentSchedule).1.countP (fun p => p.2.allowed) = 10
      ∧ (concurrentRun (concurrentConfigs.map fun c => (c, Pc.start)) NewMemoryStorage
          concurrentSchedule).1.countP (fun p => p.2.refused) = 5
      ∧ (∃ p ∈ (concurrentRun (concurrentConfigs.map fun c => (c, Pc.start))
            NewMemoryStorage concurrentSchedule).1, p.2.refused = true) :=
  have h := concurrent_checks NewMemoryStorage "ip" "127.0.0.1" 10 concurrentConfigs
    (by decide) 100 (by decide) concurrentSchedule (by decide)
  have hret := h.2.2.2.2.2.1 (by decide)
  have hdone := h.2.2.2.2.2.2 hret
  have hexact := hdone.2.2 (by decide)
  ⟨h.1, hdone.1, hexact.1, hexact.2, hdone.2.1 (by decide)⟩

end usecase

namespace usecase

open storage

/-! ## `CheckLimit` with its clock readings -/

/-- A check whose clock readings are all `now` is `CheckLimit` at `now`. -/
theorem CheckLimitAt_instant {σ : Type} (rl : RateLimiter σ)
    (config : domain.RateLimitConfig) (now : time.Time) :
    rl.CheckLimitAt config (Readings.instant now) = rl.CheckLimit config now := rfl

theorem CheckLimitAt_blocked (rl : RateLimiter MemoryStorage)
    (himpl : rl.impl = memoryStorage) (config : domain.RateLimitConfig) (ck : Readings)
    (d : time.Duration)
    (hb : rl.storage.IsBlocked (blockKey config) ck.isBlocked = (.ok true, rl.storage))
    (hd : rl.storage.GetTTL (blockKey config) ck.second = (.ok d, rl.storage)) :
    rl.CheckLimitAt config ck = (.ok ⟨false, 0, ck.ret + d⟩, rl) := by
  obtain ⟨impl, st, a, b, c, tl⟩ := rl
  subst himpl
  simp only [RateLimiter.CheckLimitAt, memoryStorage] at hb hd ⊢
  simp [hb, hd, time.Add]

theorem CheckLimitAt_open (rl : RateLimiter MemoryStorage) (himpl : rl.impl = memoryStorage)
    (config : domain.RateLimitConfig) (ck : Readings) (e : entry)
    (hb : rl.storage.IsBlocked (blockKey config) ck.isBlocked = (.ok false, rl.storage))
    (hi : rl.storage.Increment (countKey config) time.Second ck.second
      = (.ok e.value, ⟨Function.update rl.storage.data (countKey config) (some e)⟩)) :
    rl.CheckLimitAt config ck
      = if e.value > config.MaxRequests then
          (.ok ⟨false, 0, ck.ret + config.BlockDuration⟩,
            { rl with storage := ⟨Function.update
                (Function.update rl.storage.data (countKey config) (some e))
                (blockKey config) (some ⟨1, ck.setBlock + config.BlockDuration⟩)⟩ })
        else
          (.ok ⟨true, config.MaxRequests - e.value, 0⟩,
            { rl with storage := ⟨Function.update rl.storage.data (countKey config) (some e)⟩ }) := by
  obtain ⟨impl, st, a, b, c, tl⟩ := rl
  subst himpl
  simp only [RateLimiter.CheckLimitAt, memoryStorage] at hb hi ⊢
  simp only [hb, hi]
  by_cases hgt : e.value > config.MaxRequests
  · simp [hgt, MemoryStorage.SetBlock, time.Add]
  · have : ¬ (config.MaxRequests - e.value < 0) := not_lt.2 (sub_nonneg.2 (not_lt.1 hgt))
    simp [hgt, this]

/-- A check changes nothing of the limiter but its store. -/
theorem CheckLimitAt_fields (rl : RateLimiter MemoryStorage) (himpl : rl.impl = memoryStorage)
    (config : domain.RateLimitConfig) (ck : Readings) :
    (rl.CheckLimitAt config ck).2
      = { rl with storage := (rl.CheckLimitAt config ck).2.storage } := by
  obtain ⟨b, hb⟩ := IsBlocked_shape rl.storage (blockKey config) ck.isBlocked
  cases b with
  | true =>
    obtain ⟨d, hd⟩ := GetTTL_shape rl.storage (blockKey config) ck.second
    rw [CheckLimitAt_blocked rl himpl config ck d hb hd]
  | false =>
    obtain ⟨e, he⟩ := Increment_shape rl.storage (countKey config) time.Second ck.second
    rw [CheckLimitAt_open rl himpl config ck e hb he]
    split <;> rfl

/-- A check writes under its own two keys only. -/
theorem CheckLimitAt_frame (rl : RateLimiter MemoryStorage) (himpl : rl.impl = memoryStorage)
    (config : domain.RateLimitConfig) (ck : Readings) (key : String)
    (h1 : key ≠ blockKey config) (h2 : key ≠ countKey config) :
    (rl.CheckLimitAt config ck).2.storage.data key = rl.storage.data key := by
  obtain ⟨b, hb⟩ := IsBlocked_shape rl.storage (blockKey config) ck.isBlocked
  cases b with
  | true =>
    obtain ⟨d, hd⟩ := GetTTL_shape rl.storage (blockKey config) ck.second
    rw [CheckLimitAt_blocked rl himpl config ck d hb hd]
  | false =>
    obtain ⟨e, he⟩ := Increment_shape rl.storage (countKey config) time.Second ck.second
    rw [CheckLimitAt_open rl himpl config ck e hb he]
    split
    · simp [Function.update_noteq h1, Function.update_noteq h2]
    · simp [Function.update_noteq h2]

theorem CheckLimitAt_impl (rl : RateLimiter MemoryStorage) (himpl : rl.impl = memoryStorage)
    (config : domain.RateLimitConfig) (ck : Readings) :
    (rl.CheckLimitAt config ck).2.impl = memoryStorage := by
  rw [CheckLimitAt_fields rl himpl config ck]
  exact himpl

theorem configOf_CheckLimitAt (rl : RateLimiter MemoryStorage)
    (himpl : rl.impl = memoryStorage) (config : domain.RateLimitConfig) (ck : Readings)
    (c : Check) :
    (rl.CheckLimitAt config ck).2.configOf c = rl.configOf c := by
  rw [CheckLimitAt_fields rl himpl config ck]
  exact configOf_storage rl _ c

/-- The TTL of an entry with an expiration: the time left, or 0 when it has
passed. -/
theorem GetTTL_of_expiring (m : MemoryStorage) (key : String) (now : time.Time) (e : entry)
    (h : m.data key = some e) (h0 : e.expiresAt ≠ 0) :
    m.GetTTL key now = (.ok (max 0 (e.expiresAt - now)), m) := by
  by_cases hneg : e.expiresAt - now < 0
  · have hmax : max 0 (e.expiresAt - now) = 0 := max_eq_left (le_of_lt hneg)
    rw [hmax]
    simp [MemoryStorage.GetTTL, h, time.IsZero, h0, time.Until, hneg]
  · have hmax : max 0 (e.expiresAt - now) = e.expiresAt - now := max_eq_right (not_lt.1 hneg)
    rw [hmax]
    simp [MemoryStorage.GetTTL, h, time.IsZero, h0, time.Until, hneg]

/-- A check of a blocked identity: the block entry is `⟨1, exp⟩` and has not
expired when `IsBlocked` reads the clock.  `BlockedUntil` is the reading at the
return plus the TTL that `GetTTL` computed at its own reading. -/
theorem CheckLimitAt_of_block (rl : RateLimiter MemoryStorage)
    (himpl : rl.impl = memoryStorage) (config : domain.RateLimitConfig) (ck : Readings)
    (exp : time.Time) (h : rl.storage.data (blockKey config) = some ⟨1, exp⟩) (h0 : exp ≠ 0)
    (hle : ck.isBlocked ≤ exp) :
    rl.CheckLimitAt config ck = (.ok ⟨false, 0, ck.ret + max 0 (exp - ck.second)⟩, rl) := by
  have hb := IsBlocked_of_block rl.storage (blockKey config) ck.isBlocked exp h hle
  have hd := GetTTL_of_expiring rl.storage (blockKey config) ck.second ⟨1, exp⟩ h h0
  exact CheckLimitAt_blocked rl himpl config ck _ hb hd

/-- While a block entry `⟨1, exp⟩` is unexpired, a check of any identity at all
leaves that entry, and the counter entry next to it, as they are. -/
theorem CheckLimitAt_keeps_block (rl : RateLimiter MemoryStorage)
    (himpl : rl.impl = memoryStorage) (config config' : domain.RateLimitConfig)
    (ck : Readings) (exp : time.Time)
    (h : rl.storage.data (blockKey config) = some ⟨1, exp⟩)
    (h0 : exp ≠ 0) (hle : ck.isBlocked ≤ exp) :
    (rl.CheckLimitAt config' ck).2.storage.data (blockKey config)
        = rl.storage.data (blockKey config)
      ∧ (rl.CheckLimitAt config' ck).2.storage.data (countKey config)
        = rl.storage.data (countKey config) := by
  by_cases hk : blockKey config' = blockKey config
  · rw [CheckLimitAt_of_block rl himpl config' ck exp (by rw [hk]; exact h) h0 hle]
    exact ⟨rfl, rfl⟩
  · have hk' : countKey config' ≠ countKey config :=
      fun hc => hk ((blockKey_eq_iff_countKey_eq _ _).2 hc)
    exact ⟨CheckLimitAt_frame rl himpl config' ck _ (Ne.symm hk) (blockKey_ne_countKey _ _),
      CheckLimitAt_frame rl himpl config' ck _ (Ne.symm (blockKey_ne_countKey _ _))
        (Ne.symm hk')⟩

/-- The same over a run of calls, each with an `IsBlocked` reading no later
than the expiration of the block. -/
theorem checkAllAt_keeps_block (config : domain.RateLimitConfig) (exp : time.Time)
    (h0 : exp ≠ 0) :
    ∀ (l : List (Check × Readings)) (rl : RateLimiter MemoryStorage),
      rl.impl = memoryStorage → rl.storage.data (blockKey config) = some ⟨1, exp⟩ →
      (∀ p ∈ l, p.2.isBlocked ≤ exp) →
      (rl.checkAllAt l).2.impl = memoryStorage
        ∧ (rl.checkAllAt l).2.storage.data (blockKey config) = some ⟨1, exp⟩
        ∧ (rl.checkAllAt l).2.storage.data (countKey config)
            = rl.storage.data (countKey config)
        ∧ ∀ c, (rl.checkAllAt l).2.configOf c = rl.configOf c
  | [], rl, himpl, h, _ => ⟨himpl, h, rfl, fun _ => rfl⟩
  | (c, ck) :: l, rl, himpl, h, hl => by
    have ht : ck.isBlocked ≤ exp := hl (c, ck) (List.mem_cons_self _ _)
    have hstep := CheckLimitAt_keeps_block rl himpl config (rl.configOf c) ck exp h h0 ht
    have ih := checkAllAt_keeps_block config exp h0 l (rl.CheckLimitAt (rl.configOf c) ck).2
      (CheckLimitAt_impl rl himpl _ _) (by rw [hstep.1]; exact h)
      (fun p hp => hl p (List.mem_cons_of_mem _ hp))
    simp only [RateLimiter.checkAllAt]
    refine ⟨ih.1, ih.2.1, ?_, ?_⟩
    · rw [ih.2.2.1, hstep.2]
    · intro c'
      rw [ih.2.2.2 c', configOf_CheckLimitAt rl himpl]

/-- The check that blocks: the identity was not blocked, and the check came
back with `Allowed = false`.  Then the counter went over the limit, the block
entry expires `BlockDuration` after the clock reading of `SetBlock`, and
`BlockedUntil` is `BlockDuration` after the clock reading at the return. -/
theorem CheckLimitAt_trigger (rl : RateLimiter MemoryStorage)
    (himpl : rl.impl = memoryStorage) (config : domain.RateLimitConfig) (ck : Readings)
    (hnb : (rl.storage.IsBlocked (blockKey config) ck.isBlocked).1 = .ok false)
    (st : domain.RateLimitStatus) (hres : (rl.CheckLimitAt config ck).1 = .ok st)
    (hdeny : st.Allowed = false) :
    ∃ e : entry,
      (rl.CheckLimitAt config ck).1 = .ok ⟨false, 0, ck.ret + config.BlockDuration⟩
      ∧ (rl.CheckLimitAt config ck).2
          = { rl with storage := ⟨Function.update
                (Function.update rl.storage.data (countKey config) (some e))
                (blockKey config) (some ⟨1, ck.setBlock + config.BlockDuration⟩)⟩ }
      ∧ (rl.storage.Increment (countKey config) time.Second ck.second).2.data
          (countKey config) = some e := by
  obtain ⟨b, hb⟩ := IsBlocked_shape rl.storage (blockKey config) ck.isBlocked
  rw [hb] at hnb
  simp only [Except.ok.injEq] at hnb
  subst hnb
  obtain ⟨e, he⟩ := Increment_shape rl.storage (countKey config) time.Second ck.second
  have hopen := CheckLimitAt_open rl himpl config ck e hb he
  by_cases hgt : e.value > config.MaxRequests
  · simp only [hgt, if_true] at hopen
    exact ⟨e, by rw [hopen], by rw [hopen], by rw [he]; simp⟩
  · simp only [hgt, if_false] at hopen
    rw [hopen] at hres
    simp only [Except.ok.injEq] at hres
    rw [← hres] at hdeny
    exact absurd hdeny (by simp)

end usecase

namespace usecase

open storage

/-- C2 as stated fails in its second half: `CheckLimit` reads the clock again
for `BlockedUntil`, after `GetTTL` has computed the TTL at its own reading.  The
third call for an address with limit 2, at 102, blocks it until 102 plus two
seconds.  A check at 103 that runs in one instant returns that expiration as
`BlockedUntil`; a later check, whose store calls read 104 and whose return
reads 105, returns `BlockedUntil` one nanosecond after it: later than the one
returned before. -/
theorem blockedUntil_later_counterexample :
    ((testLimiterAtLimit.CheckIP "192.168.1.2" 102).2.storage.data
        (blockKey ⟨"192.168.1.2", "ip", 2, 2 * time.Second⟩)
        = some ⟨1, 102 + 2 * time.Second⟩)
      ∧ ((testLimiterAtLimit.CheckIP "192.168.1.2" 102).2.CheckLimitAt
          ⟨"192.168.1.2", "ip", 2, 2 * time.Second⟩ ⟨103, 103, 103, 103⟩).1
          = .ok ⟨false, 0, 102 + 2 * time.Second⟩
      ∧ ((((testLimiterAtLimit.CheckIP "192.168.1.2" 102).2.CheckLimitAt
            ⟨"192.168.1.2", "ip", 2, 2 * time.Second⟩ ⟨103, 103, 103, 103⟩).2).CheckLimitAt
          ⟨"192.168.1.2", "ip", 2, 2 * time.Second⟩ ⟨104, 104, 104, 105⟩).1
          = .ok ⟨false, 0, 103 + 2 * time.Second⟩
      ∧ (103 : time.Time) ≤ 104
      ∧ ¬ ((103 : time.Time) + 2 * time.Second ≤ 102 + 2 * time.Second) := by
  decide

/-- C2, amended. Once a check has blocked an identity (it was not blocked and
the check came back with `Allowed = false`), the block entry expires at `E`,
`BlockDuration` after the clock reading of `SetBlock` (taken not to be the zero
time).  Every `CheckLimit` for that identity whose `IsBlocked` reads the clock
no later than `E` returns `Allowed = false` and `RemainingReqs = 0`, whatever
its `MaxRequests` and `BlockDuration` are and whatever calls (for any identity,
with `IsBlocked` readings no later than `E`) were made in between; its
`BlockedUntil` is the clock reading at the return plus the TTL that `GetTTL`
computed: `E` plus the time that passed between the two readings when `GetTTL`
read the clock no later than `E`.  So `BlockedUntil` is never earlier than `E`,
and of two such checks, the second after the first, the second returns a
`BlockedUntil` that is not later than the first exactly when that delay of the
second is not longer than that of the first.  More generally a check that
finds an unexpired block entry returns `Allowed = false` and
`RemainingReqs = 0` in every table, whatever the counter entry is; and among
concurrent checks, a check whose `IsBlocked` finds the unexpired entry goes on
to `GetTTL` and returns `Allowed = false` and `RemainingReqs = 0` whatever the
other checks have done to the table in between. -/
theorem blocked_while_block_unexpired (rl : RateLimiter MemoryStorage)
    (himpl : rl.impl = memoryStorage) (config : domain.RateLimitConfig) (k0 : Readings)
    (hnb : (rl.storage.IsBlocked (blockKey config) k0.isBlocked).1 = .ok false)
    (st0 : domain.RateLimitStatus) (hres : (rl.CheckLimitAt config k0).1 = .ok st0)
    (hdeny : st0.Allowed = false) (hexp : k0.setBlock + config.BlockDuration ≠ 0)
    (l1 l2 : List (Check × Readings)) (c1 c2 : domain.RateLimitConfig)
    (k1 k2 : Readings)
    (hc1 : c1.Typ = config.Typ ∧ c1.Key = config.Key)
    (hc2 : c2.Typ = config.Typ ∧ c2.Key = config.Key)
    (hl1 : ∀ p ∈ l1, p.2.isBlocked ≤ k0.setBlock + config.BlockDuration)
    (ht1 : k1.isBlocked ≤ k0.setBlock + config.BlockDuration)
    (hl2 : ∀ p ∈ l2, p.2.isBlocked ≤ k0.setBlock + config.BlockDuration)
    (ht2 : k2.isBlocked ≤ k0.setBlock + config.BlockDuration) :
    (rl.CheckLimitAt config k0).1 = .ok ⟨false, 0, k0.ret + config.BlockDuration⟩
      ∧ (rl.CheckLimitAt config k0).2.storage.data (blockKey config)
          = some ⟨1, k0.setBlock + config.BlockDuration⟩
      ∧ (((rl.CheckLimitAt config k0).2.checkAllAt l1).2.CheckLimitAt c1 k1).1
          = .ok ⟨false, 0,
              k1.ret + max 0 (k0.setBlock + config.BlockDuration - k1.second)⟩
      ∧ ((((((rl.CheckLimitAt config k0).2.checkAllAt l1).2.CheckLimitAt c1 k1).2.checkAllAt
            l2).2).CheckLimitAt c2 k2).1
          = .ok ⟨false, 0,
              k2.ret + max 0 (k0.setBlock + config.BlockDuration - k2.second)⟩
      ∧ (∀ s1 s2 : domain.RateLimitStatus,
          (((rl.CheckLimitAt config k0).2.checkAllAt l1).2.CheckLimitAt c1 k1).1 = .ok s1 →
          ((((((rl.CheckLimitAt config k0).2.checkAllAt l1).2.CheckLimitAt c1
              k1).2.checkAllAt l2).2).CheckLimitAt c2 k2).1 = .ok s2 →
          (k1.second ≤ k1.ret → k0.setBlock + config.BlockDuration ≤ s1.BlockedUntil)
            ∧ (k2.second ≤ k2.ret → k0.setBlock + config.BlockDuration ≤ s2.BlockedUntil)
            ∧ (k1.second ≤ k0.setBlock + config.BlockDuration →
                s1.BlockedUntil
                  = k0.setBlock + config.BlockDuration + (k1.ret - k1.second))
            ∧ (k2.second ≤ k0.setBlock + config.BlockDuration →
                s2.BlockedUntil
                  = k0.setBlock + config.BlockDuration + (k2.ret - k2.second))
            ∧ (k1.second ≤ k0.setBlock + config.BlockDuration →
                k2.second ≤ k0.setBlock + config.BlockDuration →
                (s2.BlockedUntil ≤ s1.BlockedUntil
                  ↔ k2.ret - k2.second ≤ k1.ret - k1.second)))
      ∧ (∀ (rl' : RateLimiter MemoryStorage) (c : domain.RateLimitConfig) (k : Readings)
          (exp : time.Time), rl'.impl = memoryStorage →
          rl'.storage.data (blockKey c) = some ⟨1, exp⟩ → k.isBlocked ≤ exp →
          ∃ bu, rl'.CheckLimitAt c k = (.ok ⟨false, 0, bu⟩, rl'))
      ∧ (∀ (m : MemoryStorage) (c : domain.RateLimitConfig) (t exp : time.Time),
          m.data (blockKey c) = some ⟨1, exp⟩ → t ≤ exp →
          checkStep memoryStorage c .start m t = (.sawBlock, m)
            ∧ ∀ (m' : MemoryStorage) (t' : time.Time),
                ∃ bu, checkStep memoryStorage c .sawBlock m' t'
                  = (.done (.ok ⟨false, 0, bu⟩), m')) := by
  obtain ⟨e, hfst, hstate, _⟩ := CheckLimitAt_trigger rl himpl config k0 hnb st0 hres hdeny
  have himpl0 := CheckLimitAt_impl rl himpl config k0
  have hb0 : (rl.CheckLimitAt config k0).2.storage.data (blockKey config)
      = some ⟨1, k0.setBlock + config.BlockDuration⟩ := by
    rw [hstate]; simp
  have hk1 := blockKey_eq_of_same config c1 hc1.1 hc1.2
  have hk2 := blockKey_eq_of_same config c2 hc2.1 hc2.2
  -- the calls before the first check keep the block entry
  have hrun1 := checkAllAt_keeps_block config _ hexp l1 _ himpl0 hb0 hl1
  have hchk1 := CheckLimitAt_of_block _ hrun1.1 c1 k1 _ (by rw [hk1]; exact hrun1.2.1)
    hexp ht1
  -- so do the first check and the calls after it
  have hrun2 := checkAllAt_keeps_block config _ hexp l2
    (((rl.CheckLimitAt config k0).2.checkAllAt l1).2.CheckLimitAt c1 k1).2
    (by rw [hchk1]; exact hrun1.1) (by rw [hchk1]; exact hrun1.2.1) hl2
  have hchk2 := CheckLimitAt_of_block _ hrun2.1 c2 k2 _ (by rw [hk2]; exact hrun2.2.1)
    hexp ht2
  refine ⟨hfst, hb0, by rw [hchk1], by rw [hchk2], ?_, ?_, ?_⟩
  · intro s1 s2 h1 h2
    rw [hchk1] at h1
    rw [hchk2] at h2
    simp only [Except.ok.injEq] at h1 h2
    subst h1
    subst h2
    dsimp only
    have hmax : ∀ t : time.Time, t ≤ k0.setBlock + config.BlockDuration →
        max 0 (k0.setBlock + config.BlockDuration - t)
          = k0.setBlock + config.BlockDuration - t :=
      fun t ht => max_eq_right (sub_nonneg.2 ht)
    have hge : ∀ t r : time.Time, t ≤ r →
        k0.setBlock + config.BlockDuration
          ≤ r + max 0 (k0.setBlock + config.BlockDuration - t) := by
      intro t r htr
      have h1 : k0.setBlock + config.BlockDuration - t
          ≤ max 0 (k0.setBlock + config.BlockDuration - t) := le_max_right _ _
      linarith
    refine ⟨hge _ _, hge _ _, ?_, ?_, ?_⟩
    · intro h
      rw [hmax _ h]
      ring
    · intro h
      rw [hmax _ h]
      ring
    · intro h h'
      rw [hmax _ h, hmax _ h']
      constructor
      · intro hle
        linarith
      · intro hle
        linarith
  · intro rl' c k exp himpl' hb hle
    have hblk := IsBlocked_of_block rl'.storage (blockKey c) k.isBlocked exp hb hle
    obtain ⟨d, hd⟩ := GetTTL_shape rl'.storage (blockKey c) k.second
    exact ⟨k.ret + d, CheckLimitAt_blocked rl' himpl' c k d hblk hd⟩
  · intro m c t exp hb hle
    have hblk := IsBlocked_of_block m (blockKey c) t exp hb hle
    refine ⟨by simp only [checkStep, memoryStorage, hblk], ?_⟩
    intro m' t'
    obtain ⟨d, hd⟩ := GetTTL_shape m' (blockKey c) t'
    exact ⟨time.Add t' d, by simp only [checkStep, memoryStorage, hd]⟩

/-- C2 on the limiter of `TestRateLimiter_BlockDuration`: the third call, whose
`SetBlock` reads 103 and whose return reads 104, blocks the address until 103
plus two seconds.  After a call for another address, a check with another
limit, whose `GetTTL` reads 107 and whose return reads 109, returns
`Allowed = false` and a `BlockedUntil` two nanoseconds after that expiration; a
check in the last instant of the block returns `Allowed = false` and the
expiration itself. -/
theorem blocked_while_block_unexpired_witness :
    (testLimiterAtLimit.CheckLimitAt ⟨"192.168.1.2", "ip", 2, 2 * time.Second⟩
        ⟨102, 102, 103, 104⟩).1 = .ok ⟨false, 0, 104 + 2 * time.Second⟩
      ∧ (((testLimiterAtLimit.CheckLimitAt ⟨"192.168.1.2", "ip", 2, 2 * time.Second⟩
              ⟨102, 102, 103, 104⟩).2.checkAllAt
            [(Check.IP "192.168.1.3", ⟨105, 105, 105, 105⟩)]).2.CheckLimitAt
          ⟨"192.168.1.2", "ip", 7, time.Second⟩ ⟨106, 107, 107, 109⟩).1
          = .ok ⟨false, 0, 103 + 2 * time.Second + 2⟩
      ∧ ((((((testLimiterAtLimit.CheckLimitAt ⟨"192.168.1.2", "ip", 2, 2 * time.Second⟩
                  ⟨102, 102, 103, 104⟩).2.checkAllAt
                [(Check.IP "192.168.1.3", ⟨105, 105, 105, 105⟩)]).2.CheckLimitAt
              ⟨"192.168.1.2", "ip", 7, time.Second⟩ ⟨106, 107, 107, 109⟩).2.checkAllAt
            []).2).CheckLimitAt ⟨"192.168.1.2", "ip", 2, 2 * time.Second⟩
          (Readings.instant (103 + 2 * time.Second))).1
          = .ok ⟨false, 0, 103 + 2 * time.Second⟩ :=
  have h := blocked_while_block_unexpired testLimiterAtLimit rfl
    ⟨"192.168.1.2", "ip", 2, 2 * time.Second⟩ ⟨102, 102, 103, 104⟩ (by decide)
    ⟨false, 0, 104 + 2 * time.Second⟩ (by decide) rfl (by decide)
    [(Check.IP "192.168.1.3", ⟨105, 105, 105, 105⟩)] []
    ⟨"192.168.1.2", "ip", 7, time.Second⟩ ⟨"192.168.1.2", "ip", 2, 2 * time.Second⟩
    ⟨106, 107, 107, 109⟩ (Readings.instant (103 + 2 * time.Second))
    ⟨rfl, rfl⟩ ⟨rfl, rfl⟩ (by decide) (by decide) (by decide) (by decide)
  ⟨h.1, h.2.2.1.trans (by decide), h.2.2.2.1.trans (by decide)⟩

end usecase
